import Mathlib

set_option autoImplicit false

/-!
# Verification of the CQUDB storage kernel

Shallow embedding of the repository's two source files:
* `src/storage/buffer_pool_manager.cpp` — the buffer-pool manager
  (`find_victim_page`, `update_page`, `fetch_page`, `unpin_page`, `flush_page`,
  `new_page`, `delete_page`, `flush_all_pages`);
* `src/index/ix_index_handle.cpp` — the B+tree node handle and index handle.

Machine integers (`int`, `page_id_t`) are embedded as `Int`; none of the
operations below can overflow 32-bit arithmetic on the inputs the theorems
quantify over, so no modular reduction is inserted.  The `PAGE_SIZE`-byte page
buffer is abstracted to a single `Nat` value, since no claim concerns byte
layout inside a page; `reset_memory` becomes "set the value to 0" and disk
read/write move this value.  The pool latch / index root latch serialize all
operations in the source, so the embedding is the sequential semantics.
-/

namespace CQUDB

/-- `INVALID_PAGE_ID` sentinel (spec §6: `INVALID_PAGE_NO = −1`). -/
def INVALID_PAGE_ID : Int := -1

/-- `PageId`: pair (file handle, page number); equality is structural. -/
structure PageId where
  fd : Int
  page_no : Int
deriving DecidableEq, Repr

/-- A page frame: resident `PageId`, pin count, dirty flag, and the
(abstracted) buffer contents. -/
structure Page where
  id_ : PageId
  pin_count : Int
  is_dirty : Bool
  data : Nat
deriving DecidableEq, Repr

/-- A freshly constructed frame: invalid `PageId`, pin count 0, clean,
zeroed buffer. -/
def initPage : Page :=
  { id_ := { fd := -1, page_no := INVALID_PAGE_ID }, pin_count := 0,
    is_dirty := false, data := 0 }

/-- The external disk manager (spec §6): page contents addressed by `PageId`
plus a per-file allocation counter (`allocate_page(fd)` returns a fresh page
number per file). -/
structure DiskManager where
  disk : PageId → Nat
  next_page_no : Int → Int

/-- `DiskManager::write_page`. -/
def DiskManager.write_page (dm : DiskManager) (pid : PageId) (v : Nat) : DiskManager :=
  { dm with disk := fun q => if q = pid then v else dm.disk q }

/-- `DiskManager::allocate_page(fd)`: hand out the next page number of `fd`
and advance the counter. -/
def DiskManager.allocate_page (dm : DiskManager) (fd : Int) : Int × DiskManager :=
  (dm.next_page_no fd,
   { dm with next_page_no := fun g => if g = fd then dm.next_page_no fd + 1 else dm.next_page_no g })

/-- Modelled from the spec (§4.1; the LRU replacer's source is not under
`src/`): the evictable set is a list in LRU order, oldest first.
`victim` removes and returns the front. -/
def Replacer.victim : List Nat → Option (Nat × List Nat)
  | [] => none
  | f :: rest => some (f, rest)

/-- Modelled from the spec (§4.1): `pin` removes the frame from the evictable
set (no-op if absent). -/
def Replacer.pin (l : List Nat) (f : Nat) : List Nat :=
  l.filter (fun g => g ≠ f)

/-- Modelled from the spec (§4.1): `unpin` adds the frame at the
most-recently-added end (no-op if already present). -/
def Replacer.unpin (l : List Nat) (f : Nat) : List Nat :=
  if f ∈ l then l else l ++ [f]

/-- Buffer-pool state (spec §3): frame array (`pages`, indexed by frame id),
page table, free-frame list, replacer's evictable set, and the disk manager. -/
structure BufferPool where
  pool_size : Nat
  pages : List Page
  page_table : List (PageId × Nat)
  free_list : List Nat
  replacer : List Nat
  dm : DiskManager

/-- Remove a key from the page table (`page_table_.erase`). -/
def eraseKey (t : List (PageId × Nat)) (k : PageId) : List (PageId × Nat) :=
  t.filter (fun e => e.1 ≠ k)

/-- Insert-or-assign into the page table (`page_table_[k] = v`). -/
def setKey (t : List (PageId × Nat)) (k : PageId) (v : Nat) : List (PageId × Nat) :=
  (k, v) :: eraseKey t k

/-- Modelled from the spec (§3, the constructor is not under `src/`): all
frames initially free, in frame-id order; page table and evictable set empty. -/
def initBP (n : Nat) (dm : DiskManager) : BufferPool :=
  { pool_size := n, pages := List.replicate n initPage, page_table := [],
    free_list := List.range n, replacer := [], dm := dm }

/-- A concrete frame used by the `unpin_page_spec` witness. -/
def pgW : Page := { id_ := ⟨0, 5⟩, pin_count := 2, is_dirty := false, data := 7 }

/-- A concrete disk manager used by witnesses. -/
def dmW : DiskManager := { disk := fun _ => 0, next_page_no := fun _ => 6 }

/-- A concrete one-frame pool with page (0,5) resident and pinned twice. -/
def bpW : BufferPool :=
  { pool_size := 1, pages := [pgW], page_table := [(⟨0, 5⟩, 0)],
    free_list := [], replacer := [], dm := dmW }

/-- `BufferPoolManager::find_victim_page` (buffer_pool_manager.cpp:8-15):
prefer the front of the free list, else delegate to `replacer_->victim`. -/
def find_victim_page (bp : BufferPool) : Option (Nat × BufferPool) :=
  match bp.free_list with
  | f :: rest => some (f, { bp with free_list := rest })
  | [] =>
    match Replacer.victim bp.replacer with
    | some (f, l') => some (f, { bp with replacer := l' })
    | none => none

/-- `BufferPoolManager::update_page` (buffer_pool_manager.cpp:23-37): write
back the old contents if dirty and valid, drop the old page-table entry,
zero the buffer, install the new `PageId` with pin count 0 and clean flag,
and insert the new mapping. -/
def update_page (bp : BufferPool) (fid : Nat) (new_page_id : PageId) : BufferPool :=
  let page := bp.pages.getD fid initPage
  let old_id := page.id_
  let dm1 :=
    if page.is_dirty ∧ old_id.page_no ≠ INVALID_PAGE_ID then
      bp.dm.write_page old_id page.data
    else bp.dm
  let table1 :=
    if old_id.page_no ≠ INVALID_PAGE_ID then eraseKey bp.page_table old_id
    else bp.page_table
  let page' : Page := { id_ := new_page_id, pin_count := 0, is_dirty := false, data := 0 }
  { bp with dm := dm1,
            page_table := setKey table1 new_page_id fid,
            pages := bp.pages.set fid page' }

/-- `BufferPoolManager::fetch_page` (buffer_pool_manager.cpp:46-66).  Returns
the frame id of the returned `Page*` (or `none` for `nullptr`) together with
the new pool state. -/
def fetch_page (bp : BufferPool) (pid : PageId) : Option Nat × BufferPool :=
  match bp.page_table.lookup pid with
  | some fid =>
    let pg := bp.pages.getD fid initPage
    (some fid,
     { bp with pages := bp.pages.set fid { pg with pin_count := pg.pin_count + 1 },
               replacer := Replacer.pin bp.replacer fid })
  | none =>
    match find_victim_page bp with
    | none => (none, bp)
    | some (victim, bp1) =>
      let bp2 := update_page bp1 victim pid
      let pg := bp2.pages.getD victim initPage
      let pg' := { pg with data := bp2.dm.disk pid, pin_count := 1 }
      (some victim,
       { bp2 with pages := bp2.pages.set victim pg',
                  replacer := Replacer.pin bp2.replacer victim })

/-- `BufferPoolManager::unpin_page` (buffer_pool_manager.cpp:74-92). -/
def unpin_page (bp : BufferPool) (pid : PageId) (is_dirty : Bool) : Bool × BufferPool :=
  match bp.page_table.lookup pid with
  | none => (false, bp)
  | some fid =>
    let pg := bp.pages.getD fid initPage
    if pg.pin_count ≤ 0 then (false, bp)
    else
      let pg1 := { pg with pin_count := pg.pin_count - 1 }
      let rep1 := if pg1.pin_count = 0 then Replacer.unpin bp.replacer fid else bp.replacer
      let pg2 := if is_dirty then { pg1 with is_dirty := true } else pg1
      (true, { bp with pages := bp.pages.set fid pg2, replacer := rep1 })

/-- `BufferPoolManager::flush_page` (buffer_pool_manager.cpp:99-109). -/
def flush_page (bp : BufferPool) (pid : PageId) : Bool × BufferPool :=
  match bp.page_table.lookup pid with
  | none => (false, bp)
  | some fid =>
    let pg := bp.pages.getD fid initPage
    let dm1 := bp.dm.write_page pid pg.data
    (true, { bp with dm := dm1, pages := bp.pages.set fid { pg with is_dirty := false } })

/-- `BufferPoolManager::new_page` (buffer_pool_manager.cpp:116-132).  Returns
the allocated `PageId` and frame id (or `none` for `nullptr`). -/
def new_page (bp : BufferPool) (fd : Int) : Option (PageId × Nat) × BufferPool :=
  match find_victim_page bp with
  | none => (none, bp)
  | some (victim, bp1) =>
    let (no, dm1) := bp1.dm.allocate_page fd
    let new_id : PageId := { fd := fd, page_no := no }
    let bp2 := update_page { bp1 with dm := dm1 } victim new_id
    let pg := bp2.pages.getD victim initPage
    let pg' := { pg with pin_count := 1, is_dirty := true }
    (some (new_id, victim),
     { bp2 with pages := bp2.pages.set victim pg',
                replacer := Replacer.pin bp2.replacer victim })

/-- `BufferPoolManager::delete_page` (buffer_pool_manager.cpp:139-161). -/
def delete_page (bp : BufferPool) (pid : PageId) : Bool × BufferPool :=
  match bp.page_table.lookup pid with
  | none => (true, bp)
  | some fid =>
    let pg := bp.pages.getD fid initPage
    if pg.pin_count > 0 then (false, bp)
    else
      let rep1 := Replacer.pin bp.replacer fid
      let dm1 := if pg.is_dirty then bp.dm.write_page pid pg.data else bp.dm
      let pg' : Page := { id_ := { fd := pid.fd, page_no := INVALID_PAGE_ID },
                          pin_count := 0, is_dirty := false, data := 0 }
      (true, { bp with dm := dm1, replacer := rep1,
                       page_table := eraseKey bp.page_table pid,
                       pages := bp.pages.set fid pg',
                       free_list := bp.free_list ++ [fid] })

/-- One step of `BufferPoolManager::flush_all_pages`'s loop body. -/
def flushEntry (fd : Int) (bp : BufferPool) (e : PageId × Nat) : BufferPool :=
  if e.1.fd = fd then
    let pg := bp.pages.getD e.2 initPage
    { bp with dm := bp.dm.write_page e.1 pg.data,
              pages := bp.pages.set e.2 { pg with is_dirty := false } }
  else bp

/-- `BufferPoolManager::flush_all_pages` (buffer_pool_manager.cpp:167-177):
write back every page-table entry of the given file, clearing `dirty`.  The
loop iterates over the page table, which it does not modify. -/
def flush_all_pages (bp : BufferPool) (fd : Int) : BufferPool :=
  bp.page_table.foldl (flushEntry fd) bp

/-- Looking up a key after erasing one. -/
theorem lookup_eraseKey (t : List (PageId × Nat)) (k q : PageId) :
    (eraseKey t k).lookup q = if q = k then none else t.lookup q := by
  induction t with
  | nil => simp [eraseKey]
  | cons e rest ih =>
    by_cases hek : e.1 = k
    · have hfilter : eraseKey (e :: rest) k = eraseKey rest k := by
        simp [eraseKey, hek]
      rw [hfilter, ih]
      by_cases hqk : q = k
      · simp [hqk]
      · have hb : (q == e.1) = false := by simp [hek, hqk]
        cases e
        simp only [List.lookup_cons] at hb ⊢
        simp [hqk, hb]
    · have hfilter : eraseKey (e :: rest) k = e :: eraseKey rest k := by
        simp [eraseKey, hek]
      rw [hfilter]
      cases e with
      | mk e1 e2 =>
        by_cases hqe : q = e1
        · have he1k : ¬ e1 = k := hek
          have hqk : ¬ q = k := by rw [hqe]; exact he1k
          simp [List.lookup_cons, hqe, hqk, he1k]
        · have hb : (q == e1) = false := by simp [hqe]
          simp [List.lookup_cons, hb, ih]

/-- Looking up a key after an insert-or-assign. -/
theorem lookup_setKey (t : List (PageId × Nat)) (k : PageId) (v : Nat) (q : PageId) :
    (setKey t k v).lookup q = if q = k then some v else t.lookup q := by
  by_cases hqk : q = k
  · simp [setKey, List.lookup, hqk]
  · have h1 : (q == k) = false := by simp [hqk]
    simp [setKey, List.lookup, h1, lookup_eraseKey, hqk]

/-- `getD` after `set` at the same index. -/
theorem getD_set_self (l : List Page) (i : Nat) (x d : Page) (h : i < l.length) :
    (l.set i x).getD i d = x := by
  simp [List.getD, List.getElem?_set_self', h]

/-- `getD` after `set` at a different index. -/
theorem getD_set_ne (l : List Page) (i j : Nat) (x d : Page) (h : i ≠ j) :
    (l.set i x).getD j d = l.getD j d := by
  simp [List.getD, List.getElem?_set_ne h]

/-- Run a sequence of `fetch_page` calls, keeping the final state. -/
def runFetches (bp : BufferPool) : List PageId → BufferPool
  | [] => bp
  | pid :: rest => runFetches (fetch_page bp pid).2 rest

/-- `true` iff every `fetch_page` in the sequence returns a frame (non-null). -/
def fetchesOk (bp : BufferPool) : List PageId → Bool
  | [] => true
  | pid :: rest =>
    match fetch_page bp pid with
    | (some _, bp') => fetchesOk bp' rest
    | (none, _) => false

/-- Invariant of fetch-only runs started from a fresh pool of size `n`: the
evictable set is empty, free frames plus resident pages account for the whole
pool, the page table holds exactly the already-fetched `PageId`s (`S`), and
free frames still hold no page. -/
def FetchInv (n : Nat) (bp : BufferPool) (S : Finset PageId) : Prop :=
  bp.pool_size = n ∧
  bp.replacer = [] ∧
  bp.free_list.length + S.card = n ∧
  (∀ pid : PageId, (bp.page_table.lookup pid).isSome ↔ pid ∈ S) ∧
  (∀ f ∈ bp.free_list, (bp.pages.getD f initPage).id_.page_no = INVALID_PAGE_ID) ∧
  bp.free_list.Nodup

/-- `set` keeps a slot's resident `PageId` if the written frame carries the
same one. -/
theorem getD_set_id (l : List Page) (i j : Nat) (x d : Page)
    (hid : x.id_ = (l.getD i d).id_) :
    ((l.set i x).getD j d).id_ = (l.getD j d).id_ := by
  by_cases hij : i = j
  · subst hij
    by_cases h : i < l.length
    · rw [getD_set_self _ _ _ _ h, hid]
    · rw [List.set_eq_of_length_le (by omega)]
  · rw [getD_set_ne _ _ _ _ _ hij]

/-- `fetch_page` on a resident page: pin it and return its frame. -/
theorem fetch_page_hit (bp : BufferPool) (pid : PageId) (fid : Nat)
    (hl : bp.page_table.lookup pid = some fid) :
    fetch_page bp pid =
      (some fid,
       { bp with
           pages := bp.pages.set fid
             { bp.pages.getD fid initPage with
                 pin_count := (bp.pages.getD fid initPage).pin_count + 1 },
           replacer := Replacer.pin bp.replacer fid }) := by
  simp [fetch_page, hl]

/-- `fetch_page` on a miss with a free frame at hand whose slot holds no
page: pop the free list, install the page there, pin it once. -/
theorem fetch_page_miss_free (bp : BufferPool) (pid : PageId) (f : Nat) (rest : List Nat)
    (hl : bp.page_table.lookup pid = none) (hf : bp.free_list = f :: rest)
    (hinv : (bp.pages.getD f initPage).id_.page_no = INVALID_PAGE_ID) :
    fetch_page bp pid =
      (some f,
       { bp with
           free_list := rest,
           page_table := setKey bp.page_table pid f,
           pages := bp.pages.set f
             { id_ := pid, pin_count := 1, is_dirty := false, data := bp.dm.disk pid },
           replacer := Replacer.pin bp.replacer f }) := by
  by_cases hlen : f < bp.pages.length
  · have hinv' : bp.pages[f].id_.page_no = INVALID_PAGE_ID := by
      simpa [List.getD, List.getElem?_eq_getElem hlen] using hinv
    simp [fetch_page, hl, find_victim_page, hf, update_page, hinv', hlen, List.set_set]
  · have hle : bp.pages.length ≤ f := by omega
    simp [fetch_page, hl, find_victim_page, hf, update_page, hinv,
      List.set_eq_of_length_le hle, List.getElem?_eq_none hle, initPage, INVALID_PAGE_ID]

/-- A fetch hit preserves the fetch-run invariant. -/
theorem FetchInv_hit (n : Nat) (bp : BufferPool) (S : Finset PageId) (pid : PageId) (fid : Nat)
    (hinv : FetchInv n bp S) (hl : bp.page_table.lookup pid = some fid) :
    FetchInv n (fetch_page bp pid).2 S := by
  obtain ⟨hn, hr, hc, ht, hfree, hnd⟩ := hinv
  rw [fetch_page_hit bp pid fid hl]
  refine ⟨hn, by simp [hr, Replacer.pin], hc, ht, ?_, hnd⟩
  intro f hf
  dsimp only at hf ⊢
  by_cases hij : fid = f
  · subst hij
    by_cases h : fid < bp.pages.length
    · rw [getD_set_self _ _ _ _ h]
      exact hfree fid hf
    · rw [List.set_eq_of_length_le (by omega)]
      exact hfree fid hf
  · rw [getD_set_ne _ _ _ _ _ hij]
    exact hfree f hf

/-- A fetch miss with room left succeeds and extends the fetch-run invariant. -/
theorem FetchInv_miss (n : Nat) (bp : BufferPool) (S : Finset PageId) (pid : PageId)
    (hinv : FetchInv n bp S) (hl : bp.page_table.lookup pid = none)
    (hroom : S.card < n) :
    (fetch_page bp pid).1.isSome ∧ FetchInv n (fetch_page bp pid).2 (insert pid S) := by
  obtain ⟨hn, hr, hc, ht, hfree, hnd⟩ := hinv
  have hpid : pid ∉ S := by
    intro hmem
    have := (ht pid).mpr hmem
    simp [hl] at this
  obtain ⟨f, rest, hf⟩ : ∃ f rest, bp.free_list = f :: rest := by
    cases hflist : bp.free_list with
    | nil => rw [hflist] at hc; simp at hc; omega
    | cons a b => exact ⟨a, b, rfl⟩
  have hffree : f ∈ bp.free_list := by rw [hf]; exact List.mem_cons_self _ _
  rw [fetch_page_miss_free bp pid f rest hl hf (hfree f hffree)]
  have hnd' : (f :: rest).Nodup := hf ▸ hnd
  refine ⟨by simp, hn, by simp [hr, Replacer.pin], ?_, ?_, ?_, ?_⟩
  · dsimp only
    rw [hf] at hc
    simp only [List.length_cons] at hc
    rw [Finset.card_insert_of_not_mem hpid]
    omega
  · intro q
    dsimp only
    rw [lookup_setKey]
    by_cases hq : q = pid
    · simp [hq]
    · simp only [if_neg hq, Finset.mem_insert, hq, false_or]
      exact ht q
  · intro g hg
    dsimp only at hg ⊢
    have hgf : f ≠ g := fun h => (List.nodup_cons.mp hnd').1 (h ▸ hg)
    rw [getD_set_ne _ _ _ _ _ hgf]
    exact hfree g (by rw [hf]; exact List.mem_cons_of_mem _ hg)
  · exact (List.nodup_cons.mp hnd').2

/-- Fetch-only runs whose distinct-`PageId` footprint fits in the pool all
succeed and maintain the fetch-run invariant. -/
theorem fetch_run (n : Nat) (pids : List PageId) : ∀ (bp : BufferPool) (S : Finset PageId),
    FetchInv n bp S → (pids.toFinset ∪ S).card ≤ n →
    fetchesOk bp pids = true ∧ FetchInv n (runFetches bp pids) (pids.toFinset ∪ S) := by
  induction pids with
  | nil =>
    intro bp S hinv hcard
    simpa [fetchesOk, runFetches] using hinv
  | cons pid rest ih =>
    intro bp S hinv hcard
    have hunion : (pid :: rest).toFinset ∪ S = rest.toFinset ∪ insert pid S := by
      simp only [List.toFinset_cons]
      rw [Finset.insert_union, Finset.union_insert]
    by_cases hmem : (bp.page_table.lookup pid).isSome
    · obtain ⟨fid, hfid⟩ := Option.isSome_iff_exists.mp hmem
      have hpidS : pid ∈ S := (hinv.2.2.2.1 pid).mp hmem
      have hstep := FetchInv_hit n bp S pid fid hinv hfid
      have hSins : insert pid S = S := Finset.insert_eq_self.mpr hpidS
      have hrec := ih (fetch_page bp pid).2 S hstep
        (by rw [hunion, hSins] at hcard; exact hcard)
      constructor
      · rw [fetchesOk]
        rw [fetch_page_hit bp pid fid hfid] at hrec ⊢
        exact hrec.1
      · rw [runFetches, hunion, hSins]
        exact hrec.2
    · have hl : bp.page_table.lookup pid = none := by
        cases h : bp.page_table.lookup pid with
        | none => rfl
        | some v => rw [h] at hmem; simp at hmem
      have hroom : S.card < n := by
        have hsub : insert pid S ⊆ (pid :: rest).toFinset ∪ S := by
          intro x hx
          rcases Finset.mem_insert.mp hx with h | h
          · subst h; simp [List.toFinset_cons]
          · exact Finset.mem_union_right _ h
        have h1 : (insert pid S).card ≤ n := le_trans (Finset.card_le_card hsub) hcard
        have hpid : pid ∉ S := by
          intro hmem'
          have := (hinv.2.2.2.1 pid).mpr hmem'
          simp [hl] at this
        rw [Finset.card_insert_of_not_mem hpid] at h1
        omega
      obtain ⟨hok, hstep⟩ := FetchInv_miss n bp S pid hinv hl hroom
      have hrec := ih (fetch_page bp pid).2 (insert pid S) hstep
        (by rw [hunion] at hcard; exact hcard)
      obtain ⟨fid, hfid⟩ := Option.isSome_iff_exists.mp hok
      constructor
      · rw [fetchesOk]
        cases hfp : fetch_page bp pid with
        | mk r bp' =>
          rw [hfp] at hfid hrec
          simp only at hfid
          rw [hfid]
          exact hrec.1
      · rw [runFetches, hunion]
        exact hrec.2

/-- C2: starting from a fresh pool of size `n`, every sequence of
`fetch_page` calls touching at most `n` distinct `PageId`s (with no
intervening unpins) succeeds on every call, and once exactly `n` distinct
`PageId`s have been touched, fetching a further distinct `PageId` returns
null. -/
theorem fetch_capacity (n : Nat) (dm : DiskManager) (pids : List PageId) (pidNew : PageId) :
    (pids.toFinset.card ≤ n → fetchesOk (initBP n dm) pids = true) ∧
    (pids.toFinset.card = n → pidNew ∉ pids →
      (fetch_page (runFetches (initBP n dm) pids) pidNew).1 = none) := by
  have hinit : FetchInv n (initBP n dm) ∅ := by
    refine ⟨rfl, rfl, by simp [initBP], by simp [initBP], ?_, by simp [initBP, List.nodup_range]⟩
    intro f hf
    simp only [initBP, List.getD, List.getElem?_replicate]
    by_cases h : f < n <;> simp [h, initPage]
  constructor
  · intro hcard
    exact (fetch_run n pids (initBP n dm) ∅ hinit (by simpa using hcard)).1
  · intro hcard hnot
    have h := (fetch_run n pids (initBP n dm) ∅ hinit (by simp [hcard])).2
    obtain ⟨hn, hr, hc, ht, hfree, hnd⟩ := h
    have hfree0 : (runFetches (initBP n dm) pids).free_list = [] := by
      have : (runFetches (initBP n dm) pids).free_list.length = 0 := by
        rw [Finset.union_empty, hcard] at hc
        omega
      exact List.length_eq_zero.mp this
    have hlook : (runFetches (initBP n dm) pids).page_table.lookup pidNew = none := by
      have hnot' : pidNew ∉ pids.toFinset ∪ ∅ := by
        simp [List.mem_toFinset]
        exact hnot
      cases h : (runFetches (initBP n dm) pids).page_table.lookup pidNew with
      | none => rfl
      | some v =>
        exact absurd ((ht pidNew).mp (by simp [h])) hnot'
    simp [fetch_page, hlook, find_victim_page, hfree0, hr, Replacer.victim]

/-- Witness for `fetch_capacity`: pool of size 2, fetch sequence touching two
distinct `PageId`s (with a repeat), then a third distinct `PageId`. -/
theorem fetch_capacity_witness :
    fetchesOk (initBP 2 dmW) [⟨0, 1⟩, ⟨0, 2⟩, ⟨0, 1⟩] = true ∧
    (fetch_page (runFetches (initBP 2 dmW) [⟨0, 1⟩, ⟨0, 2⟩, ⟨0, 1⟩]) ⟨0, 3⟩).1 = none :=
  ⟨(fetch_capacity 2 dmW [⟨0, 1⟩, ⟨0, 2⟩, ⟨0, 1⟩] ⟨0, 3⟩).1 (by decide),
   (fetch_capacity 2 dmW [⟨0, 1⟩, ⟨0, 2⟩, ⟨0, 1⟩] ⟨0, 3⟩).2 (by decide) (by decide)⟩

/-- A buffer-pool operation (one public call, result discarded). -/
inductive BPOp where
  | fetch (pid : PageId)
  | unpin (pid : PageId) (d : Bool)
  | flush (pid : PageId)
  | newp (fd : Int)
  | del (pid : PageId)
  | flushAll (fd : Int)

/-- Apply one operation, keeping only the state. -/
def applyOp (bp : BufferPool) : BPOp → BufferPool
  | .fetch pid => (fetch_page bp pid).2
  | .unpin pid d => (unpin_page bp pid d).2
  | .flush pid => (flush_page bp pid).2
  | .newp fd => (new_page bp fd).2
  | .del pid => (delete_page bp pid).2
  | .flushAll fd => flush_all_pages bp fd

/-- Run a sequence of operations. -/
def runOps (bp : BufferPool) : List BPOp → BufferPool
  | [] => bp
  | op :: rest => runOps (applyOp bp op) rest

/-- Environment assumption on one operation: `fetch_page` is only called for
page numbers the disk manager has already allocated (callers fetch pages that
exist in the file; reading an unallocated page is a caller error). -/
def legalOpB (bp : BufferPool) : BPOp → Bool
  | .fetch pid => decide (0 ≤ pid.page_no ∧ pid.page_no < bp.dm.next_page_no pid.fd)
  | _ => true

/-- Environment assumption on a whole sequence. -/
def legalOpsB (bp : BufferPool) : List BPOp → Bool
  | [] => true
  | op :: rest => legalOpB bp op && legalOpsB (applyOp bp op) rest

/-- The buffer-pool state invariant behind claim C3.

* `hlen`: the frame array has `pool_size` slots;
* `htab`: a page-table entry `pid ↦ fid` points at a real frame recording
  exactly `pid`, which is a valid, already-allocated page number;
* `hframe`: a frame holding a valid page number is indexed by the page table
  at its own frame id;
* `hfree`: free frames are real and hold no page;
* `hrep`: evictable frames are real;
* `hndfree`: the free list has no duplicates;
* `halloc`: allocation counters are non-negative. -/
structure Inv (bp : BufferPool) : Prop where
  hlen : bp.pages.length = bp.pool_size
  htab : ∀ pid fid, bp.page_table.lookup pid = some fid →
    fid < bp.pool_size ∧ (bp.pages.getD fid initPage).id_ = pid ∧
    pid.page_no ≠ INVALID_PAGE_ID ∧ pid.page_no < bp.dm.next_page_no pid.fd
  hframe : ∀ fid, fid < bp.pool_size →
    (bp.pages.getD fid initPage).id_.page_no ≠ INVALID_PAGE_ID →
    bp.page_table.lookup ((bp.pages.getD fid initPage).id_) = some fid
  hfree : ∀ f ∈ bp.free_list, f < bp.pool_size ∧
    (bp.pages.getD f initPage).id_.page_no = INVALID_PAGE_ID
  hrep : ∀ f ∈ bp.replacer, f < bp.pool_size
  hndfree : bp.free_list.Nodup
  halloc : ∀ fd, 0 ≤ bp.dm.next_page_no fd

/-- Core preservation lemma for the "install `pid` into victim frame `v`"
pattern shared by the `fetch_page` miss path and `new_page` (both go through
`update_page` and then fill the frame's metadata, keeping the new `PageId`). -/
theorem Inv_after_install (bp : BufferPool) (hInv : Inv bp) (v : Nat) (pid : PageId)
    (table1 free' rep' : List _) (dm' : DiskManager) (pc : Int) (db : Bool) (dt : Nat)
    (hv : v < bp.pool_size)
    (hmiss : bp.page_table.lookup pid = none)
    (hval : pid.page_no ≠ INVALID_PAGE_ID)
    (hnext : pid.page_no < dm'.next_page_no pid.fd)
    (h1 : table1 = if (bp.pages.getD v initPage).id_.page_no ≠ INVALID_PAGE_ID then
            eraseKey bp.page_table (bp.pages.getD v initPage).id_ else bp.page_table)
    (hfree' : ∀ f ∈ free', f ∈ bp.free_list ∧ f ≠ v)
    (hrep' : ∀ f ∈ rep', f < bp.pool_size)
    (hnd' : free'.Nodup)
    (hnext_mono : ∀ q fid, bp.page_table.lookup q = some fid →
      q.page_no < dm'.next_page_no q.fd)
    (halloc' : ∀ fd, 0 ≤ dm'.next_page_no fd) :
    Inv { bp with
            pages := bp.pages.set v { id_ := pid, pin_count := pc, is_dirty := db, data := dt },
            page_table := setKey table1 pid v,
            free_list := free', replacer := rep', dm := dm' } := by
  have hvlen : v < bp.pages.length := by rw [hInv.hlen]; exact hv
  have hgdv : (bp.pages.set v { id_ := pid, pin_count := pc, is_dirty := db, data := dt }).getD
      v initPage = { id_ := pid, pin_count := pc, is_dirty := db, data := dt } :=
    getD_set_self _ _ _ _ hvlen
  have hold : ∀ q, q ≠ pid → (setKey table1 pid v).lookup q =
      (if (bp.pages.getD v initPage).id_.page_no ≠ INVALID_PAGE_ID then
        eraseKey bp.page_table (bp.pages.getD v initPage).id_ else bp.page_table).lookup q := by
    intro q hq
    rw [lookup_setKey, if_neg hq, h1]
  refine ⟨by simp [hInv.hlen], ?_, ?_, ?_, hrep', hnd', halloc'⟩
  · intro q fid hlk
    by_cases hq : q = pid
    · subst hq
      rw [lookup_setKey, if_pos rfl] at hlk
      cases hlk
      exact ⟨hv, by rw [hgdv], hval, hnext⟩
    · rw [hold q hq] at hlk
      have hlk' : bp.page_table.lookup q = some fid := by
        by_cases hvald : (bp.pages.getD v initPage).id_.page_no ≠ INVALID_PAGE_ID
        · rw [if_pos hvald, lookup_eraseKey] at hlk
          by_cases hqo : q = (bp.pages.getD v initPage).id_
          · rw [if_pos hqo] at hlk; cases hlk
          · rwa [if_neg hqo] at hlk
        · rwa [if_neg hvald] at hlk
      obtain ⟨hfid, hid, hval', hnext'⟩ := hInv.htab q fid hlk'
      have hfv : fid ≠ v := by
        intro h
        subst h
        by_cases hvald : (bp.pages.getD fid initPage).id_.page_no ≠ INVALID_PAGE_ID
        · rw [if_pos hvald, lookup_eraseKey] at hlk
          by_cases hqo : q = (bp.pages.getD fid initPage).id_
          · rw [if_pos hqo] at hlk; cases hlk
          · exact hqo hid.symm
        · rw [hid] at hvald
          exact hvald hval'
      refine ⟨hfid, ?_, hval', hnext_mono q fid hlk'⟩
      rw [getD_set_ne _ _ _ _ _ (fun h => hfv h.symm), hid]
  · intro fid hfid hvalid
    by_cases hfv : fid = v
    · subst hfv
      rw [hgdv] at hvalid ⊢
      rw [lookup_setKey, if_pos rfl]
    · rw [getD_set_ne _ _ _ _ _ (fun h => hfv h.symm)] at hvalid ⊢
      have hlk := hInv.hframe fid hfid hvalid
      have hne_pid : (bp.pages.getD fid initPage).id_ ≠ pid := by
        intro h
        rw [h] at hlk
        rw [hmiss] at hlk
        cases hlk
      rw [lookup_setKey, if_neg hne_pid, h1]
      by_cases hvald : (bp.pages.getD v initPage).id_.page_no ≠ INVALID_PAGE_ID
      · rw [if_pos hvald, lookup_eraseKey]
        have hne_old : (bp.pages.getD fid initPage).id_ ≠ (bp.pages.getD v initPage).id_ := by
          intro h
          have hlkv := hInv.hframe v hv hvald
          rw [← h] at hlkv
          rw [hlk] at hlkv
          cases hlkv
          exact hfv rfl
        rw [if_neg hne_old]
        exact hlk
      · rw [if_neg hvald]
        exact hlk
  · intro f hf
    obtain ⟨hmem, hfv⟩ := hfree' f hf
    obtain ⟨hfn, hfinv⟩ := hInv.hfree f hmem
    refine ⟨hfn, ?_⟩
    rw [getD_set_ne _ _ _ _ _ (fun h => hfv h.symm)]
    exact hfinv

/-- `write_page` does not move the allocation counters. -/
theorem next_write_page (dm : DiskManager) (a : PageId) (b : Nat) :
    (dm.write_page a b).next_page_no = dm.next_page_no := rfl

/-- Preservation of `Inv` when one frame's metadata changes but its recorded
`PageId` does not, the replacer shrinks to frames of the pool, and the disk
manager keeps its allocation counters. -/
theorem Inv_set_frame (bp : BufferPool) (hInv : Inv bp) (fid : Nat) (x : Page)
    (rep' : List Nat) (dm' : DiskManager)
    (hx : x.id_ = (bp.pages.getD fid initPage).id_)
    (hrep' : ∀ f ∈ rep', f < bp.pool_size)
    (hdm : dm'.next_page_no = bp.dm.next_page_no) :
    Inv { bp with pages := bp.pages.set fid x, replacer := rep', dm := dm' } := by
  have hkeep : ∀ j, ((bp.pages.set fid x).getD j initPage).id_ =
      (bp.pages.getD j initPage).id_ := by
    intro j
    by_cases hij : fid = j
    · subst hij
      by_cases h : fid < bp.pages.length
      · rw [getD_set_self _ _ _ _ h, hx]
      · rw [List.set_eq_of_length_le (by omega)]
    · rw [getD_set_ne _ _ _ _ _ hij]
  refine ⟨by simp [hInv.hlen], ?_, ?_, ?_, hrep', hInv.hndfree, by rw [hdm]; exact hInv.halloc⟩
  · intro q fid' hlk
    obtain ⟨h1, h2, h3, h4⟩ := hInv.htab q fid' hlk
    exact ⟨h1, by rw [hkeep, h2], h3, by rw [hdm]; exact h4⟩
  · intro fid' hfid' hvalid
    rw [hkeep] at hvalid ⊢
    exact hInv.hframe fid' hfid' hvalid
  · intro f hf
    obtain ⟨h1, h2⟩ := hInv.hfree f hf
    exact ⟨h1, by rw [hkeep]; exact h2⟩

/-- `fetch_page` on a miss with an empty free list and a replacer victim at a
real frame. -/
theorem fetch_page_miss_victim (bp : BufferPool) (pid : PageId) (v : Nat) (vs : List Nat)
    (hl : bp.page_table.lookup pid = none) (hf : bp.free_list = [])
    (hr : bp.replacer = v :: vs) (hv : v < bp.pages.length) :
    fetch_page bp pid =
      (some v,
       { bp with
           pages := bp.pages.set v
             { id_ := pid, pin_count := 1, is_dirty := false,
               data := (if (bp.pages.getD v initPage).is_dirty = true ∧
                           (bp.pages.getD v initPage).id_.page_no ≠ INVALID_PAGE_ID then
                          bp.dm.write_page (bp.pages.getD v initPage).id_
                            (bp.pages.getD v initPage).data
                        else bp.dm).disk pid },
           page_table :=
             setKey (if (bp.pages.getD v initPage).id_.page_no ≠ INVALID_PAGE_ID then
                       eraseKey bp.page_table (bp.pages.getD v initPage).id_
                     else bp.page_table) pid v,
           replacer := Replacer.pin vs v,
           dm := if (bp.pages.getD v initPage).is_dirty = true ∧
                    (bp.pages.getD v initPage).id_.page_no ≠ INVALID_PAGE_ID then
                   bp.dm.write_page (bp.pages.getD v initPage).id_
                     (bp.pages.getD v initPage).data
                 else bp.dm }) := by
  simp only [fetch_page, hl, find_victim_page, hf, Replacer.victim, hr, update_page]
  simp [hv, List.set_set]

/-- `new_page` with a free frame at hand whose slot holds no page. -/
theorem new_page_free (bp : BufferPool) (fd : Int) (f : Nat) (rest : List Nat)
    (hf : bp.free_list = f :: rest)
    (hinv : (bp.pages.getD f initPage).id_.page_no = INVALID_PAGE_ID) :
    new_page bp fd =
      (some ({ fd := fd, page_no := bp.dm.next_page_no fd }, f),
       { bp with
           free_list := rest,
           dm := { bp.dm with next_page_no := fun g =>
                     if g = fd then bp.dm.next_page_no fd + 1 else bp.dm.next_page_no g },
           page_table := setKey bp.page_table { fd := fd, page_no := bp.dm.next_page_no fd } f,
           pages := bp.pages.set f
             { id_ := { fd := fd, page_no := bp.dm.next_page_no fd },
               pin_count := 1, is_dirty := true, data := 0 },
           replacer := Replacer.pin bp.replacer f }) := by
  by_cases hlen : f < bp.pages.length
  · have hinv' : bp.pages[f].id_.page_no = INVALID_PAGE_ID := by
      simpa [List.getD, List.getElem?_eq_getElem hlen] using hinv
    simp [new_page, find_victim_page, hf, DiskManager.allocate_page, update_page, hinv',
      hlen, List.set_set]
  · have hle : bp.pages.length ≤ f := by omega
    simp [new_page, find_victim_page, hf, DiskManager.allocate_page, update_page, hinv,
      List.set_eq_of_length_le hle, List.getElem?_eq_none hle, initPage, INVALID_PAGE_ID]

/-- `new_page` with an empty free list and a replacer victim at a real
frame. -/
theorem new_page_victim (bp : BufferPool) (fd : Int) (v : Nat) (vs : List Nat)
    (hf : bp.free_list = []) (hr : bp.replacer = v :: vs) (hv : v < bp.pages.length) :
    new_page bp fd =
      (some ({ fd := fd, page_no := bp.dm.next_page_no fd }, v),
       { bp with
           pages := bp.pages.set v
             { id_ := { fd := fd, page_no := bp.dm.next_page_no fd },
               pin_count := 1, is_dirty := true, data := 0 },
           page_table :=
             setKey (if (bp.pages.getD v initPage).id_.page_no ≠ INVALID_PAGE_ID then
                       eraseKey bp.page_table (bp.pages.getD v initPage).id_
                     else bp.page_table) { fd := fd, page_no := bp.dm.next_page_no fd } v,
           replacer := Replacer.pin vs v,
           dm := (if (bp.pages.getD v initPage).is_dirty = true ∧
                     (bp.pages.getD v initPage).id_.page_no ≠ INVALID_PAGE_ID then
                    ({ bp.dm with next_page_no := fun g =>
                        if g = fd then bp.dm.next_page_no fd + 1
                        else bp.dm.next_page_no g } : DiskManager).write_page
                      (bp.pages.getD v initPage).id_ (bp.pages.getD v initPage).data
                  else { bp.dm with next_page_no := fun g =>
                          if g = fd then bp.dm.next_page_no fd + 1
                          else bp.dm.next_page_no g }) }) := by
  simp only [new_page, find_victim_page, hf, Replacer.victim, hr,
    DiskManager.allocate_page, update_page]
  simp [hv, List.set_set]

/-- Membership after `Replacer.pin`. -/
theorem mem_Replacer_pin (l : List Nat) (f g : Nat) (h : g ∈ Replacer.pin l f) : g ∈ l := by
  simp only [Replacer.pin, List.mem_filter] at h
  exact h.1

/-- Membership after `Replacer.unpin`. -/
theorem mem_Replacer_unpin (l : List Nat) (f g : Nat) (h : g ∈ Replacer.unpin l f) :
    g ∈ l ∨ g = f := by
  simp only [Replacer.unpin] at h
  split at h
  · exact Or.inl h
  · rcases List.mem_append.mp h with h' | h'
    · exact Or.inl h'
    · simp at h'
      exact Or.inr h'

/-- A conditional write-back keeps the allocation counters. -/
theorem next_ite_write (c : Prop) [Decidable c] (dm : DiskManager) (a : PageId) (b : Nat) :
    (if c then dm.write_page a b else dm).next_page_no = dm.next_page_no := by
  split <;> rfl

/-- `fetch_page` of an already-allocated page preserves the invariant. -/
theorem Inv_fetch (bp : BufferPool) (pid : PageId) (hInv : Inv bp)
    (h0 : 0 ≤ pid.page_no) (hnext : pid.page_no < bp.dm.next_page_no pid.fd) :
    Inv (fetch_page bp pid).2 := by
  have hval : pid.page_no ≠ INVALID_PAGE_ID := by
    simp only [INVALID_PAGE_ID]
    omega
  cases hlk : bp.page_table.lookup pid with
  | some fid =>
    rw [fetch_page_hit bp pid fid hlk]
    exact Inv_set_frame bp hInv fid _ _ bp.dm rfl
      (fun f hf => hInv.hrep f (mem_Replacer_pin _ _ _ hf)) rfl
  | none =>
    cases hfl : bp.free_list with
    | cons f rest =>
      obtain ⟨hfn, hfinv⟩ := hInv.hfree f (by rw [hfl]; exact List.mem_cons_self _ _)
      rw [fetch_page_miss_free bp pid f rest hlk hfl hfinv]
      have hnd := hInv.hndfree
      rw [hfl] at hnd
      refine Inv_after_install bp hInv f pid bp.page_table rest _ bp.dm 1 false _
        hfn hlk hval hnext ?_ ?_ ?_ (List.nodup_cons.mp hnd).2 ?_ hInv.halloc
      · rw [if_neg (by simpa using hfinv)]
      · intro g hg
        exact ⟨by rw [hfl]; exact List.mem_cons_of_mem _ hg,
               fun h => (List.nodup_cons.mp hnd).1 (h ▸ hg)⟩
      · exact fun g hg => hInv.hrep g (mem_Replacer_pin _ _ _ hg)
      · exact fun q fid hq => (hInv.htab q fid hq).2.2.2
    | nil =>
      cases hrl : bp.replacer with
      | nil =>
        have hres : fetch_page bp pid = (none, bp) := by
          simp [fetch_page, hlk, find_victim_page, hfl, hrl, Replacer.victim]
        rw [hres]
        exact hInv
      | cons v vs =>
        have hvn : v < bp.pool_size := hInv.hrep v (by rw [hrl]; exact List.mem_cons_self _ _)
        have hvlen : v < bp.pages.length := by rw [hInv.hlen]; exact hvn
        rw [fetch_page_miss_victim bp pid v vs hlk hfl hrl hvlen]
        refine Inv_after_install bp hInv v pid _ bp.free_list _ _ 1 false _
          hvn hlk hval (by rw [next_ite_write]; exact hnext) rfl ?_ ?_ hInv.hndfree ?_ ?_
        · intro g hg
          rw [hfl] at hg
          cases hg
        · exact fun g hg => hInv.hrep g (by rw [hrl]; exact List.mem_cons_of_mem _ (mem_Replacer_pin _ _ _ hg))
        · intro q fid hq
          rw [next_ite_write]
          exact (hInv.htab q fid hq).2.2.2
        · intro fd
          rw [next_ite_write]
          exact hInv.halloc fd

/-- `unpin_page` preserves the invariant. -/
theorem Inv_unpin (bp : BufferPool) (pid : PageId) (d : Bool) (hInv : Inv bp) :
    Inv (unpin_page bp pid d).2 := by
  cases hlk : bp.page_table.lookup pid with
  | none =>
    simp only [unpin_page, hlk]
    exact hInv
  | some fid =>
    by_cases hpc : (bp.pages.getD fid initPage).pin_count ≤ 0
    · simp only [unpin_page, hlk, if_pos hpc]
      exact hInv
    · simp only [unpin_page, hlk, if_neg hpc]
      refine Inv_set_frame bp hInv fid _ _ bp.dm (by cases d <;> rfl) ?_ rfl
      intro g hg
      split at hg
      · rcases mem_Replacer_unpin _ _ _ hg with h | h
        · exact hInv.hrep g h
        · subst h
          exact (hInv.htab pid g hlk).1
      · exact hInv.hrep g hg

/-- `flush_page` preserves the invariant. -/
theorem Inv_flush (bp : BufferPool) (pid : PageId) (hInv : Inv bp) :
    Inv (flush_page bp pid).2 := by
  cases hlk : bp.page_table.lookup pid with
  | none =>
    simp only [flush_page, hlk]
    exact hInv
  | some fid =>
    simp only [flush_page, hlk]
    exact Inv_set_frame bp hInv fid _ _ _ rfl hInv.hrep rfl

/-- No page-table key carries the page number the allocator is about to hand
out. -/
theorem lookup_fresh_none (bp : BufferPool) (hInv : Inv bp) (fd : Int) :
    bp.page_table.lookup { fd := fd, page_no := bp.dm.next_page_no fd } = none := by
  cases hlk : bp.page_table.lookup { fd := fd, page_no := bp.dm.next_page_no fd } with
  | none => rfl
  | some fid =>
    have := (hInv.htab _ fid hlk).2.2.2
    simp at this

/-- `new_page` preserves the invariant. -/
theorem Inv_newp (bp : BufferPool) (fd : Int) (hInv : Inv bp) :
    Inv (new_page bp fd).2 := by
  have hmiss := lookup_fresh_none bp hInv fd
  have hval : ({ fd := fd, page_no := bp.dm.next_page_no fd } : PageId).page_no ≠
      INVALID_PAGE_ID := by
    have := hInv.halloc fd
    simp only [INVALID_PAGE_ID]
    omega
  cases hfl : bp.free_list with
  | cons f rest =>
    obtain ⟨hfn, hfinv⟩ := hInv.hfree f (by rw [hfl]; exact List.mem_cons_self _ _)
    rw [new_page_free bp fd f rest hfl hfinv]
    have hnd := hInv.hndfree
    rw [hfl] at hnd
    refine Inv_after_install bp hInv f _ bp.page_table rest _ _ 1 true 0
      hfn hmiss hval (by simp) ?_ ?_ ?_ (List.nodup_cons.mp hnd).2 ?_ ?_
    · rw [if_neg (by simpa using hfinv)]
    · intro g hg
      exact ⟨by rw [hfl]; exact List.mem_cons_of_mem _ hg,
             fun h => (List.nodup_cons.mp hnd).1 (h ▸ hg)⟩
    · exact fun g hg => hInv.hrep g (mem_Replacer_pin _ _ _ hg)
    · intro q fid hq
      have hlt := (hInv.htab q fid hq).2.2.2
      dsimp only
      by_cases hqfd : q.fd = fd
      · rw [if_pos hqfd, ← hqfd]
        omega
      · rw [if_neg hqfd]
        exact hlt
    · intro g
      dsimp only
      by_cases hgfd : g = fd
      · rw [if_pos hgfd]
        have := hInv.halloc fd
        omega
      · rw [if_neg hgfd]
        exact hInv.halloc g
  | nil =>
    cases hrl : bp.replacer with
    | nil =>
      have hres : new_page bp fd = (none, bp) := by
        simp [new_page, find_victim_page, hfl, hrl, Replacer.victim]
      rw [hres]
      exact hInv
    | cons v vs =>
      have hvn : v < bp.pool_size := hInv.hrep v (by rw [hrl]; exact List.mem_cons_self _ _)
      have hvlen : v < bp.pages.length := by rw [hInv.hlen]; exact hvn
      rw [new_page_victim bp fd v vs hfl hrl hvlen]
      refine Inv_after_install bp hInv v _ _ bp.free_list _ _ 1 true 0
        hvn hmiss hval ?_ rfl ?_ ?_ hInv.hndfree ?_ ?_
      · rw [next_ite_write]
        simp
      · intro g hg
        rw [hfl] at hg
        cases hg
      · exact fun g hg => hInv.hrep g (by rw [hrl]; exact List.mem_cons_of_mem _ (mem_Replacer_pin _ _ _ hg))
      · intro q fid hq
        have hlt := (hInv.htab q fid hq).2.2.2
        rw [next_ite_write]
        dsimp only
        by_cases hqfd : q.fd = fd
        · rw [if_pos hqfd, ← hqfd]
          omega
        · rw [if_neg hqfd]
          exact hlt
      · intro g
        rw [next_ite_write]
        dsimp only
        by_cases hgfd : g = fd
        · rw [if_pos hgfd]
          have := hInv.halloc fd
          omega
        · rw [if_neg hgfd]
          exact hInv.halloc g

/-- `delete_page` on a resident, unpinned page: flush if dirty, drop the
table entry, reset the frame, free it. -/
theorem delete_page_hit (bp : BufferPool) (pid : PageId) (fid : Nat)
    (hlk : bp.page_table.lookup pid = some fid)
    (hpc : ¬ (bp.pages.getD fid initPage).pin_count > 0) :
    delete_page bp pid =
      (true,
       { bp with
           dm := if (bp.pages.getD fid initPage).is_dirty = true then
                   bp.dm.write_page pid (bp.pages.getD fid initPage).data
                 else bp.dm,
           replacer := Replacer.pin bp.replacer fid,
           page_table := eraseKey bp.page_table pid,
           pages := bp.pages.set fid
             { id_ := { fd := pid.fd, page_no := INVALID_PAGE_ID },
               pin_count := 0, is_dirty := false, data := 0 },
           free_list := bp.free_list ++ [fid] }) := by
  have hpc' : (bp.pages.getD fid initPage).pin_count ≤ 0 := by omega
  simp only [List.getD, List.get?_eq_getElem?] at hpc'
  simp [delete_page, hlk, hpc']

/-- `delete_page` preserves the invariant. -/
theorem Inv_del (bp : BufferPool) (pid : PageId) (hInv : Inv bp) :
    Inv (delete_page bp pid).2 := by
  cases hlk : bp.page_table.lookup pid with
  | none =>
    simp only [delete_page, hlk]
    exact hInv
  | some fid =>
    obtain ⟨hfn, hid, hvalpid, hnextpid⟩ := hInv.htab pid fid hlk
    have hflen : fid < bp.pages.length := by rw [hInv.hlen]; exact hfn
    by_cases hpc : (bp.pages.getD fid initPage).pin_count > 0
    · simp only [delete_page, hlk, if_pos hpc]
      exact hInv
    · rw [delete_page_hit bp pid fid hlk hpc]
      have hnotfree : fid ∉ bp.free_list := by
        intro hmem
        have := (hInv.hfree fid hmem).2
        rw [hid] at this
        exact hvalpid this
      refine ⟨by simp [hInv.hlen], ?_, ?_, ?_, ?_, ?_, ?_⟩
      · intro q fid' hq
        rw [lookup_eraseKey] at hq
        by_cases hqpid : q = pid
        · rw [if_pos hqpid] at hq; cases hq
        · rw [if_neg hqpid] at hq
          obtain ⟨h1, h2, h3, h4⟩ := hInv.htab q fid' hq
          have hne : fid' ≠ fid := by
            intro h
            subst h
            rw [hid] at h2
            exact hqpid h2.symm
          refine ⟨h1, ?_, h3, ?_⟩
          · rw [getD_set_ne _ _ _ _ _ (fun h => hne h.symm), h2]
          · rw [next_ite_write]
            exact h4
      · intro fid' hfid' hvalid
        by_cases hfe : fid' = fid
        · subst hfe
          rw [getD_set_self _ _ _ _ hflen] at hvalid
          simp at hvalid
        · rw [getD_set_ne _ _ _ _ _ (fun h => hfe h.symm)] at hvalid ⊢
          have hlk' := hInv.hframe fid' hfid' hvalid
          rw [lookup_eraseKey]
          have hne_pid : (bp.pages.getD fid' initPage).id_ ≠ pid := by
            intro h
            rw [h, hlk] at hlk'
            cases hlk'
            exact hfe rfl
          rw [if_neg hne_pid]
          exact hlk'
      · intro f hf
        rcases List.mem_append.mp hf with hmem | hmem
        · obtain ⟨h1, h2⟩ := hInv.hfree f hmem
          have hne : f ≠ fid := fun h => hnotfree (h ▸ hmem)
          exact ⟨h1, by rw [getD_set_ne _ _ _ _ _ (fun h => hne h.symm)]; exact h2⟩
        · simp at hmem
          subst hmem
          exact ⟨hfn, by rw [getD_set_self _ _ _ _ hflen]⟩
      · exact fun g hg => hInv.hrep g (mem_Replacer_pin _ _ _ hg)
      · rw [List.nodup_append]
        exact ⟨hInv.hndfree, List.nodup_singleton _, by simpa using hnotfree⟩
      · intro g
        rw [next_ite_write]
        exact hInv.halloc g

/-- One `flush_all_pages` loop step preserves the invariant. -/
theorem Inv_flushEntry (fd : Int) (bp : BufferPool) (e : PageId × Nat) (hInv : Inv bp) :
    Inv (flushEntry fd bp e) := by
  unfold flushEntry
  split
  · exact Inv_set_frame bp hInv e.2 _ bp.replacer _ rfl hInv.hrep rfl
  · exact hInv

/-- The whole `flush_all_pages` fold preserves the invariant. -/
theorem Inv_foldFlush (fd : Int) (es : List (PageId × Nat)) :
    ∀ bp : BufferPool, Inv bp → Inv (es.foldl (flushEntry fd) bp) := by
  induction es with
  | nil => exact fun bp h => h
  | cons e rest ih =>
    intro bp hInv
    exact ih (flushEntry fd bp e) (Inv_flushEntry fd bp e hInv)

/-- `flush_all_pages` preserves the invariant. -/
theorem Inv_flushAll (bp : BufferPool) (fd : Int) (hInv : Inv bp) :
    Inv (flush_all_pages bp fd) :=
  Inv_foldFlush fd bp.page_table bp hInv

/-- Any legal operation preserves the invariant. -/
theorem Inv_applyOp (bp : BufferPool) (op : BPOp) (hInv : Inv bp)
    (hleg : legalOpB bp op = true) : Inv (applyOp bp op) := by
  cases op with
  | fetch pid =>
    simp only [legalOpB, decide_eq_true_eq] at hleg
    exact Inv_fetch bp pid hInv hleg.1 hleg.2
  | unpin pid d => exact Inv_unpin bp pid d hInv
  | flush pid => exact Inv_flush bp pid hInv
  | newp fd => exact Inv_newp bp fd hInv
  | del pid => exact Inv_del bp pid hInv
  | flushAll fd => exact Inv_flushAll bp fd hInv

/-- A legal run preserves the invariant. -/
theorem Inv_runOps (ops : List BPOp) : ∀ bp : BufferPool, Inv bp →
    legalOpsB bp ops = true → Inv (runOps bp ops) := by
  induction ops with
  | nil => exact fun bp h _ => h
  | cons op rest ih =>
    intro bp hInv hleg
    simp only [legalOpsB, Bool.and_eq_true] at hleg
    exact ih (applyOp bp op) (Inv_applyOp bp op hInv hleg.1) hleg.2

/-- A fresh pool satisfies the invariant (given sane allocation counters). -/
theorem Inv_init (n : Nat) (dm : DiskManager) (hdm : ∀ fd, 0 ≤ dm.next_page_no fd) :
    Inv (initBP n dm) := by
  have hgd : ∀ f : Nat, ((List.replicate n initPage).getD f initPage) = initPage := by
    intro f
    simp only [List.getD, List.getElem?_replicate]
    by_cases h : f < n <;> simp [h]
  refine ⟨by simp [initBP], ?_, ?_, ?_, ?_, ?_, hdm⟩
  · intro pid fid hq
    simp [initBP] at hq
  · intro fid hfid hvalid
    rw [show (initBP n dm).pages = List.replicate n initPage from rfl, hgd] at hvalid
    simp [initPage] at hvalid
  · intro f hf
    simp only [initBP] at hf ⊢
    exact ⟨by simpa using hf, by rw [hgd]; rfl⟩
  · intro f hf
    simp [initBP] at hf
  · simp [initBP, List.nodup_range]

/-- C3: after any legal prefix of buffer-pool operations on a fresh pool, a
valid `PageId` is a key of the page table iff some frame records it, the
frame the table maps it to records exactly it, and no two frames record the
same valid `PageId`. -/
theorem page_table_consistency (n : Nat) (dm : DiskManager) (ops : List BPOp)
    (hdm : ∀ fd, 0 ≤ dm.next_page_no fd)
    (hleg : legalOpsB (initBP n dm) ops = true) :
    ∀ pid : PageId, pid.page_no ≠ INVALID_PAGE_ID →
      ((((runOps (initBP n dm) ops).page_table.lookup pid).isSome) ↔
        (∃ fid, fid < (runOps (initBP n dm) ops).pool_size ∧
          ((runOps (initBP n dm) ops).pages.getD fid initPage).id_ = pid)) ∧
      (∀ fid, (runOps (initBP n dm) ops).page_table.lookup pid = some fid →
        ((runOps (initBP n dm) ops).pages.getD fid initPage).id_ = pid) ∧
      (∀ f1 f2, f1 < (runOps (initBP n dm) ops).pool_size →
        f2 < (runOps (initBP n dm) ops).pool_size →
        ((runOps (initBP n dm) ops).pages.getD f1 initPage).id_ = pid →
        ((runOps (initBP n dm) ops).pages.getD f2 initPage).id_ = pid → f1 = f2) := by
  have hInv := Inv_runOps ops (initBP n dm) (Inv_init n dm hdm) hleg
  intro pid hval
  have hback : ∀ f, f < (runOps (initBP n dm) ops).pool_size →
      ((runOps (initBP n dm) ops).pages.getD f initPage).id_ = pid →
      (runOps (initBP n dm) ops).page_table.lookup pid = some f := by
    intro f hf hfid
    have := hInv.hframe f hf (by rw [hfid]; exact hval)
    rwa [hfid] at this
  refine ⟨⟨?_, ?_⟩, ?_, ?_⟩
  · intro hsome
    obtain ⟨fid, hfid⟩ := Option.isSome_iff_exists.mp hsome
    obtain ⟨h1, h2, _, _⟩ := hInv.htab pid fid hfid
    exact ⟨fid, h1, h2⟩
  · rintro ⟨fid, hfid, hfeq⟩
    rw [hback fid hfid hfeq]
    rfl
  · intro fid hfid
    exact (hInv.htab pid fid hfid).2.1
  · intro f1 f2 h1 h2 he1 he2
    have hl1 := hback f1 h1 he1
    have hl2 := hback f2 h2 he2
    rw [hl1] at hl2
    cases hl2
    rfl

/-- Witness for `page_table_consistency`: a two-frame pool after one
`new_page`, checked at the allocated `PageId` (0,6). -/
theorem page_table_consistency_witness :
    legalOpsB (initBP 2 dmW) [BPOp.newp 0] = true ∧
    (∀ fid, (runOps (initBP 2 dmW) [BPOp.newp 0]).page_table.lookup ⟨0, 6⟩ = some fid →
      ((runOps (initBP 2 dmW) [BPOp.newp 0]).pages.getD fid initPage).id_ = ⟨0, 6⟩) :=
  ⟨by decide,
   (page_table_consistency 2 dmW [BPOp.newp 0] (fun fd => by norm_num [dmW]) (by decide)
      ⟨0, 6⟩ (by decide)).2.1⟩

/-- C6: `unpin_page` returns `false` and leaves the state unchanged when the
`PageId` is not resident or the resident frame's pin count is ≤ 0; otherwise
it returns `true`, decrements the pin count, adds the frame to the replacer's
evictable set exactly when the count reaches 0, and ors the dirty flag with
`mark_dirty` (so it sets it when asked and never clears it). -/
theorem unpin_page_spec (bp : BufferPool) (pid : PageId) (d : Bool) :
    (bp.page_table.lookup pid = none → unpin_page bp pid d = (false, bp)) ∧
    (∀ fid, bp.page_table.lookup pid = some fid →
      (bp.pages.getD fid initPage).pin_count ≤ 0 →
      unpin_page bp pid d = (false, bp)) ∧
    (∀ fid, bp.page_table.lookup pid = some fid →
      0 < (bp.pages.getD fid initPage).pin_count →
      unpin_page bp pid d =
        (true,
         { bp with
             pages := bp.pages.set fid
               { bp.pages.getD fid initPage with
                   pin_count := (bp.pages.getD fid initPage).pin_count - 1,
                   is_dirty := (bp.pages.getD fid initPage).is_dirty || d },
             replacer :=
               if (bp.pages.getD fid initPage).pin_count - 1 = 0 then
                 Replacer.unpin bp.replacer fid
               else bp.replacer })) := by
  refine ⟨?_, ?_, ?_⟩
  · intro h
    simp [unpin_page, h]
  · intro fid h hle
    simp only [List.getD, List.get?_eq_getElem?] at hle
    simp [unpin_page, h, hle]
  · intro fid h hpos
    have hns : ¬ (bp.pages.getD fid initPage).pin_count ≤ 0 := by omega
    simp only [List.getD, List.get?_eq_getElem?] at hns
    cases d <;> simp [unpin_page, h, hns]

/-- Witness for `unpin_page_spec` at a concrete resident, pinned page. -/
theorem unpin_page_spec_witness :
    unpin_page bpW ⟨0, 5⟩ true =
      (true,
       { bpW with
           pages := bpW.pages.set 0
             { bpW.pages.getD 0 initPage with
                 pin_count := (bpW.pages.getD 0 initPage).pin_count - 1,
                 is_dirty := (bpW.pages.getD 0 initPage).is_dirty || true },
           replacer :=
             if (bpW.pages.getD 0 initPage).pin_count - 1 = 0 then
               Replacer.unpin bpW.replacer 0
             else bpW.replacer }) :=
  (unpin_page_spec bpW ⟨0, 5⟩ true).2.2 0 (by decide) (by decide)

/-! ## B+tree index (src/index/ix_index_handle.cpp)

The index operates on pages obtained from the buffer pool through
`fetch_node` / `create_node`; `fetch_node` asserts that `fetch_page`
succeeded.  The embedding therefore abstracts the buffer pool under the index
into an unbounded page store with per-page pin counters and dirty flags (no
eviction), which is exactly the state space the index code can observe when
its own asserts hold.  Fixed-width composite keys are embedded as lists of
column values (`Key`). -/

/-- `IX_NO_PAGE` sentinel. -/
def IX_NO_PAGE : Int := -1

/-- Modelled from the spec (§6; the constant lives in a header not under
`src/`): the leaf-header sentinel is a reserved page distinct from
`IX_NO_PAGE` (the header page follows the file-header page 0). -/
def IX_LEAF_HEADER_PAGE : Int := 1

/-- A composite index key: one `Int` per column. -/
abbrev Key := List Int

/-- Modelled from the spec (§4.3; `ix_compare`'s definition lives in a header
not under `src/`): lexicographic comparison of equal-arity composite keys,
column by column in the column's typed order (integer columns are shown;
fixed-width strings compare bytewise, which is again lexicographic on byte
values; float columns are not modelled).  Returns −1/0/1. -/
def ix_compare : Key → Key → Int
  | [], _ => 0
  | _ :: _, [] => 0
  | a :: as, b :: bs => if a < b then -1 else if b < a then 1 else ix_compare as bs

/-- Strict transitivity of `ix_compare`. -/
theorem ix_compare_lt_trans (a : Key) : ∀ b c : Key,
    ix_compare a b < 0 → ix_compare b c < 0 → ix_compare a c < 0 := by
  induction a with
  | nil => intro b c h1 _; simp [ix_compare] at h1
  | cons x as ih =>
    intro b c h1 h2
    cases b with
    | nil => simp [ix_compare] at h1
    | cons y bs =>
      cases c with
      | nil => simp [ix_compare] at h2
      | cons z cs =>
        simp only [ix_compare] at h1 h2 ⊢
        split_ifs at h1 h2 ⊢ <;> try omega
        all_goals exact ih bs cs h1 h2

/-- Mixed transitivity of `ix_compare` (strict then non-strict). -/
theorem ix_compare_lt_le (a : Key) : ∀ b c : Key,
    ix_compare a b < 0 → ix_compare b c ≤ 0 → ix_compare a c ≤ 0 := by
  induction a with
  | nil => intro b c h1 _; simp [ix_compare] at h1
  | cons x as ih =>
    intro b c h1 h2
    cases b with
    | nil => simp [ix_compare] at h1
    | cons y bs =>
      cases c with
      | nil => simp [ix_compare]
      | cons z cs =>
        simp only [ix_compare] at h1 h2 ⊢
        split_ifs at h1 h2 ⊢ <;> try omega
        all_goals exact ih bs cs h1 h2

/-- Record identifier: (page number, slot number). -/
structure Rid where
  page_no : Int
  slot_no : Int
deriving DecidableEq, Repr

/-- A B+tree node page: leaf flag, `num_key` keys with their values
(`keys.length = num_key`; for internal nodes the value's `page_no` is the
child pointer), parent page number, and the leaf sibling links. -/
structure IxNode where
  is_leaf : Bool
  keys : List Key
  rids : List Rid
  parent : Int
  prev_leaf : Int
  next_leaf : Int
deriving DecidableEq, Repr

/-- Linear-scan branch of `IxNodeHandle::lower_bound`
(ix_index_handle.cpp:26-31): first index whose key is `≥ target`. -/
def lbLin : List Key → Key → Nat
  | [], _ => 0
  | k :: ks, t => if 0 ≤ ix_compare k t then 0 else lbLin ks t + 1

/-- Linear-scan branch of `IxNodeHandle::upper_bound`
(ix_index_handle.cpp:55-60): first index whose key is `> target`. -/
def ubLin : List Key → Key → Nat
  | [], _ => 0
  | k :: ks, t => if 0 < ix_compare k t then 0 else ubLin ks t + 1

/-- Binary-search branch of `IxNodeHandle::lower_bound`
(ix_index_handle.cpp:13-24); `(l + r) / 2` is the loop's `mid`. -/
def lbBS (ks : List Key) (t : Key) (l r : Nat) : Nat :=
  if h : l < r then
    if ix_compare (ks.getD ((l + r) / 2) []) t < 0 then lbBS ks t ((l + r) / 2 + 1) r
    else lbBS ks t l ((l + r) / 2)
  else l
termination_by r - l
decreasing_by
  · omega
  · omega

/-- Binary-search branch of `IxNodeHandle::upper_bound`
(ix_index_handle.cpp:42-53). -/
def ubBS (ks : List Key) (t : Key) (l r : Nat) : Nat :=
  if h : l < r then
    if ix_compare (ks.getD ((l + r) / 2) []) t ≤ 0 then ubBS ks t ((l + r) / 2 + 1) r
    else ubBS ks t l ((l + r) / 2)
  else l
termination_by r - l
decreasing_by
  · omega
  · omega

/-- `getD` with a default returns the element below the length. -/
theorem getDK_eq (l : List Key) (i : Nat) (h : i < l.length) : l.getD i [] = l[i] := by
  simp [List.getD, List.getElem?_eq_getElem h]

/-- Index-level reading of "keys strictly increasing under `ix_compare`". -/
def sortedLt (ks : List Key) : Prop :=
  ∀ i j, i < j → j < ks.length → ix_compare (ks.getD i []) (ks.getD j []) < 0

/-- Pairwise strict increase gives the index-level reading. -/
theorem pairwise_sortedLt (ks : List Key)
    (h : List.Pairwise (fun a b => ix_compare a b < 0) ks) : sortedLt ks := by
  intro i j hij hj
  have hi : i < ks.length := lt_trans hij hj
  rw [getDK_eq _ _ hi, getDK_eq _ _ hj]
  exact List.pairwise_iff_getElem.mp h i j hi hj hij

/-- The linear scan never passes the end. -/
theorem lbLin_le (ks : List Key) (t : Key) : lbLin ks t ≤ ks.length := by
  induction ks with
  | nil => simp [lbLin]
  | cons k ks ih =>
    simp only [lbLin, List.length_cons]
    split <;> omega

/-- Everything before the linear-scan result compares below the target. -/
theorem lbLin_lt (ks : List Key) (t : Key) :
    ∀ i, i < lbLin ks t → ix_compare (ks.getD i []) t < 0 := by
  induction ks with
  | nil => intro i hi; simp [lbLin] at hi
  | cons k ks ih =>
    intro i hi
    simp only [lbLin] at hi
    by_cases hk : 0 ≤ ix_compare k t
    · rw [if_pos hk] at hi
      omega
    · rw [if_neg hk] at hi
      cases i with
      | zero =>
        rw [List.getD_cons_zero]
        omega
      | succ j =>
        rw [List.getD_cons_succ]
        exact ih j (by omega)

/-- The linear-scan result (when in range) compares at or above the target. -/
theorem lbLin_ge (ks : List Key) (t : Key) :
    lbLin ks t < ks.length → 0 ≤ ix_compare (ks.getD (lbLin ks t) []) t := by
  induction ks with
  | nil => simp [lbLin]
  | cons k ks ih =>
    intro h
    simp only [lbLin] at h ⊢
    by_cases hk : 0 ≤ ix_compare k t
    · rw [if_pos hk, List.getD_cons_zero]
      exact hk
    · rw [if_neg hk] at h ⊢
      rw [List.getD_cons_succ]
      exact ih (by simpa using h)

/-- `ubLin` analogue of `lbLin_le`. -/
theorem ubLin_le (ks : List Key) (t : Key) : ubLin ks t ≤ ks.length := by
  induction ks with
  | nil => simp [ubLin]
  | cons k ks ih =>
    simp only [ubLin, List.length_cons]
    split <;> omega

/-- Everything before the `ubLin` result compares at or below the target. -/
theorem ubLin_lt (ks : List Key) (t : Key) :
    ∀ i, i < ubLin ks t → ix_compare (ks.getD i []) t ≤ 0 := by
  induction ks with
  | nil => intro i hi; simp [ubLin] at hi
  | cons k ks ih =>
    intro i hi
    simp only [ubLin] at hi
    by_cases hk : 0 < ix_compare k t
    · rw [if_pos hk] at hi
      omega
    · rw [if_neg hk] at hi
      cases i with
      | zero =>
        rw [List.getD_cons_zero]
        omega
      | succ j =>
        rw [List.getD_cons_succ]
        exact ih j (by omega)

/-- The `ubLin` result (when in range) compares strictly above the target. -/
theorem ubLin_ge (ks : List Key) (t : Key) :
    ubLin ks t < ks.length → 0 < ix_compare (ks.getD (ubLin ks t) []) t := by
  induction ks with
  | nil => simp [ubLin]
  | cons k ks ih =>
    intro h
    simp only [ubLin] at h ⊢
    by_cases hk : 0 < ix_compare k t
    · rw [if_pos hk, List.getD_cons_zero]
      exact hk
    · rw [if_neg hk] at h ⊢
      rw [List.getD_cons_succ]
      exact ih (by simpa using h)

/-- Binary-search invariant for `lbBS` on a sorted key array. -/
theorem lbBS_spec (ks : List Key) (t : Key) (hs : sortedLt ks) :
    ∀ (d l r : Nat), r - l ≤ d → l ≤ r → r ≤ ks.length →
    (∀ i, i < l → ix_compare (ks.getD i []) t < 0) →
    (∀ i, r ≤ i → i < ks.length → 0 ≤ ix_compare (ks.getD i []) t) →
    lbBS ks t l r ≤ ks.length ∧
    (∀ i, i < lbBS ks t l r → ix_compare (ks.getD i []) t < 0) ∧
    (lbBS ks t l r < ks.length → 0 ≤ ix_compare (ks.getD (lbBS ks t l r) []) t) := by
  intro d
  induction d with
  | zero =>
    intro l r hd hlr hr hlo hhi
    have hlr' : ¬ l < r := by omega
    rw [lbBS, dif_neg hlr']
    exact ⟨by omega, hlo, fun h => hhi l (by omega) h⟩
  | succ d ih =>
    intro l r hd hlr hr hlo hhi
    rw [lbBS]
    by_cases h : l < r
    · rw [dif_pos h]
      have hml : l ≤ (l + r) / 2 := by omega
      have hmr : (l + r) / 2 < r := by omega
      by_cases hc : ix_compare (ks.getD ((l + r) / 2) []) t < 0
      · rw [if_pos hc]
        refine ih ((l + r) / 2 + 1) r (by omega) (by omega) hr ?_ hhi
        intro i hi
        by_cases hil : i < l
        · exact hlo i hil
        · by_cases him : i = (l + r) / 2
          · subst him
            exact hc
          · exact ix_compare_lt_trans _ _ _ (hs i ((l + r) / 2) (by omega) (by omega)) hc
      · rw [if_neg hc]
        refine ih l ((l + r) / 2) (by omega) (by omega) (by omega) hlo ?_
        intro i hmi hilen
        by_cases hii : i = (l + r) / 2
        · subst hii
          omega
        · by_cases hir : r ≤ i
          · exact hhi i hir hilen
          · by_contra hneg
            push_neg at hneg
            have := ix_compare_lt_trans _ _ _ (hs ((l + r) / 2) i (by omega) hilen) hneg
            omega
    · rw [dif_neg h]
      exact ⟨by omega, hlo, fun hlen => hhi l (by omega) hlen⟩

/-- Binary-search invariant for `ubBS` on a sorted key array. -/
theorem ubBS_spec (ks : List Key) (t : Key) (hs : sortedLt ks) :
    ∀ (d l r : Nat), r - l ≤ d → l ≤ r → r ≤ ks.length →
    (∀ i, i < l → ix_compare (ks.getD i []) t ≤ 0) →
    (∀ i, r ≤ i → i < ks.length → 0 < ix_compare (ks.getD i []) t) →
    ubBS ks t l r ≤ ks.length ∧
    (∀ i, i < ubBS ks t l r → ix_compare (ks.getD i []) t ≤ 0) ∧
    (ubBS ks t l r < ks.length → 0 < ix_compare (ks.getD (ubBS ks t l r) []) t) := by
  intro d
  induction d with
  | zero =>
    intro l r hd hlr hr hlo hhi
    have hlr' : ¬ l < r := by omega
    rw [ubBS, dif_neg hlr']
    exact ⟨by omega, hlo, fun h => hhi l (by omega) h⟩
  | succ d ih =>
    intro l r hd hlr hr hlo hhi
    rw [ubBS]
    by_cases h : l < r
    · rw [dif_pos h]
      have hml : l ≤ (l + r) / 2 := by omega
      have hmr : (l + r) / 2 < r := by omega
      by_cases hc : ix_compare (ks.getD ((l + r) / 2) []) t ≤ 0
      · rw [if_pos hc]
        refine ih ((l + r) / 2 + 1) r (by omega) (by omega) hr ?_ hhi
        intro i hi
        by_cases hil : i < l
        · exact hlo i hil
        · by_cases him : i = (l + r) / 2
          · subst him
            exact hc
          · exact ix_compare_lt_le _ _ _ (hs i ((l + r) / 2) (by omega) (by omega)) hc
      · rw [if_neg hc]
        refine ih l ((l + r) / 2) (by omega) (by omega) (by omega) hlo ?_
        intro i hmi hilen
        by_cases hii : i = (l + r) / 2
        · subst hii
          omega
        · by_cases hir : r ≤ i
          · exact hhi i hir hilen
          · by_contra hneg
            push_neg at hneg
            have := ix_compare_lt_le _ _ _ (hs ((l + r) / 2) i (by omega) hilen) hneg
            omega
    · rw [dif_neg h]
      exact ⟨by omega, hlo, fun hlen => hhi l (by omega) hlen⟩

/-- A "first index at or above the target" characterization pins the value. -/
theorem lb_unique (ks : List Key) (t : Key) (x y : Nat)
    (hx1 : x ≤ ks.length) (hx2 : ∀ i, i < x → ix_compare (ks.getD i []) t < 0)
    (hx3 : x < ks.length → 0 ≤ ix_compare (ks.getD x []) t)
    (hy1 : y ≤ ks.length) (hy2 : ∀ i, i < y → ix_compare (ks.getD i []) t < 0)
    (hy3 : y < ks.length → 0 ≤ ix_compare (ks.getD y []) t) : x = y := by
  rcases lt_trichotomy x y with h | h | h
  · have h1 := hx3 (by omega)
    have h2 := hy2 x h
    omega
  · exact h
  · have h1 := hy3 (by omega)
    have h2 := hx2 y h
    omega

/-- A "first index above the target" characterization pins the value. -/
theorem ub_unique (ks : List Key) (t : Key) (x y : Nat)
    (hx1 : x ≤ ks.length) (hx2 : ∀ i, i < x → ix_compare (ks.getD i []) t ≤ 0)
    (hx3 : x < ks.length → 0 < ix_compare (ks.getD x []) t)
    (hy1 : y ≤ ks.length) (hy2 : ∀ i, i < y → ix_compare (ks.getD i []) t ≤ 0)
    (hy3 : y < ks.length → 0 < ix_compare (ks.getD y []) t) : x = y := by
  rcases lt_trichotomy x y with h | h | h
  · have h1 := hx3 (by omega)
    have h2 := hy2 x h
    omega
  · exact h
  · have h1 := hy3 (by omega)
    have h2 := hx2 y h
    omega

/-- `IxNodeHandle::lower_bound` with `binary_search` disabled (the linear
branch, ix_index_handle.cpp:26-31); tree-level operations use this branch
(the two branches agree on sorted nodes, theorem `bound_search_spec`). -/
def IxNode.lower_bound (nd : IxNode) (target : Key) : Nat :=
  lbLin nd.keys target

/-- `IxNodeHandle::lower_bound` with `binary_search` enabled
(ix_index_handle.cpp:13-24). -/
def IxNode.lower_bound_bs (nd : IxNode) (target : Key) : Nat :=
  lbBS nd.keys target 0 nd.keys.length

/-- `IxNodeHandle::upper_bound` with `binary_search` disabled
(ix_index_handle.cpp:55-60). -/
def IxNode.upper_bound (nd : IxNode) (target : Key) : Nat :=
  ubLin nd.keys target

/-- `IxNodeHandle::upper_bound` with `binary_search` enabled
(ix_index_handle.cpp:42-53). -/
def IxNode.upper_bound_bs (nd : IxNode) (target : Key) : Nat :=
  ubBS nd.keys target 0 nd.keys.length

/-- C5: on a node whose keys are strictly increasing under `ix_compare`,
`lower_bound` returns the least slot in `[0, num_keys]` whose key is
`≥ target`, `upper_bound` the least slot whose key is `> target`, and for
each the binary-search branch returns the same slot as the linear branch. -/
theorem bound_search_spec (nd : IxNode) (target : Key)
    (hsorted : List.Pairwise (fun a b => ix_compare a b < 0) nd.keys) :
    nd.lower_bound_bs target = nd.lower_bound target ∧
    nd.upper_bound_bs target = nd.upper_bound target ∧
    nd.lower_bound target ≤ nd.keys.length ∧
    (∀ i, i < nd.lower_bound target → ix_compare (nd.keys.getD i []) target < 0) ∧
    (nd.lower_bound target < nd.keys.length →
      0 ≤ ix_compare (nd.keys.getD (nd.lower_bound target) []) target) ∧
    nd.upper_bound target ≤ nd.keys.length ∧
    (∀ i, i < nd.upper_bound target → ix_compare (nd.keys.getD i []) target ≤ 0) ∧
    (nd.upper_bound target < nd.keys.length →
      0 < ix_compare (nd.keys.getD (nd.upper_bound target) []) target) := by
  have hs := pairwise_sortedLt nd.keys hsorted
  obtain ⟨hb1, hb2, hb3⟩ := lbBS_spec nd.keys target hs nd.keys.length 0 nd.keys.length
    (by omega) (by omega) (le_refl _) (by omega) (by omega)
  obtain ⟨hu1, hu2, hu3⟩ := ubBS_spec nd.keys target hs nd.keys.length 0 nd.keys.length
    (by omega) (by omega) (le_refl _) (by omega) (by omega)
  refine ⟨?_, ?_, lbLin_le nd.keys target, lbLin_lt nd.keys target,
    lbLin_ge nd.keys target, ubLin_le nd.keys target, ubLin_lt nd.keys target,
    ubLin_ge nd.keys target⟩
  · exact lb_unique nd.keys target _ _ hb1 hb2 hb3 (lbLin_le _ _) (lbLin_lt _ _) (lbLin_ge _ _)
  · exact ub_unique nd.keys target _ _ hu1 hu2 hu3 (ubLin_le _ _) (ubLin_lt _ _) (ubLin_ge _ _)

/-- A concrete sorted node for the `bound_search_spec` witness. -/
def ndW : IxNode :=
  { is_leaf := true, keys := [[10], [20], [30]],
    rids := [⟨10, 0⟩, ⟨20, 0⟩, ⟨30, 0⟩],
    parent := IX_NO_PAGE, prev_leaf := IX_LEAF_HEADER_PAGE,
    next_leaf := IX_LEAF_HEADER_PAGE }

/-- Witness for `bound_search_spec`: binary and linear branches agree on a
concrete sorted node and target, and the slots bracket the target. -/
theorem bound_search_spec_witness :
    ndW.lower_bound_bs [15] = ndW.lower_bound [15] ∧
    ndW.upper_bound_bs [15] = ndW.upper_bound [15] ∧
    (ndW.lower_bound [15] < ndW.keys.length →
      0 ≤ ix_compare (ndW.keys.getD (ndW.lower_bound [15]) []) [15]) :=
  have h := bound_search_spec ndW [15] (by decide)
  ⟨h.1, h.2.1, h.2.2.2.2.1⟩

/-- How an index operation can fail to return normally in the embedding:
an `assert` (or missing page) fires, the recursion fuel runs out, or
`IndexEntryNotFoundError` is thrown. -/
inductive IxErr where
  | assertFail
  | fuelOut
  | entryNotFound
deriving DecidableEq, Repr

/-- The index file header kept by `IxIndexHandle` (root, leaf-list ends,
page count). -/
structure IxFileHdr where
  root_page : Int
  first_leaf : Int
  last_leaf : Int
  num_pages : Int
deriving DecidableEq, Repr

/-- Index-level state: file header, per-node capacity, and the buffer pool
abstracted to an unbounded page store with pin counters and dirty flags
(`fetch_node` asserts its `fetch_page` succeeded, so the index never
observes an eviction), plus the disk allocator counter for this file. -/
structure IxState where
  hdr : IxFileHdr
  max_size : Nat
  store : Int → Option IxNode
  pins : Int → Nat
  dirty : Int → Bool
  next_page_no : Int

/-- Modelled from the spec (§3; `get_min_size` lives in the missing header):
`min_size = ceil(max_size / 2)`. -/
def IxState.min_size (s : IxState) : Nat := (s.max_size + 1) / 2

/-- `IxNodeHandle::get_size`. -/
def IxNode.size (nd : IxNode) : Nat := nd.keys.length

/-- `IxNodeHandle::get_key`. -/
def IxNode.get_key (nd : IxNode) (i : Nat) : Key := nd.keys.getD i []

/-- `IxNodeHandle::get_rid`. -/
def IxNode.get_rid (nd : IxNode) (i : Nat) : Rid := nd.rids.getD i ⟨0, 0⟩

/-- `IxNodeHandle::value_at`: child page number at a slot of an internal
node. -/
def IxNode.value_at (nd : IxNode) (i : Nat) : Int := (nd.get_rid i).page_no

/-- `IxNodeHandle::set_key`. -/
def IxNode.set_key (nd : IxNode) (pos : Nat) (k : Key) : IxNode :=
  { nd with keys := nd.keys.set pos k }

/-- `IxNodeHandle::set_size`: the C++ only lowers `num_key`, leaving bytes
past it in place; every call site shrinks, so list truncation is the
abstraction. -/
def IxNode.set_size (nd : IxNode) (n : Nat) : IxNode :=
  { nd with keys := nd.keys.take n, rids := nd.rids.take n }

/-- Modelled from the spec (§4.4; `is_root_page` lives in the missing
header): the root is the node with no parent. -/
def IxNode.is_root_page (nd : IxNode) : Bool := nd.parent == IX_NO_PAGE

/-- `IxNodeHandle::internal_lookup` (ix_index_handle.cpp:88-93):
`children[max(0, upper_bound(key) − 1)]`. -/
def IxNode.internal_lookup (nd : IxNode) (key : Key) : Int :=
  nd.value_at (if nd.upper_bound key = 0 then 0 else nd.upper_bound key - 1)

/-- `IxNodeHandle::insert_pairs` (ix_index_handle.cpp:109-124); the asserted
preconditions become the `assertFail` branch. -/
def IxNode.insert_pairs (mx : Nat) (nd : IxNode) (pos : Nat) (ks : List Key)
    (rs : List Rid) : Except IxErr IxNode :=
  if pos ≤ nd.size ∧ nd.size + ks.length ≤ mx then
    .ok { nd with keys := nd.keys.take pos ++ ks ++ nd.keys.drop pos,
                  rids := nd.rids.take pos ++ rs ++ nd.rids.drop pos }
  else .error .assertFail

/-- Modelled from the spec (§9: `insert_pair` is "the single-entry case of
`insert_pairs`"; its definition is not under `src/`). -/
def IxNode.insert_pair (mx : Nat) (nd : IxNode) (pos : Nat) (k : Key) (r : Rid) :
    Except IxErr IxNode :=
  nd.insert_pairs mx pos [k] [r]

/-- `IxNodeHandle::insert` (ix_index_handle.cpp:133-140): no-op when the key
is already present, else insert at `lower_bound`.  Returns the updated node
(the C++ returns the new size; callers compare sizes). -/
def IxNode.insert (mx : Nat) (nd : IxNode) (k : Key) (r : Rid) : Except IxErr IxNode :=
  if nd.lower_bound k < nd.size ∧ ix_compare (nd.get_key (nd.lower_bound k)) k = 0 then
    .ok nd
  else nd.insert_pair mx (nd.lower_bound k) k r

/-- `IxNodeHandle::erase_pair` (ix_index_handle.cpp:147-156). -/
def IxNode.erase_pair (nd : IxNode) (pos : Nat) : Except IxErr IxNode :=
  if pos < nd.size then
    .ok { nd with keys := nd.keys.take pos ++ nd.keys.drop (pos + 1),
                  rids := nd.rids.take pos ++ nd.rids.drop (pos + 1) }
  else .error .assertFail

/-- `IxNodeHandle::remove` (ix_index_handle.cpp:164-170). -/
def IxNode.remove (nd : IxNode) (k : Key) : Except IxErr IxNode :=
  if nd.lower_bound k < nd.size ∧ ix_compare (nd.get_key (nd.lower_bound k)) k = 0 then
    nd.erase_pair (nd.lower_bound k)
  else .ok nd

/-- Modelled from the spec (§4.3; defined in the missing header): linear
search for a child page number among this internal node's children
(`List.findIdx` returns `rids.length` when absent). -/
def IxNode.find_child (nd : IxNode) (child : Int) : Nat :=
  nd.rids.findIdx (fun r => r.page_no == child)

/-- Modelled from the spec (§4.4 adjust_root; defined in the missing header):
return the single child of a one-entry internal root, removing the entry. -/
def IxNode.remove_and_return_only_child (nd : IxNode) : Int × IxNode :=
  (nd.value_at 0, { nd with keys := [], rids := [] })

/-- Write a node back to its page. -/
def IxState.setNode (s : IxState) (p : Int) (nd : IxNode) : IxState :=
  { s with store := fun q => if q = p then some nd else s.store q }

/-- Read a node through a handle (the page exists whenever the node was
fetched; a missing page is the `fetch_node` assert firing). -/
def getNode (s : IxState) (p : Int) : Except IxErr IxNode :=
  match s.store p with
  | some nd => .ok nd
  | none => .error .assertFail

/-- `IxIndexHandle::fetch_node` (ix_index_handle.cpp:677-682): pin the page
(the assert on `fetch_page`'s result is the `assertFail` branch). -/
def fetch_node (s : IxState) (p : Int) : Except IxErr (IxNode × IxState) :=
  match s.store p with
  | some nd =>
    .ok (nd, { s with pins := fun q => if q = p then s.pins p + 1 else s.pins q })
  | none => .error .assertFail

/-- `buffer_pool_manager_->unpin_page` as the index sees it: decrement the
pin when the page is resident and pinned, or-in the dirty flag; report
success. -/
def unpin_node (s : IxState) (p : Int) (d : Bool) : Bool × IxState :=
  match s.store p with
  | none => (false, s)
  | some _ =>
    if 0 < s.pins p then
      (true, { s with pins := fun q => if q = p then s.pins p - 1 else s.pins q,
                      dirty := fun q => if q = p then (s.dirty q || d) else s.dirty q })
    else (false, s)

/-- A zeroed node page (what `new_page`'s `reset_memory` leaves behind). -/
def emptyNode : IxNode :=
  { is_leaf := false, keys := [], rids := [], parent := 0, prev_leaf := 0, next_leaf := 0 }

/-- `IxIndexHandle::create_node` (ix_index_handle.cpp:694-701): bump
`num_pages`, allocate a fresh page through `new_page` (pinned once, dirty,
zeroed). -/
def create_node (s : IxState) : Int × IxState :=
  (s.next_page_no,
   { s with hdr := { s.hdr with num_pages := s.hdr.num_pages + 1 },
            next_page_no := s.next_page_no + 1,
            store := fun q => if q = s.next_page_no then some emptyNode else s.store q,
            pins := fun q => if q = s.next_page_no then 1 else s.pins q,
            dirty := fun q => if q = s.next_page_no then true else s.dirty q })

/-- `IxIndexHandle::maintain_child` (ix_index_handle.cpp:753-759): re-parent
one child of an internal node. -/
def maintain_child (s : IxState) (np : Int) (child_idx : Nat) : Except IxErr IxState := do
  let nd ← getNode s np
  if ¬ nd.is_leaf then do
    let child_page_no := nd.value_at child_idx
    let (cnd, s1) ← fetch_node s child_page_no
    let s2 := s1.setNode child_page_no { cnd with parent := np }
    let (_, s3) := unpin_node s2 child_page_no true
    .ok s3
  else .ok s

/-- The `for` loops over `maintain_child` in `split` and `coalesce`. -/
def maintain_children (s : IxState) (np : Int) : List Nat → Except IxErr IxState
  | [] => .ok s
  | i :: rest => do
    let s1 ← maintain_child s np i
    maintain_children s1 np rest

/-- `IxIndexHandle::split` (ix_index_handle.cpp:243-275). -/
def split (s : IxState) (np : Int) : Except IxErr (Int × IxState) := do
  let (q, s1) := create_node s
  let nd ← getNode s1 np
  let new0 : IxNode := { is_leaf := nd.is_leaf, keys := [], rids := [],
                         parent := nd.parent, prev_leaf := IX_NO_PAGE,
                         next_leaf := IX_NO_PAGE }
  let s2 := s1.setNode q new0
  let mid := nd.size / 2
  let new1 ← new0.insert_pairs s.max_size 0 (nd.keys.drop mid) (nd.rids.drop mid)
  let s3 := s2.setNode q new1
  let nd1 := nd.set_size mid
  let s4 := s3.setNode np nd1
  if new1.is_leaf then do
    let new2 := { new1 with prev_leaf := np, next_leaf := nd1.next_leaf }
    let s5 := s4.setNode q new2
    let s6 := s5.setNode np { nd1 with next_leaf := q }
    let s7 ← if new2.next_leaf ≠ IX_NO_PAGE then do
        let (nnd, sa) ← fetch_node s6 new2.next_leaf
        let sb := sa.setNode new2.next_leaf { nnd with prev_leaf := q }
        let (_, sc) := unpin_node sb new2.next_leaf true
        pure sc
      else pure s6
    let s8 := if s7.hdr.last_leaf = np ∨ new2.next_leaf = IX_LEAF_HEADER_PAGE then
        { s7 with hdr := { s7.hdr with last_leaf := q } }
      else s7
    .ok (q, s8)
  else do
    let s5 ← maintain_children s4 q (List.range new1.size)
    .ok (q, s5)

/-- `IxIndexHandle::maintain_parent` (ix_index_handle.cpp:708-724): walk up
overwriting the parent's key slot with the child's first key until they
agree; the asserts on `unpin_page` are the `assertFail` branch. -/
def maintain_parent (fuel : Nat) (s : IxState) (np : Int) : Except IxErr IxState :=
  match fuel with
  | 0 => .error .fuelOut
  | fuel + 1 => do
    let curr ← getNode s np
    if curr.parent ≠ IX_NO_PAGE then do
      let (parent_nd, s1) ← fetch_node s curr.parent
      let rank := parent_nd.find_child np
      if parent_nd.get_key rank = curr.get_key 0 then
        let (ok1, s2) := unpin_node s1 curr.parent true
        if ok1 then .ok s2 else .error .assertFail
      else
        let s2 := s1.setNode curr.parent (parent_nd.set_key rank (curr.get_key 0))
        let (ok1, s3) := unpin_node s2 curr.parent true
        if ok1 then maintain_parent fuel s3 curr.parent else .error .assertFail
    else .ok s

/-- `IxIndexHandle::find_leaf_page`'s descent loop
(ix_index_handle.cpp:201-205); the current node is pinned at entry. -/
def find_leaf_loop (fuel : Nat) (s : IxState) (p : Int) (key : Key) :
    Except IxErr (Int × IxState) :=
  match fuel with
  | 0 => .error .fuelOut
  | fuel + 1 => do
    let nd ← getNode s p
    if nd.is_leaf then .ok (p, s)
    else do
      let child := nd.internal_lookup key
      let (_, s1) := unpin_node s p false
      let (_, s2) ← fetch_node s1 child
      find_leaf_loop fuel s2 child key

/-- Modelled from the spec (`is_empty` lives in the missing header; the
spec's `insert_entry` contract and `adjust_root` show the empty tree is
`root_page_number = IX_NO_PAGE`). -/
def IxState.is_empty (s : IxState) : Bool := s.hdr.root_page == IX_NO_PAGE

/-- `IxIndexHandle::find_leaf_page` (ix_index_handle.cpp:195-207): `none`
for the empty tree, else the pinned leaf reached by descending
`internal_lookup` children. -/
def find_leaf_page (fuel : Nat) (s : IxState) (key : Key) :
    Except IxErr (Option Int × IxState) :=
  if s.is_empty then .ok (none, s)
  else do
    let (_, s1) ← fetch_node s s.hdr.root_page
    let (leaf, s2) ← find_leaf_loop fuel s1 s.hdr.root_page key
    .ok (some leaf, s2)

/-- The scan loop of `get_value` (ix_index_handle.cpp:226-231): collect rids
while the key matches. -/
def scanEq : List Key → List Rid → Key → List Rid
  | k :: ks, r :: rs, key => if ix_compare k key = 0 then r :: scanEq ks rs key else []
  | _, _, _ => []

/-- `IxIndexHandle::get_value` (ix_index_handle.cpp:217-234): returns
(found?, collected rids, state). -/
def get_value (fuel : Nat) (s : IxState) (key : Key) :
    Except IxErr (Bool × List Rid × IxState) := do
  match ← find_leaf_page fuel s key with
  | (none, s1) => .ok (false, [], s1)
  | (some lp, s1) => do
    let leaf ← getNode s1 lp
    let res := scanEq (leaf.keys.drop (leaf.lower_bound key))
      (leaf.rids.drop (leaf.lower_bound key)) key
    let (_, s2) := unpin_node s1 lp false
    .ok (res ≠ [], res, s2)

/-- `IxIndexHandle::insert_into_parent` (ix_index_handle.cpp:290-326). -/
def insert_into_parent (fuel : Nat) (s : IxState) (old_np : Int) (key : Key)
    (new_np : Int) : Except IxErr IxState :=
  match fuel with
  | 0 => .error .fuelOut
  | fuel + 1 => do
    let old_nd ← getNode s old_np
    if old_nd.is_root_page then do
      let (rp, s1) := create_node s
      let root0 : IxNode := { is_leaf := false, keys := [], rids := [],
                              parent := IX_NO_PAGE, prev_leaf := IX_NO_PAGE,
                              next_leaf := IX_NO_PAGE }
      let root1 ← root0.insert_pair s.max_size 0 (old_nd.get_key 0) ⟨old_np, 0⟩
      let root2 ← root1.insert_pair s.max_size 1 key ⟨new_np, 0⟩
      let s2 := s1.setNode rp root2
      let s3 := s2.setNode old_np { old_nd with parent := rp }
      let new_nd ← getNode s3 new_np
      let s4 := s3.setNode new_np { new_nd with parent := rp }
      let s5 := { s4 with hdr := { s4.hdr with root_page := rp } }
      let s6 := if s5.hdr.first_leaf = IX_NO_PAGE then
          { s5 with hdr := { s5.hdr with first_leaf := old_np } }
        else s5
      let (_, s7) := unpin_node s6 rp true
      .ok s7
    else do
      let parent_np := old_nd.parent
      let (parent_nd, s1) ← fetch_node s parent_np
      let pos := parent_nd.find_child old_np + 1
      let parent1 ← parent_nd.insert_pair s.max_size pos key ⟨new_np, 0⟩
      let s2 := s1.setNode parent_np parent1
      let new_nd ← getNode s2 new_np
      let s3 := s2.setNode new_np { new_nd with parent := parent_np }
      let parent2 ← getNode s3 parent_np
      if parent2.size ≥ s.max_size then do
        let (pn_np, s4) ← split s3 parent_np
        let pn_nd ← getNode s4 pn_np
        let s5 ← insert_into_parent fuel s4 parent_np (pn_nd.get_key 0) pn_np
        let (_, s6) := unpin_node s5 pn_np true
        let (_, s7) := unpin_node s6 parent_np true
        .ok s7
      else do
        let (_, s4) := unpin_node s3 parent_np true
        .ok s4

/-- `IxIndexHandle::insert_entry` (ix_index_handle.cpp:334-368): returns the
page number of the leaf the key resides in, `IX_NO_PAGE` on the empty
tree. -/
def insert_entry (fuel : Nat) (s : IxState) (key : Key) (value : Rid) :
    Except IxErr (Int × IxState) := do
  match ← find_leaf_page fuel s key with
  | (none, s1) => .ok (IX_NO_PAGE, s1)
  | (some lp, s1) => do
    let leaf ← getNode s1 lp
    let before := leaf.size
    let leaf1 ← leaf.insert s.max_size key value
    let s2 := s1.setNode lp leaf1
    if leaf1.size = before then
      let (_, s3) := unpin_node s2 lp false
      .ok (lp, s3)
    else do
      let s3 ← if leaf1.size > 0 then maintain_parent fuel s2 lp else pure s2
      let leaf2 ← getNode s3 lp
      let (ret1, s5) ← if leaf2.size ≥ s.max_size then do
          let (q, s4) ← split s3 lp
          let new_leaf ← getNode s4 q
          let r := if 0 ≤ ix_compare key (new_leaf.get_key 0) then q else lp
          let s4b ← insert_into_parent fuel s4 lp (new_leaf.get_key 0) q
          let (_, s4c) := unpin_node s4b q true
          pure (r, s4c)
        else pure (lp, s3)
      let leaf3 ← getNode s5 lp
      let s6 := if leaf3.next_leaf = IX_LEAF_HEADER_PAGE ∨ lp = s5.hdr.last_leaf then
          (if s5.hdr.last_leaf = IX_NO_PAGE then
            { s5 with hdr := { s5.hdr with last_leaf := lp } }
           else s5)
        else s5
      let (_, s7) := unpin_node s6 lp true
      .ok (ret1, s7)

/-- `IxIndexHandle::adjust_root` (ix_index_handle.cpp:452-468). -/
def adjust_root (s : IxState) (old_np : Int) : Except IxErr (Bool × IxState) := do
  let old_nd ← getNode s old_np
  if ¬ old_nd.is_leaf ∧ old_nd.size = 1 then do
    let (child_np, old1) := old_nd.remove_and_return_only_child
    let s1 := s.setNode old_np old1
    let s2 := { s1 with hdr := { s1.hdr with root_page := child_np } }
    let (child_nd, s3) ← fetch_node s2 child_np
    let s4 := s3.setNode child_np { child_nd with parent := IX_NO_PAGE }
    let (_, s5) := unpin_node s4 child_np true
    .ok (true, s5)
  else if old_nd.is_leaf ∧ old_nd.size = 0 then
    let hdr1 : IxFileHdr := { root_page := IX_NO_PAGE, first_leaf := IX_NO_PAGE,
                              last_leaf := IX_NO_PAGE, num_pages := s.hdr.num_pages }
    .ok (true, { s with hdr := hdr1 })
  else .ok (false, s)

/-- `IxIndexHandle::redistribute` (ix_index_handle.cpp:484-509). -/
def redistribute (s : IxState) (neighbor_np np parent_np : Int) (index : Nat) :
    Except IxErr IxState := do
  let neighbor ← getNode s neighbor_np
  if index = 0 then do
    let tmp_key := neighbor.get_key 0
    let tmp_rid := neighbor.get_rid 0
    let neighbor1 ← neighbor.erase_pair 0
    let s1 := s.setNode neighbor_np neighbor1
    let node0 ← getNode s1 np
    let node1 ← node0.insert_pair s.max_size node0.size tmp_key tmp_rid
    let s2 := s1.setNode np node1
    let s3 ← if ¬ node1.is_leaf then maintain_child s2 np (node1.size - 1) else pure s2
    let neighbor2 ← getNode s3 neighbor_np
    let parent ← getNode s3 parent_np
    .ok (s3.setNode parent_np (parent.set_key (index + 1) (neighbor2.get_key 0)))
  else do
    let move_idx := neighbor.size - 1
    let tmp_key := neighbor.get_key move_idx
    let tmp_rid := neighbor.get_rid move_idx
    let neighbor1 ← neighbor.erase_pair move_idx
    let s1 := s.setNode neighbor_np neighbor1
    let node0 ← getNode s1 np
    let node1 ← node0.insert_pair s.max_size 0 tmp_key tmp_rid
    let s2 := s1.setNode np node1
    let s3 ← if ¬ node1.is_leaf then maintain_child s2 np 0 else pure s2
    let node2 ← getNode s3 np
    let parent ← getNode s3 parent_np
    .ok (s3.setNode parent_np (parent.set_key index (node2.get_key 0)))

/-- `IxIndexHandle::coalesce` (ix_index_handle.cpp:525-562): returns the
(possibly swapped) neighbor/node handles, whether the parent under-fills,
and the state. -/
def coalesce (s : IxState) (neighbor_np0 np0 parent_np : Int) (index0 : Nat) :
    Except IxErr (Int × Int × Bool × IxState) := do
  let (neighbor_np, np, index) :=
    if index0 = 0 then (np0, neighbor_np0, 1) else (neighbor_np0, np0, index0)
  let left ← getNode s neighbor_np
  let right ← getNode s np
  let left_origin := left.size
  let left1 ← left.insert_pairs s.max_size left_origin right.keys right.rids
  let s1 := s.setNode neighbor_np left1
  let s2 ← if ¬ left1.is_leaf then
      maintain_children s1 neighbor_np (List.range' left_origin (left1.size - left_origin))
    else do
      let right1 ← getNode s1 np
      let left2 ← getNode s1 neighbor_np
      let sa := s1.setNode neighbor_np { left2 with next_leaf := right1.next_leaf }
      let sb ← if right1.next_leaf ≠ IX_NO_PAGE then do
          let (nnd, sx) ← fetch_node sa right1.next_leaf
          let sy := sx.setNode right1.next_leaf { nnd with prev_leaf := neighbor_np }
          let (_, sz) := unpin_node sy right1.next_leaf true
          pure sz
        else pure sa
      let sc := if sb.hdr.last_leaf = np then
          { sb with hdr := { sb.hdr with last_leaf := neighbor_np } }
        else sb
      pure (if sc.hdr.first_leaf = np then
          { sc with hdr := { sc.hdr with first_leaf := neighbor_np } }
        else sc)
  let parent ← getNode s2 parent_np
  let parent1 ← parent.erase_pair index
  let s3 := s2.setNode parent_np parent1
  let right2 ← getNode s3 np
  let s4 := s3.setNode np (right2.set_size 0)
  let delete_parent :=
    if parent1.is_root_page then parent1.size ≤ 1 else parent1.size < s.min_size
  .ok (neighbor_np, np, delete_parent, s4)

/-- `IxIndexHandle::coalesce_or_redistribute` (ix_index_handle.cpp:411-444). -/
def coalesce_or_redistribute (fuel : Nat) (s : IxState) (np : Int) :
    Except IxErr (Bool × IxState) :=
  match fuel with
  | 0 => .error .fuelOut
  | fuel + 1 => do
    let node ← getNode s np
    if node.is_root_page then do
      let (del_root, s1) ← adjust_root s np
      let (_, s2) := unpin_node s1 np true
      .ok (del_root, s2)
    else if node.size ≥ s.min_size then
      let (_, s1) := unpin_node s np true
      .ok (false, s1)
    else do
      let parent_np := node.parent
      let (parent_nd, s1) ← fetch_node s parent_np
      let node_idx := parent_nd.find_child np
      let neighbor_idx := if node_idx > 0 then node_idx - 1 else node_idx + 1
      let neighbor_np := parent_nd.value_at neighbor_idx
      let (neighbor_nd, s2) ← fetch_node s1 neighbor_np
      if node.size + neighbor_nd.size ≥ s.min_size * 2 then do
        let s3 ← redistribute s2 neighbor_np np parent_np node_idx
        let (_, s4) := unpin_node s3 neighbor_np true
        let (_, s5) := unpin_node s4 parent_np true
        let (_, s6) := unpin_node s5 np true
        .ok (false, s6)
      else do
        let (nb', np', delete_parent, s3) ← coalesce s2 neighbor_np np parent_np node_idx
        if delete_parent then do
          let (_, s4) := unpin_node s3 nb' true
          let (_, s5) := unpin_node s4 np' true
          coalesce_or_redistribute fuel s5 parent_np
        else do
          let (_, s4) := unpin_node s3 nb' true
          let (_, s5) := unpin_node s4 parent_np true
          let (_, s6) := unpin_node s5 np' true
          .ok (false, s6)

/-- `IxIndexHandle::delete_entry` (ix_index_handle.cpp:375-398); `hasTxn`
mirrors `transaction != nullptr` (the transaction itself is external). -/
def delete_entry (fuel : Nat) (s : IxState) (key : Key) (hasTxn : Bool) :
    Except IxErr (Bool × IxState) := do
  match ← find_leaf_page fuel s key with
  | (none, s1) => .ok (false, s1)
  | (some lp, s1) => do
    let leaf ← getNode s1 lp
    let before := leaf.size
    let leaf1 ← leaf.remove key
    let s2 := s1.setNode lp leaf1
    if leaf1.size = before then
      let (_, s3) := unpin_node s2 lp false
      .ok (false, s3)
    else do
      let s3 ← if leaf1.size > 0 then maintain_parent fuel s2 lp else pure s2
      let (need_delete, s4) ← coalesce_or_redistribute fuel s3 lp
      let s5 ← if need_delete ∧ hasTxn then do
          let (_, sa) ← fetch_node s4 lp
          let (_, sb) := unpin_node sa lp false
          pure sb
        else pure s4
      .ok (true, s5)

/-- Index iterator position (leaf page, slot). -/
structure Iid where
  page_no : Int
  slot_no : Int
deriving DecidableEq, Repr

/-- `IxIndexHandle::get_rid` (ix_index_handle.cpp:573-580): fetch the leaf,
throw `IndexEntryNotFoundError` when the slot is past `num_key` (the pin is
not released on that path), else unpin clean and return the stored rid. -/
def ix_get_rid (s : IxState) (iid : Iid) : Except IxErr Rid × IxState :=
  match fetch_node s iid.page_no with
  | .error e => (.error e, s)
  | .ok (nd, s1) =>
    if iid.slot_no ≥ (nd.size : Int) then (.error .entryNotFound, s1)
    else
      let (_, s2) := unpin_node s1 iid.page_no false
      (.ok (nd.get_rid iid.slot_no.toNat), s2)

/-- Reduce `Except` binds on a success. -/
@[simp]
theorem exbind_ok {α β : Type} (a : α) (f : α → Except IxErr β) :
    (Except.ok a >>= f) = f a := rfl

/-- Reduce `Except` binds on an error. -/
@[simp]
theorem exbind_err {α β : Type} (e : IxErr) (f : α → Except IxErr β) :
    ((Except.error e : Except IxErr α) >>= f) = .error e := rfl

/-- `pure` in the `Except` monad. -/
@[simp]
theorem expure_eq {α : Type} (a : α) : (pure a : Except IxErr α) = .ok a := rfl

/-- Inversion of a successful `Except` bind. -/
theorem exbind_ok_inv {α β : Type} {e : Except IxErr α} {f : α → Except IxErr β} {b : β}
    (h : (e >>= f) = .ok b) : ∃ a, e = .ok a ∧ f a = .ok b := by
  cases e with
  | ok a => exact ⟨a, rfl, h⟩
  | error er => simp at h

/-- Inversion of a successful `getNode`. -/
theorem getNode_ok_inv {s : IxState} {p : Int} {nd : IxNode}
    (h : getNode s p = .ok nd) : s.store p = some nd := by
  unfold getNode at h
  cases hst : s.store p with
  | none => rw [hst] at h; cases h
  | some nd' => rw [hst] at h; cases h; rfl

/-- Inversion of a successful `fetch_node`. -/
theorem fetch_node_ok_inv {s : IxState} {p : Int} {r : IxNode × IxState}
    (h : fetch_node s p = .ok r) :
    s.store p = some r.1 ∧
    r.2 = { s with pins := fun q => if q = p then s.pins p + 1 else s.pins q } := by
  unfold fetch_node at h
  cases hst : s.store p with
  | none => rw [hst] at h; cases h
  | some nd' => rw [hst] at h; cases h; exact ⟨rfl, rfl⟩

/-- `unpin_node` leaves the store unchanged. -/
@[simp]
theorem unpin_store (s : IxState) (p : Int) (d : Bool) :
    (unpin_node s p d).2.store = s.store := by
  unfold unpin_node
  rcases s.store p with _ | _ <;> dsimp only <;> split <;> rfl

/-- `unpin_node` leaves the header unchanged. -/
@[simp]
theorem unpin_hdr (s : IxState) (p : Int) (d : Bool) :
    (unpin_node s p d).2.hdr = s.hdr := by
  unfold unpin_node
  rcases s.store p with _ | _ <;> dsimp only <;> split <;> rfl

/-- `unpin_node` leaves `max_size` unchanged. -/
@[simp]
theorem unpin_max (s : IxState) (p : Int) (d : Bool) :
    (unpin_node s p d).2.max_size = s.max_size := by
  unfold unpin_node
  rcases s.store p with _ | _ <;> dsimp only <;> split <;> rfl

/-- `unpin_node` leaves the allocator unchanged. -/
@[simp]
theorem unpin_next (s : IxState) (p : Int) (d : Bool) :
    (unpin_node s p d).2.next_page_no = s.next_page_no := by
  unfold unpin_node
  rcases s.store p with _ | _ <;> dsimp only <;> split <;> rfl

/-- Reading the page just written. -/
@[simp]
theorem setNode_store_self (s : IxState) (p : Int) (nd : IxNode) :
    (s.setNode p nd).store p = some nd := by
  simp [IxState.setNode]

/-- `setNode` leaves the header unchanged. -/
@[simp]
theorem setNode_hdr (s : IxState) (p : Int) (nd : IxNode) :
    (s.setNode p nd).hdr = s.hdr := rfl

/-- `setNode` leaves the pins unchanged. -/
@[simp]
theorem setNode_pins (s : IxState) (p : Int) (nd : IxNode) :
    (s.setNode p nd).pins = s.pins := rfl

/-- `setNode` leaves the dirty flags unchanged. -/
@[simp]
theorem setNode_dirty (s : IxState) (p : Int) (nd : IxNode) :
    (s.setNode p nd).dirty = s.dirty := rfl

/-- `setNode` leaves `max_size` unchanged. -/
@[simp]
theorem setNode_max (s : IxState) (p : Int) (nd : IxNode) :
    (s.setNode p nd).max_size = s.max_size := rfl

/-- `setNode` leaves the allocator unchanged. -/
@[simp]
theorem setNode_next (s : IxState) (p : Int) (nd : IxNode) :
    (s.setNode p nd).next_page_no = s.next_page_no := rfl

/-- Reading another page after a write. -/
theorem setNode_store_ne (s : IxState) (p : Int) (nd : IxNode) (q : Int) (h : q ≠ p) :
    (s.setNode p nd).store q = s.store q := by
  simp [IxState.setNode, h]

/-- C7: `adjust_root` on the root node: an internal root with exactly one
child is replaced by that child (whose parent pointer is cleared) with
result `true`; an empty leaf root clears `root_page`, `first_leaf` and
`last_leaf` to `IX_NO_PAGE` with result `true`; in every other case it
returns `false` and changes nothing. -/
theorem adjust_root_spec (s : IxState) (np : Int) (nd : IxNode)
    (hnd : s.store np = some nd) (hroot : s.hdr.root_page = np) :
    ((¬ nd.is_leaf = true ∧ nd.size = 1) →
      ∀ r s', adjust_root s np = .ok (r, s') →
        r = true ∧ s'.hdr.root_page = nd.value_at 0 ∧
        (∃ cnd, s'.store (nd.value_at 0) = some cnd ∧ cnd.parent = IX_NO_PAGE)) ∧
    ((nd.is_leaf = true ∧ nd.size = 0) →
      adjust_root s np =
        .ok (true, { s with hdr := { root_page := IX_NO_PAGE, first_leaf := IX_NO_PAGE,
                                     last_leaf := IX_NO_PAGE, num_pages := s.hdr.num_pages } })) ∧
    (¬ (¬ nd.is_leaf = true ∧ nd.size = 1) → ¬ (nd.is_leaf = true ∧ nd.size = 0) →
      adjust_root s np = .ok (false, s)) := by
  refine ⟨?_, ?_, ?_⟩
  · intro hcase r s' hrun
    simp only [adjust_root, getNode, hnd, exbind_ok, if_pos hcase,
      IxNode.remove_and_return_only_child] at hrun
    obtain ⟨⟨cnd, s3⟩, hfetch, hrun⟩ := exbind_ok_inv hrun
    obtain ⟨hstore, hs3⟩ := fetch_node_ok_inv hfetch
    dsimp only at hrun
    cases hrun
    subst hs3
    refine ⟨rfl, by simp, ?_⟩
    refine ⟨{ cnd with parent := IX_NO_PAGE }, ?_, rfl⟩
    rw [unpin_store]
    exact setNode_store_self _ _ _
  · intro hcase
    simp [adjust_root, getNode, hnd, hcase.1, hcase.2]
  · intro h1 h2
    by_cases hl : nd.is_leaf = true
    · have hs0 : ¬ nd.size = 0 := fun h => h2 ⟨hl, h⟩
      simp [adjust_root, getNode, hnd, hl, hs0]
    · have hlf : nd.is_leaf = false := by
        cases hb : nd.is_leaf
        · rfl
        · exact absurd hb hl
      have hs1 : ¬ nd.size = 1 := fun h => h1 ⟨by simp [hlf], h⟩
      simp [adjust_root, getNode, hnd, hlf, hs1]

/-- Modelled from the spec (`ix_manager` is not under `src/`; spec §8
scenario 1 starts from a freshly created index): the empty root leaf. -/
def leaf0 : IxNode :=
  { is_leaf := true, keys := [], rids := [], parent := IX_NO_PAGE,
    prev_leaf := IX_LEAF_HEADER_PAGE, next_leaf := IX_LEAF_HEADER_PAGE }

/-- Modelled from the spec (§6: the leaf-header page is a reserved
end-of-chain page): the sentinel page's node view, linked to the root
leaf. -/
def hdrNode : IxNode :=
  { is_leaf := true, keys := [], rids := [], parent := IX_NO_PAGE,
    prev_leaf := 2, next_leaf := 2 }

/-- Modelled from the spec: the state of a freshly created index with
`max_size = 4` (spec §8), pages 0 (file header), 1 (leaf header sentinel)
and 2 (empty root leaf). -/
def s0 : IxState :=
  { hdr := { root_page := 2, first_leaf := 2, last_leaf := 2, num_pages := 3 },
    max_size := 4,
    store := fun p => if p = 2 then some leaf0 else if p = 1 then some hdrNode else none,
    pins := fun _ => 0, dirty := fun _ => false, next_page_no := 3 }

/-- Witness for `adjust_root_spec`: the empty root leaf of a fresh index
clears the tree. -/
theorem adjust_root_spec_witness :
    adjust_root s0 2 =
      .ok (true, { s0 with hdr := { root_page := IX_NO_PAGE, first_leaf := IX_NO_PAGE,
                                    last_leaf := IX_NO_PAGE, num_pages := s0.hdr.num_pages } }) :=
  (adjust_root_spec s0 2 leaf0 (by decide) rfl).2.1 (by decide)

/-- `unpin_node` on a resident, pinned page: decrement the pin, or the dirty
flag, report success. -/
theorem unpin_node_pos (s : IxState) (p : Int) (d : Bool)
    (hst : ∃ nd, s.store p = some nd) (hpin : 0 < s.pins p) :
    unpin_node s p d =
      (true, { s with pins := fun q => if q = p then s.pins p - 1 else s.pins q,
                      dirty := fun q => if q = p then (s.dirty q || d) else s.dirty q }) := by
  obtain ⟨nd, hnd⟩ := hst
  simp [unpin_node, hnd, hpin]

/-- C8: `get_rid` on an `Iid` whose page is a leaf of the tree fails with
`EntryNotFound` exactly when the slot is at or past the leaf's `num_key`;
otherwise it returns the rid stored at the slot and unpins the leaf clean,
leaving every page's pin count (and dirty flag) as before the call. -/
theorem get_rid_spec (s : IxState) (iid : Iid) (nd : IxNode)
    (hnd : s.store iid.page_no = some nd) (hleaf : nd.is_leaf = true)
    (hslot : 0 ≤ iid.slot_no) :
    ((iid.slot_no ≥ (nd.size : Int)) ↔ (ix_get_rid s iid).1 = .error .entryNotFound) ∧
    (iid.slot_no < (nd.size : Int) →
      (ix_get_rid s iid).1 = .ok (nd.get_rid iid.slot_no.toNat) ∧
      (∀ p, (ix_get_rid s iid).2.pins p = s.pins p) ∧
      (∀ p, (ix_get_rid s iid).2.dirty p = s.dirty p)) := by
  constructor
  · constructor
    · intro hge
      simp [ix_get_rid, fetch_node, hnd, hge]
    · intro hres
      by_contra hlt
      push_neg at hlt
      simp [ix_get_rid, fetch_node, hnd, not_le.mpr hlt] at hres
  · intro hlt
    have hge : ¬ iid.slot_no ≥ (nd.size : Int) := not_le.mpr hlt
    simp only [ix_get_rid, fetch_node, hnd, if_neg hge]
    rw [unpin_node_pos
      { s with pins := fun q =>
          if q = iid.page_no then s.pins iid.page_no + 1 else s.pins q }
      iid.page_no false ⟨nd, hnd⟩ (by simp)]
    refine ⟨trivial, ?_, ?_⟩
    · intro p
      by_cases hp : p = iid.page_no
      · subst hp
        simp
      · simp [hp]
    · intro p
      by_cases hp : p = iid.page_no
      · subst hp
        simp
      · simp [hp]

/-- A one-entry leaf for the `get_rid_spec` witness. -/
def leafW8 : IxNode :=
  { is_leaf := true, keys := [[10]], rids := [⟨10, 0⟩], parent := IX_NO_PAGE,
    prev_leaf := IX_LEAF_HEADER_PAGE, next_leaf := IX_LEAF_HEADER_PAGE }

/-- A one-leaf index state for the `get_rid_spec` witness. -/
def sW8 : IxState :=
  { hdr := { root_page := 2, first_leaf := 2, last_leaf := 2, num_pages := 3 },
    max_size := 4,
    store := fun p => if p = 2 then some leafW8 else if p = 1 then some hdrNode else none,
    pins := fun _ => 0, dirty := fun _ => false, next_page_no := 3 }

/-- Witness for `get_rid_spec`: slot 0 of the one-entry leaf. -/
theorem get_rid_spec_witness :
    (ix_get_rid sW8 ⟨2, 0⟩).1 = .ok (leafW8.get_rid 0) ∧
    (ix_get_rid sW8 ⟨2, 0⟩).2.pins 2 = sW8.pins 2 :=
  ⟨((get_rid_spec sW8 ⟨2, 0⟩ leafW8 (by decide) rfl (by decide)).2 (by decide)).1,
   ((get_rid_spec sW8 ⟨2, 0⟩ leafW8 (by decide) rfl (by decide)).2 (by decide)).2.1 2⟩

/-- Success of an `Except` computation, as a boolean (for witnesses). -/
def exOk {α : Type} : Except IxErr α → Bool
  | .ok _ => true
  | .error _ => false

/-- `getD` below the length. -/
theorem getD_eq_of_lt {α : Type} (l : List α) (d : α) (i : Nat) (h : i < l.length) :
    l.getD i d = l[i] := by
  simp [List.getD, List.getElem?_eq_getElem h]

/-- `getD` at or past the length. -/
theorem getD_eq_of_le {α : Type} (l : List α) (d : α) (i : Nat) (h : l.length ≤ i) :
    l.getD i d = d := by
  simp [List.getD, List.getElem?_eq_none h]

/-- `create_node` projections. -/
@[simp]
theorem create_fst (s : IxState) : (create_node s).1 = s.next_page_no := rfl

/-- `create_node` leaves `max_size` unchanged. -/
@[simp]
theorem create_max (s : IxState) : (create_node s).2.max_size = s.max_size := rfl

/-- Reading the freshly created page. -/
@[simp]
theorem create_store_self (s : IxState) :
    (create_node s).2.store s.next_page_no = some emptyNode := by
  simp [create_node]

/-- Reading another page after `create_node`. -/
theorem create_store_ne (s : IxState) (p : Int) (h : p ≠ s.next_page_no) :
    (create_node s).2.store p = s.store p := by
  simp [create_node, h]

/-- `create_node` leaves the leaf-list header fields as they are (only
`num_pages` moves). -/
@[simp]
theorem create_hdr (s : IxState) :
    (create_node s).2.hdr = { s.hdr with num_pages := s.hdr.num_pages + 1 } := rfl

/-- What `maintain_children` can do to the store: every page is either
untouched or re-parented to `np` (and only pages listed among the rids of
`np`'s node are touched). -/
theorem maintain_children_store (np : Int) (R : List Rid) :
    ∀ (is : List Nat) (s s' : IxState), maintain_children s np is = .ok s' →
    (∃ nd0, s.store np = some nd0 ∧ nd0.rids = R) →
    ∀ p, ((p ∉ R.map Rid.page_no ∧ p ≠ 0) → s'.store p = s.store p) ∧
      (s'.store p = s.store p ∨
        ∃ nd, s.store p = some nd ∧ s'.store p = some { nd with parent := np }) := by
  intro is
  induction is with
  | nil =>
    intro s s' hrun hR p
    cases hrun
    exact ⟨fun _ => rfl, Or.inl rfl⟩
  | cons i rest ih =>
    intro s s' hrun hR p
    obtain ⟨nd0, hnd0, hrids⟩ := hR
    simp only [maintain_children] at hrun
    obtain ⟨s1, hstep, hrest⟩ := exbind_ok_inv hrun
    simp only [maintain_child, getNode, hnd0, exbind_ok] at hstep
    by_cases hleaf : nd0.is_leaf
    · rw [if_neg (by simp [hleaf])] at hstep
      cases hstep
      exact ih s s' hrest ⟨nd0, hnd0, hrids⟩ p
    · rw [if_pos (by simp [hleaf])] at hstep
      obtain ⟨⟨cnd, sa⟩, hfetch, hstep⟩ := exbind_ok_inv hstep
      obtain ⟨hcst, hsa⟩ := fetch_node_ok_inv hfetch
      dsimp only at hstep
      cases hstep
      subst hsa
      set c := nd0.value_at i with hc
      -- the intermediate state after the step
      have hstore1 : ∀ q, ((unpin_node (IxState.setNode
          { s with pins := fun q => if q = c then s.pins c + 1 else s.pins q }
          c { cnd with parent := np }) c true).2).store q =
          (if q = c then some { cnd with parent := np } else s.store q) := by
        intro q
        rw [unpin_store]
        by_cases hq : q = c
        · subst hq; simp
        · rw [setNode_store_ne _ _ _ _ hq, if_neg hq]
      have hnp1 : ∃ nd1, ((unpin_node (IxState.setNode
          { s with pins := fun q => if q = c then s.pins c + 1 else s.pins q }
          c { cnd with parent := np }) c true).2).store np = some nd1 ∧ nd1.rids = R := by
        rw [hstore1 np]
        by_cases hq : np = c
        · rw [if_pos hq]
          refine ⟨_, rfl, ?_⟩
          have : s.store np = some cnd := by rw [hq]; exact hcst
          rw [hnd0] at this
          cases this
          exact hrids
        · rw [if_neg hq]
          exact ⟨nd0, hnd0, hrids⟩
      have hrec := ih _ s' hrest hnp1 p
      have hcmem : c ∈ R.map Rid.page_no ∨ c = 0 := by
        by_cases hi : i < R.length
        · left
          rw [hc, IxNode.value_at, IxNode.get_rid, hrids, getD_eq_of_lt _ _ _ hi]
          exact List.mem_map.mpr ⟨R[i], List.getElem_mem hi, rfl⟩
        · right
          rw [hc, IxNode.value_at, IxNode.get_rid, hrids, getD_eq_of_le _ _ _ (by omega)]
      constructor
      · intro hp
        rw [hrec.1 hp, hstore1 p, if_neg ?_]
        intro hpc
        subst hpc
        rcases hcmem with h | h
        · exact hp.1 h
        · exact hp.2 h
      · rcases hrec.2 with heq | ⟨nd1, h1, h2⟩
        · rw [heq, hstore1 p]
          by_cases hq : p = c
          · subst hq
            right
            exact ⟨cnd, hcst, by rw [if_pos rfl]⟩
          · rw [if_neg hq]
            left
            rfl
        · rw [hstore1 p] at h1
          by_cases hq : p = c
          · rw [if_pos hq] at h1
            cases h1
            right
            subst hq
            exact ⟨cnd, hcst, h2⟩
          · rw [if_neg hq] at h1
            right
            exact ⟨nd1, h1, h2⟩

/-- C4: `split` of a node with `n` keys creates a right sibling holding
exactly the old entries `[n/2, n)` (same leaf flag, same parent), leaves the
node with exactly `[0, n/2)`, and for a leaf splices the new node between
the node and its old `next_leaf` (updating the old next's `prev_leaf` when
present, and moving `last_leaf` to the new node exactly when the split node
was `last_leaf` or its old next was the leaf-header sentinel). -/
theorem split_spec (s : IxState) (np : Int) (nd : IxNode)
    (hnd : s.store np = some nd)
    (hlen : nd.rids.length = nd.keys.length)
    (hfresh : ∀ p, s.next_page_no ≤ p → s.store p = none)
    (hq0 : s.next_page_no ≠ 0)
    (hchild : ∀ r ∈ nd.rids, r.page_no ≠ s.next_page_no)
    (hnl : nd.next_leaf ≠ np) (hnlq : nd.next_leaf ≠ s.next_page_no) :
    ∀ res s', split s np = .ok (res, s') →
      res = s.next_page_no ∧
      (∃ nq, s'.store s.next_page_no = some nq ∧
        nq.keys = nd.keys.drop (nd.size / 2) ∧ nq.rids = nd.rids.drop (nd.size / 2) ∧
        nq.is_leaf = nd.is_leaf ∧ nq.parent = nd.parent) ∧
      (∃ nd', s'.store np = some nd' ∧
        nd'.keys = nd.keys.take (nd.size / 2) ∧ nd'.rids = nd.rids.take (nd.size / 2)) ∧
      (nd.is_leaf = true →
        (∃ nq, s'.store s.next_page_no = some nq ∧ nq.prev_leaf = np ∧
          nq.next_leaf = nd.next_leaf) ∧
        (∃ nd', s'.store np = some nd' ∧ nd'.next_leaf = s.next_page_no) ∧
        (nd.next_leaf ≠ IX_NO_PAGE →
          ∃ nn, s'.store nd.next_leaf = some nn ∧ nn.prev_leaf = s.next_page_no) ∧
        s'.hdr.last_leaf = (if s.hdr.last_leaf = np ∨ nd.next_leaf = IX_LEAF_HEADER_PAGE
          then s.next_page_no else s.hdr.last_leaf)) := by
  intro res s' hrun
  have hnpq : np ≠ s.next_page_no := by
    intro h
    rw [hfresh np (le_of_eq h.symm)] at hnd
    cases hnd
  have hqnp : s.next_page_no ≠ np := fun h => hnpq h.symm
  have hnl' : np ≠ nd.next_leaf := fun h => hnl h.symm
  have hnlq' : s.next_page_no ≠ nd.next_leaf := fun h => hnlq h.symm
  by_cases hgrd : nd.keys.length ≤ s.max_size + nd.keys.length / 2
  case neg =>
    exfalso
    simp [split, create_node, getNode, hnpq, hnd, IxNode.insert_pairs, IxNode.size,
      hgrd] at hrun
  case pos =>
    by_cases hleaf : nd.is_leaf = true
    · by_cases hnn : nd.next_leaf = IX_NO_PAGE
      · by_cases hlast : s.hdr.last_leaf = np
        all_goals
          simp [split, create_node, getNode, hnpq, hnd, IxNode.insert_pairs, IxNode.size,
            hgrd, IxNode.set_size, hleaf, hnn, hlast, IxState.setNode,
            IX_NO_PAGE, IX_LEAF_HEADER_PAGE] at hrun
        all_goals
          obtain ⟨hres, hs'⟩ := hrun
          subst hs'
          refine ⟨hres.symm, ?_, ?_, fun _ => ⟨?_, ?_, fun hne => absurd hnn hne, ?_⟩⟩
          · refine ⟨{ is_leaf := true, keys := nd.keys.drop (nd.keys.length / 2),
                        rids := nd.rids.drop (nd.keys.length / 2), parent := nd.parent,
                        prev_leaf := np, next_leaf := IX_NO_PAGE }, ?_, rfl, rfl, hleaf.symm, rfl⟩
            simp [hqnp, hlast, IX_NO_PAGE]
          · refine ⟨{ is_leaf := true, keys := nd.keys.take (nd.keys.length / 2),
                        rids := nd.rids.take (nd.keys.length / 2), parent := nd.parent,
                        prev_leaf := nd.prev_leaf, next_leaf := s.next_page_no }, ?_, rfl, rfl⟩
            simp [hlast, IX_NO_PAGE]
          · refine ⟨{ is_leaf := true, keys := nd.keys.drop (nd.keys.length / 2),
                        rids := nd.rids.drop (nd.keys.length / 2), parent := nd.parent,
                        prev_leaf := np, next_leaf := IX_NO_PAGE }, ?_, rfl, hnn.symm⟩
            simp [hqnp, hlast, IX_NO_PAGE]
          · refine ⟨{ is_leaf := true, keys := nd.keys.take (nd.keys.length / 2),
                        rids := nd.rids.take (nd.keys.length / 2), parent := nd.parent,
                        prev_leaf := nd.prev_leaf, next_leaf := s.next_page_no }, ?_, rfl⟩
            simp [hlast, IX_NO_PAGE]
          · simp [hlast, hnn, IX_NO_PAGE, IX_LEAF_HEADER_PAGE]
      · rcases hstnext : s.store nd.next_leaf with _ | nnd
        · exfalso
          simp [split, create_node, getNode, hnpq, hnd, IxNode.insert_pairs, IxNode.size,
            hgrd, IxNode.set_size, hleaf, hnn, IxState.setNode, fetch_node, hnlq', hnl',
            hnlq, hnl, hstnext] at hrun
        by_cases hlast : s.hdr.last_leaf = np ∨ nd.next_leaf = IX_LEAF_HEADER_PAGE
        all_goals
          simp [split, create_node, getNode, hnpq, hnd, IxNode.insert_pairs, IxNode.size,
            hgrd, IxNode.set_size, hleaf, hnn, hlast, IxState.setNode, fetch_node,
            unpin_node, hnlq', hnl', hnlq, hnl, hstnext] at hrun
        all_goals
          obtain ⟨hres, hs'⟩ := hrun
          subst hs'
          refine ⟨hres.symm, ?_, ?_, fun _ => ⟨?_, ?_, fun hne => ?_, ?_⟩⟩
          · refine ⟨{ is_leaf := true, keys := nd.keys.drop (nd.keys.length / 2),
                        rids := nd.rids.drop (nd.keys.length / 2), parent := nd.parent,
                        prev_leaf := np, next_leaf := nd.next_leaf }, ?_, rfl, rfl, hleaf.symm, rfl⟩
            simp [hqnp, hnlq', hlast]
          · refine ⟨{ is_leaf := true, keys := nd.keys.take (nd.keys.length / 2),
                        rids := nd.rids.take (nd.keys.length / 2), parent := nd.parent,
                        prev_leaf := nd.prev_leaf, next_leaf := s.next_page_no }, ?_, rfl, rfl⟩
            simp [hnl', hlast]
          · refine ⟨{ is_leaf := true, keys := nd.keys.drop (nd.keys.length / 2),
                        rids := nd.rids.drop (nd.keys.length / 2), parent := nd.parent,
                        prev_leaf := np, next_leaf := nd.next_leaf }, ?_, rfl, rfl⟩
            simp [hqnp, hnlq', hlast]
          · refine ⟨{ is_leaf := true, keys := nd.keys.take (nd.keys.length / 2),
                        rids := nd.rids.take (nd.keys.length / 2), parent := nd.parent,
                        prev_leaf := nd.prev_leaf, next_leaf := s.next_page_no }, ?_, rfl⟩
            simp [hnl', hlast]
          · refine ⟨{ is_leaf := nnd.is_leaf, keys := nnd.keys, rids := nnd.rids,
                        parent := nnd.parent, prev_leaf := s.next_page_no,
                        next_leaf := nnd.next_leaf }, ?_, rfl⟩
            simp [hlast]
          · simp [hlast]
    · have hleaf' : nd.is_leaf = false := by
        cases h : nd.is_leaf
        · rfl
        · exact absurd h hleaf
      simp [split, create_node, getNode, hnpq, hnd, IxNode.insert_pairs, IxNode.size,
        hgrd, IxNode.set_size, hleaf', IxState.setNode] at hrun
      obtain ⟨s5, hmc, hfin⟩ := exbind_ok_inv hrun
      obtain ⟨hres, hs5⟩ : s.next_page_no = res ∧ s5 = s' := by simpa using hfin
      subst hs5
      have hmcs := maintain_children_store s.next_page_no
        (List.drop (nd.keys.length / 2) nd.rids) _ _ _ hmc
        ⟨{ is_leaf := false, keys := List.drop (nd.keys.length / 2) nd.keys,
           rids := List.drop (nd.keys.length / 2) nd.rids, parent := nd.parent,
           prev_leaf := IX_NO_PAGE, next_leaf := IX_NO_PAGE }, by simp [hqnp], rfl⟩
      refine ⟨hres.symm, ?_, ?_, fun ht => absurd ht hleaf⟩
      · have hqmem : s.next_page_no ∉
            (List.drop (nd.keys.length / 2) nd.rids).map Rid.page_no := by
          intro hmem
          obtain ⟨r, hr, hrq⟩ := List.mem_map.mp hmem
          exact hchild r (List.mem_of_mem_drop hr) hrq
        have hqq := (hmcs s.next_page_no).1 ⟨hqmem, hq0⟩
        refine ⟨{ is_leaf := false, keys := List.drop (nd.keys.length / 2) nd.keys,
                  rids := List.drop (nd.keys.length / 2) nd.rids, parent := nd.parent,
                  prev_leaf := IX_NO_PAGE, next_leaf := IX_NO_PAGE },
                ?_, rfl, rfl, hleaf'.symm, rfl⟩
        rw [hqq]
        simp [hqnp]
      · rcases (hmcs np).2 with heq | ⟨x, hx1, hx2⟩
        · refine ⟨{ is_leaf := false, keys := List.take (nd.keys.length / 2) nd.keys,
                    rids := List.take (nd.keys.length / 2) nd.rids, parent := nd.parent,
                    prev_leaf := nd.prev_leaf, next_leaf := nd.next_leaf },
                  ?_, rfl, rfl⟩
          rw [heq]
          simp
        · simp [hnpq] at hx1
          subst hx1
          exact ⟨_, hx2, rfl, rfl⟩

/-- A full (4-entry) root leaf for the `split_spec` witness. -/
def leafW4 : IxNode :=
  { is_leaf := true, keys := [[10], [20], [30], [40]],
    rids := [⟨10, 0⟩, ⟨20, 0⟩, ⟨30, 0⟩, ⟨40, 0⟩], parent := IX_NO_PAGE,
    prev_leaf := IX_LEAF_HEADER_PAGE, next_leaf := IX_LEAF_HEADER_PAGE }

/-- An index state whose root leaf is full, for the `split_spec` witness. -/
def sW4 : IxState :=
  { hdr := { root_page := 2, first_leaf := 2, last_leaf := 2, num_pages := 3 },
    max_size := 4,
    store := fun p => if p = 2 then some leafW4 else if p = 1 then some hdrNode else none,
    pins := fun _ => 0, dirty := fun _ => false, next_page_no := 3 }

/-- The page number a successful `split` returns (0 on failure). -/
def splitRes (r : Except IxErr (Int × IxState)) : Int :=
  match r with
  | .ok (q, _) => q
  | .error _ => 0

/-- The store of the state a successful `split` returns (empty on failure). -/
def splitStore (r : Except IxErr (Int × IxState)) (p : Int) : Option IxNode :=
  match r with
  | .ok (_, s1) => s1.store p
  | .error _ => none

/-- Witness for `split_spec`: splitting the full 4-entry root leaf of `sW4`
allocates page 3, moves keys 30,40 there and keeps 10,20 on page 2. -/
theorem split_spec_witness :
    splitRes (split sW4 2) = 3 ∧
    (splitStore (split sW4 2) 3).map IxNode.keys = some [[30], [40]] ∧
    (splitStore (split sW4 2) 2).map IxNode.keys = some [[10], [20]] := by
  have hok : exOk (split sW4 2) = true := by decide
  cases h : split sW4 2 with
  | error e =>
    rw [h] at hok
    simp [exOk] at hok
  | ok pair =>
    obtain ⟨res, s1⟩ := pair
    have hmain := split_spec sW4 2 leafW4 (by decide) (by decide)
      (by
        intro p hp
        simp only [sW4] at hp
        have h2 : p ≠ 2 := by omega
        have h1 : p ≠ 1 := by omega
        simp [sW4, h1, h2])
      (by decide) (by decide) (by decide) (by decide) res s1 h
    obtain ⟨hres, ⟨nq, hnq, hnqk, -⟩, ⟨nd1, hnd1, hnd1k, -⟩, -⟩ := hmain
    refine ⟨?_, ?_, ?_⟩
    · show res = 3
      exact hres
    · show (s1.store 3).map IxNode.keys = some [[30], [40]]
      rw [show (3 : Int) = sW4.next_page_no from rfl, hnq]
      simp [hnqk]
      rfl
    · show (s1.store 2).map IxNode.keys = some [[10], [20]]
      rw [hnd1]
      simp [hnd1k]
      rfl

/-- `maintain_child` is pin-neutral and preserves the store domain and the
allocator. -/
theorem maintain_child_frame (s : IxState) (np : Int) (i : Nat) (s' : IxState)
    (h : maintain_child s np i = .ok s') :
    (∀ x, s'.pins x = s.pins x) ∧
    (∀ x, (s'.store x).isSome = (s.store x).isSome) ∧
    s'.next_page_no = s.next_page_no := by
  simp only [maintain_child] at h
  obtain ⟨nd, hget, h⟩ := exbind_ok_inv h
  by_cases hleaf : nd.is_leaf
  · rw [if_neg (by simp [hleaf])] at h
    cases h
    exact ⟨fun x => rfl, fun x => rfl, rfl⟩
  · rw [if_pos (by simp [hleaf])] at h
    obtain ⟨⟨cnd, sa⟩, hfetch, h⟩ := exbind_ok_inv h
    obtain ⟨hcst, hsa⟩ := fetch_node_ok_inv hfetch
    dsimp only at h
    cases h
    subst hsa
    rw [unpin_node_pos
      (IxState.setNode
        { s with pins := fun q => if q = nd.value_at i then s.pins (nd.value_at i) + 1
                                  else s.pins q }
        (nd.value_at i) { cnd with parent := np })
      (nd.value_at i) true ⟨_, setNode_store_self _ _ _⟩ (by simp)]
    refine ⟨?_, ?_, rfl⟩
    · intro x
      by_cases hx : x = nd.value_at i
      · subst hx
        simp
      · simp [hx]
    · intro x
      by_cases hx : x = nd.value_at i
      · subst hx
        simp [IxState.setNode, hcst]
      · simp [IxState.setNode, hx]

/-- The `maintain_child` loops are pin-neutral and preserve the store domain
and the allocator. -/
theorem maintain_children_frame (np : Int) :
    ∀ (is : List Nat) (s s' : IxState), maintain_children s np is = .ok s' →
    (∀ x, s'.pins x = s.pins x) ∧
    (∀ x, (s'.store x).isSome = (s.store x).isSome) ∧
    s'.next_page_no = s.next_page_no := by
  intro is
  induction is with
  | nil =>
    intro s s' h
    cases h
    exact ⟨fun x => rfl, fun x => rfl, rfl⟩
  | cons i rest ih =>
    intro s s' h
    simp only [maintain_children] at h
    obtain ⟨s1, hstep, hrest⟩ := exbind_ok_inv h
    obtain ⟨h1p, h1d, h1n⟩ := maintain_child_frame s np i s1 hstep
    obtain ⟨h2p, h2d, h2n⟩ := ih s1 s' hrest
    exact ⟨fun x => (h2p x).trans (h1p x), fun x => (h2d x).trans (h1d x),
           h2n.trans h1n⟩

/-- `maintain_parent` is pin-neutral and preserves the store domain and the
allocator. -/
theorem maintain_parent_frame (fuel : Nat) :
    ∀ (s : IxState) (np : Int) (s' : IxState), maintain_parent fuel s np = .ok s' →
    (∀ x, s'.pins x = s.pins x) ∧
    (∀ x, (s'.store x).isSome = (s.store x).isSome) ∧
    s'.next_page_no = s.next_page_no := by
  induction fuel with
  | zero =>
    intro s np s' h
    simp [maintain_parent] at h
  | succ fuel ih =>
    intro s np s' h
    simp only [maintain_parent] at h
    obtain ⟨curr, hget, h⟩ := exbind_ok_inv h
    by_cases hpar : curr.parent = IX_NO_PAGE
    · rw [if_neg (by simp [hpar])] at h
      cases h
      exact ⟨fun x => rfl, fun x => rfl, rfl⟩
    · rw [if_pos (by simp [hpar])] at h
      obtain ⟨⟨parent_nd, s1⟩, hfetch, h⟩ := exbind_ok_inv h
      obtain ⟨hpst, hs1⟩ := fetch_node_ok_inv hfetch
      dsimp only at h hs1
      subst hs1
      have hpst' : s.store curr.parent = some parent_nd := by simpa using hpst
      by_cases heq : parent_nd.get_key (parent_nd.find_child np) = curr.get_key 0
      · rw [if_pos heq] at h
        simp [unpin_node, hpst'] at h
        subst h
        refine ⟨?_, fun x => rfl, rfl⟩
        intro x
        by_cases hx : x = curr.parent <;> simp [hx]
      · rw [if_neg heq] at h
        simp [unpin_node, IxState.setNode, hpst'] at h
        obtain ⟨h1p, h1d, h1n⟩ := ih _ _ _ h
        refine ⟨?_, ?_, by simpa using h1n⟩
        · intro x
          rw [h1p x]
          by_cases hx : x = curr.parent <;> simp [hx]
        · intro x
          rw [h1d x]
          by_cases hx : x = curr.parent
          · subst hx
            simp [hpst']
          · simp [hx]

/-- The descent loop of `find_leaf_page` moves the entry pin from the start
page to the returned leaf and touches nothing else (store and allocator are
untouched). -/
theorem find_leaf_loop_frame (fuel : Nat) :
    ∀ (s : IxState) (p : Int) (key : Key) (lp : Int) (s' : IxState),
    find_leaf_loop fuel s p key = .ok (lp, s') → 0 < s.pins p →
    (∀ x, s'.store x = s.store x) ∧ s'.next_page_no = s.next_page_no ∧
    (∀ x, (s'.pins x : Int) =
      (s.pins x : Int) + (if x = lp then 1 else 0) - (if x = p then 1 else 0)) := by
  induction fuel with
  | zero =>
    intro s p key lp s' h hpin
    simp [find_leaf_loop] at h
  | succ fuel ih =>
    intro s p key lp s' h hpin
    simp only [find_leaf_loop] at h
    obtain ⟨nd, hget, h⟩ := exbind_ok_inv h
    have hst := getNode_ok_inv hget
    by_cases hleaf : nd.is_leaf = true
    · rw [if_pos hleaf] at h
      cases h
      refine ⟨fun x => rfl, rfl, ?_⟩
      intro x
      by_cases hx : x = p <;> simp [hx]
    · rw [if_neg hleaf] at h
      rw [unpin_node_pos s p false ⟨nd, hst⟩ hpin] at h
      dsimp only at h
      obtain ⟨⟨nd2, s2⟩, hfetch, h⟩ := exbind_ok_inv h
      obtain ⟨hst2, hs2⟩ := fetch_node_ok_inv hfetch
      dsimp only at h hs2
      subst hs2
      obtain ⟨h1s, h1n, h1p⟩ := ih _ _ _ _ _ h (by simp)
      refine ⟨fun x => h1s x, h1n, ?_⟩
      intro x
      rw [h1p x]
      dsimp only
      by_cases hcp : nd.internal_lookup key = p <;>
        by_cases hxc : x = nd.internal_lookup key <;>
        by_cases hxp : x = p <;>
        by_cases hxl : x = lp <;>
        simp [hcp, hxc, hxp, hxl] <;>
        omega

/-- `find_leaf_page` on a non-empty tree adds one pin at the returned leaf
and touches nothing else; on the empty tree it is the identity. -/
theorem find_leaf_page_frame (fuel : Nat) (s : IxState) (key : Key)
    (r : Option Int) (s' : IxState) (h : find_leaf_page fuel s key = .ok (r, s')) :
    (r = none → s' = s) ∧
    (∀ lp, r = some lp →
      (∀ x, s'.store x = s.store x) ∧ s'.next_page_no = s.next_page_no ∧
      (∀ x, s'.pins x = s.pins x + (if x = lp then 1 else 0))) := by
  simp only [find_leaf_page] at h
  by_cases hemp : s.is_empty = true
  · rw [if_pos hemp] at h
    cases h
    exact ⟨fun _ => rfl, fun lp hlp => Option.noConfusion hlp⟩
  · rw [if_neg hemp] at h
    obtain ⟨⟨nd0, s1⟩, hfetch, h⟩ := exbind_ok_inv h
    obtain ⟨hst0, hs1⟩ := fetch_node_ok_inv hfetch
    dsimp only at h hs1
    subst hs1
    obtain ⟨⟨lp0, s2⟩, hloop, h⟩ := exbind_ok_inv h
    dsimp only at h
    cases h
    obtain ⟨h1s, h1n, h1p⟩ := find_leaf_loop_frame fuel _ _ _ _ _ hloop (by simp)
    refine ⟨fun hn => Option.noConfusion hn, ?_⟩
    intro lq hlq
    obtain rfl := Option.some.inj hlq
    refine ⟨fun x => h1s x, h1n, ?_⟩
    intro x
    have := h1p x
    dsimp only at this
    by_cases hxl : x = lp0
    · subst hxl
      by_cases hxr : x = s.hdr.root_page <;> simp [hxr] at this ⊢ <;> omega
    · by_cases hxr : x = s.hdr.root_page
      · subst hxr
        simp [hxl] at this ⊢
        omega
      · simp [hxl, hxr] at this ⊢
        omega

/-- Pointwise pins of a positive `unpin_node`. -/
theorem unpin_pins_pos (s : IxState) (p : Int) (d : Bool)
    (hst : ∃ nd, s.store p = some nd) (hpin : 0 < s.pins p) :
    ∀ x, (unpin_node s p d).2.pins x = if x = p then s.pins p - 1 else s.pins x := by
  intro x
  rw [unpin_node_pos s p d hst hpin]

/-- `get_value` is pin-neutral: every page it pins on the way down is
unpinned by the time it returns. -/
theorem get_value_pins (fuel : Nat) (s : IxState) (key : Key) (found : Bool)
    (rids : List Rid) (s' : IxState)
    (h : get_value fuel s key = .ok (found, rids, s')) :
    ∀ x, s'.pins x = s.pins x := by
  simp only [get_value] at h
  obtain ⟨⟨r, s1⟩, hflp, h⟩ := exbind_ok_inv h
  have hframe := find_leaf_page_frame fuel s key r s1 hflp
  cases r with
  | none =>
    dsimp only at h
    cases h
    rw [hframe.1 rfl]
    exact fun x => rfl
  | some lq =>
    dsimp only at h
    obtain ⟨leaf, hget, h⟩ := exbind_ok_inv h
    have hstl := getNode_ok_inv hget
    obtain ⟨hfs, hfn, hfp⟩ := hframe.2 lq rfl
    have hpin1 : 0 < s1.pins lq := by
      rw [hfp lq]
      simp
    rw [unpin_node_pos s1 lq false ⟨leaf, hstl⟩ hpin1] at h
    dsimp only at h
    cases h
    intro x
    dsimp only
    have := hfp x
    by_cases hx : x = lq
    · subst hx
      simp [this]
    · simp [hx, this]

/-- `create_node` pins the fresh page once. -/
@[simp]
theorem create_pins (s : IxState) (x : Int) :
    (create_node s).2.pins x = if x = s.next_page_no then 1 else s.pins x := rfl

/-- `create_node` bumps the allocator. -/
@[simp]
theorem create_next (s : IxState) :
    (create_node s).2.next_page_no = s.next_page_no + 1 := rfl

/-- `create_node` as a pair, keeping the new state abstract. -/
theorem create_eta (s : IxState) :
    create_node s = (s.next_page_no, (create_node s).2) := rfl

/-- Effect of the fetch / overwrite / unpin pattern on pins, store and the
allocator. -/
theorem pin_bump_set_unpin (s : IxState) (p : Int) (v : IxNode) (d : Bool) :
    (∀ x, (unpin_node (IxState.setNode
        { s with pins := fun r => if r = p then s.pins p + 1 else s.pins r } p v)
        p d).2.pins x = s.pins x) ∧
    (∀ x, (unpin_node (IxState.setNode
        { s with pins := fun r => if r = p then s.pins p + 1 else s.pins r } p v)
        p d).2.store x = (if x = p then some v else s.store x)) ∧
    (unpin_node (IxState.setNode
        { s with pins := fun r => if r = p then s.pins p + 1 else s.pins r } p v)
        p d).2.next_page_no = s.next_page_no := by
  rw [unpin_node_pos _ p d ⟨v, setNode_store_self _ _ _⟩ (by simp)]
  refine ⟨?_, ?_, rfl⟩
  · intro x
    by_cases hx : x = p
    · subst hx
      simp
    · simp [hx]
  · intro x
    by_cases hx : x = p
    · subst hx
      simp [IxState.setNode]
    · simp [IxState.setNode, hx]

/-- `split` allocates exactly the next page, leaves it pinned once, and is
otherwise pin-neutral; the store gains only the new page. -/
theorem split_pins (s : IxState) (np : Int) (q : Int) (s' : IxState)
    (h : split s np = .ok (q, s')) :
    q = s.next_page_no ∧ s'.next_page_no = s.next_page_no + 1 ∧
    (∀ x, s'.pins x = if x = s.next_page_no then 1 else s.pins x) ∧
    (∀ x, x ≠ s.next_page_no → (s'.store x).isSome = (s.store x).isSome) ∧
    (s'.store s.next_page_no).isSome = true := by
  simp only [split] at h
  rw [create_eta] at h
  dsimp only at h
  obtain ⟨nd, hget, h⟩ := exbind_ok_inv h
  obtain ⟨new1, hins, h⟩ := exbind_ok_inv h
  have hnd1 : np = s.next_page_no ∨ (s.store np).isSome = true := by
    have := getNode_ok_inv hget
    by_cases hnp : np = s.next_page_no
    · exact Or.inl hnp
    · right
      rw [create_store_ne s np hnp] at this
      simp [this]
  simp only [IxNode.set_size] at h
  by_cases hleaf : new1.is_leaf = true
  · rw [if_pos hleaf] at h
    by_cases hnl : nd.next_leaf = IX_NO_PAGE
    · rw [if_neg (by simp [hnl])] at h
      simp only [expure_eq, exbind_ok] at h
      cases h
      refine ⟨rfl, ?_, ?_, ?_, ?_⟩
      · rw [apply_ite (fun st : IxState => st.next_page_no)]
        split_ifs <;> simp
      · intro x
        rw [apply_ite (fun st : IxState => st.pins x)]
        split_ifs <;> by_cases hq : x = s.next_page_no <;> simp [hq] <;> omega
      · intro x hx
        rw [apply_ite (fun st : IxState => (st.store x).isSome)]
        split_ifs <;> (try dsimp only) <;> by_cases hxp : x = np
        all_goals
          first
          | (subst hxp
             rcases hnd1 with hnp | hs
             · exact absurd hnp hx
             · simp [hs])
          | (rw [setNode_store_ne _ _ _ _ hxp, setNode_store_ne _ _ _ _ hx,
               setNode_store_ne _ _ _ _ hxp, setNode_store_ne _ _ _ _ hx,
               setNode_store_ne _ _ _ _ hx, create_store_ne s x hx])
      · rw [apply_ite (fun st : IxState => (st.store s.next_page_no).isSome)]
        split_ifs <;> (try dsimp only) <;> by_cases hnp : np = s.next_page_no
        all_goals
          first
          | simp [hnp]
          | (rw [setNode_store_ne _ _ _ _ (fun hq => hnp hq.symm)]
             simp)
    · rw [if_pos hnl] at h
      obtain ⟨⟨nnd, sx⟩, hfetch, h⟩ := exbind_ok_inv h
      obtain ⟨hnst, hsx⟩ := fetch_node_ok_inv hfetch
      dsimp only at h hsx
      subst hsx
      simp only [expure_eq, exbind_ok] at h
      cases h
      refine ⟨rfl, ?_, ?_, ?_, ?_⟩
      · rw [apply_ite (fun st : IxState => st.next_page_no)]
        split_ifs <;> (try dsimp only) <;>
          rw [(pin_bump_set_unpin _ _ _ _).2.2] <;> simp
      · intro x
        rw [apply_ite (fun st : IxState => st.pins x)]
        split_ifs <;> (try dsimp only) <;>
          rw [(pin_bump_set_unpin _ _ _ _).1 x] <;>
          by_cases hq : x = s.next_page_no <;> simp [hq] <;> omega
      · intro x hx
        rw [apply_ite (fun st : IxState => (st.store x).isSome)]
        split_ifs <;> (try dsimp only) <;>
          rw [(pin_bump_set_unpin _ _ _ _).2.1 x]
        all_goals
          by_cases hxnl : x = nd.next_leaf
          · rw [if_pos hxnl]
            subst hxnl
            by_cases hxp : nd.next_leaf = np
            · rcases hnd1 with hnp | hs
              · exfalso
                omega
              · simp [hxp, hs]
            · rw [setNode_store_ne _ _ _ _ hxp, setNode_store_ne _ _ _ _ hx,
                  setNode_store_ne _ _ _ _ hxp, setNode_store_ne _ _ _ _ hx,
                  setNode_store_ne _ _ _ _ hx, create_store_ne s _ hx] at hnst
              simp [hnst]
          · rw [if_neg hxnl]
            by_cases hxp : x = np
            · subst hxp
              rcases hnd1 with hnp | hs
              · exact absurd hnp hx
              · simp [hs]
            · rw [setNode_store_ne _ _ _ _ hxp, setNode_store_ne _ _ _ _ hx,
                  setNode_store_ne _ _ _ _ hxp, setNode_store_ne _ _ _ _ hx,
                  setNode_store_ne _ _ _ _ hx, create_store_ne s x hx]
      · rw [apply_ite (fun st : IxState => (st.store s.next_page_no).isSome)]
        split_ifs <;> (try dsimp only) <;>
          rw [(pin_bump_set_unpin _ _ _ _).2.1 s.next_page_no]
        all_goals
          by_cases hqnl : s.next_page_no = nd.next_leaf
          · rw [if_pos hqnl]
            simp
          · rw [if_neg hqnl]
            by_cases hnp : np = s.next_page_no
            · simp [hnp]
            · rw [setNode_store_ne _ _ _ _ (fun hq => hnp hq.symm)]
              simp
  · rw [if_neg hleaf] at h
    obtain ⟨s5, hmc, h⟩ := exbind_ok_inv h
    cases h
    obtain ⟨hmp, hmd, hmn⟩ := maintain_children_frame _ _ _ _ hmc
    refine ⟨rfl, by simp [hmn], ?_, ?_, ?_⟩
    · intro x
      rw [hmp x]
      simp
    · intro x hx
      rw [hmd x]
      by_cases hxp : x = np
      · subst hxp
        rcases hnd1 with hnp | hs
        · exact absurd hnp hx
        · simp [hs]
      · rw [setNode_store_ne _ _ _ _ hxp, setNode_store_ne _ _ _ _ hx,
            setNode_store_ne _ _ _ _ hx, create_store_ne s x hx]
    · rw [hmd _]
      by_cases hnp : np = s.next_page_no
      · simp [hnp]
      · rw [setNode_store_ne _ _ _ _ (fun hq => hnp hq.symm)]
        simp


/-- `setNode` keeps every resident page resident. -/
theorem setNode_isSome (s : IxState) (p : Int) (v : IxNode) (x : Int)
    (h : (s.store x).isSome = true) : ((s.setNode p v).store x).isSome = true := by
  by_cases hx : x = p <;> simp [IxState.setNode, hx, h]

/-- A page resident after `setNode` was the target or already resident. -/
theorem setNode_isSome_inv (s : IxState) (p : Int) (v : IxNode) (x : Int)
    (h : ((s.setNode p v).store x).isSome = true) :
    x = p ∨ (s.store x).isSome = true := by
  by_cases hx : x = p
  · exact Or.inl hx
  · right
    rw [setNode_store_ne _ _ _ _ hx] at h
    exact h

/-- `create_node` keeps every resident page resident. -/
theorem create_isSome (s : IxState) (x : Int) (h : (s.store x).isSome = true) :
    ((create_node s).2.store x).isSome = true := by
  by_cases hx : x = s.next_page_no <;> simp [create_node, hx, h]

/-- Effect of overwrite-then-unpin on a positively pinned page. -/
theorem set_unpin_pins (T : IxState) (p : Int) (v : IxNode) (d : Bool)
    (hpin : 0 < T.pins p) :
    (∀ x, (unpin_node (T.setNode p v) p d).2.pins x =
      if x = p then T.pins p - 1 else T.pins x) ∧
    (∀ x, (unpin_node (T.setNode p v) p d).2.store x =
      if x = p then some v else T.store x) ∧
    (unpin_node (T.setNode p v) p d).2.next_page_no = T.next_page_no := by
  rw [unpin_node_pos _ p d ⟨v, setNode_store_self _ _ _⟩ (by simpa using hpin)]
  refine ⟨fun x => by simp, ?_, rfl⟩
  intro x
  by_cases hx : x = p
  · subst hx
    simp
  · simp [IxState.setNode, hx]

/-- `adjust_root` is pin-neutral and preserves the store domain and the
allocator. -/
theorem adjust_root_frame (s : IxState) (np : Int) (b : Bool) (s' : IxState)
    (h : adjust_root s np = .ok (b, s')) :
    (∀ x, s'.pins x = s.pins x) ∧
    (∀ x, (s'.store x).isSome = (s.store x).isSome) ∧
    s'.next_page_no = s.next_page_no := by
  simp only [adjust_root] at h
  obtain ⟨old_nd, hget, h⟩ := exbind_ok_inv h
  have hst := getNode_ok_inv hget
  by_cases hc1 : ¬old_nd.is_leaf = true ∧ old_nd.size = 1
  · rw [if_pos hc1] at h
    obtain ⟨⟨child_nd, s3⟩, hfetch, h⟩ := exbind_ok_inv h
    obtain ⟨hcst, hs3⟩ := fetch_node_ok_inv hfetch
    dsimp only at h hs3
    subst hs3
    cases h
    refine ⟨?_, ?_, ?_⟩
    · intro x
      rw [(set_unpin_pins _ _ _ _ (by simp)).1 x]
      by_cases hx : x = old_nd.remove_and_return_only_child.1 <;> simp [hx]
    · intro x
      rw [(set_unpin_pins _ _ _ _ (by simp)).2.1 x]
      by_cases hxc : x = old_nd.remove_and_return_only_child.1
      · rw [if_pos hxc]
        subst hxc
        dsimp only at hcst
        by_cases hxnp : old_nd.remove_and_return_only_child.1 = np
        · rw [hxnp]
          simp [hst]
        · rw [setNode_store_ne _ _ _ _ hxnp] at hcst
          simp [hcst]
      · rw [if_neg hxc]
        dsimp only
        by_cases hxnp : x = np
        · subst hxnp
          simp [hst]
        · rw [setNode_store_ne _ _ _ _ hxnp]
    · rw [(set_unpin_pins _ _ _ _ (by simp)).2.2]
      rfl
  · rw [if_neg hc1] at h
    by_cases hc2 : old_nd.is_leaf = true ∧ old_nd.size = 0
    · rw [if_pos hc2] at h
      cases h
      exact ⟨fun x => rfl, fun x => rfl, rfl⟩
    · rw [if_neg hc2] at h
      cases h
      exact ⟨fun x => rfl, fun x => rfl, rfl⟩

/-- Project `pins` through a state-valued `if`. -/
@[simp]
theorem ite_state_pins (c : Prop) [Decidable c] (a b : IxState) (x : Int) :
    (if c then a else b).pins x = if c then a.pins x else b.pins x := by
  split_ifs <;> rfl

/-- Project the store through a state-valued `if`. -/
@[simp]
theorem ite_state_store (c : Prop) [Decidable c] (a b : IxState) (x : Int) :
    (if c then a else b).store x = if c then a.store x else b.store x := by
  split_ifs <;> rfl

/-- Project the allocator through a state-valued `if`. -/
@[simp]
theorem ite_state_next (c : Prop) [Decidable c] (a b : IxState) :
    (if c then a else b).next_page_no =
      if c then a.next_page_no else b.next_page_no := by
  split_ifs <;> rfl

/-- Project `isSome` through an option-valued `if`. -/
@[simp]
theorem isSome_ite (c : Prop) [Decidable c] (a b : Option IxNode) :
    (if c then a else b).isSome = if c then a.isSome else b.isSome := by
  split_ifs <;> rfl

/-- Pointwise pins of a positive `unpin_node`, from `isSome`. -/
theorem unpin_pins_pos' (s : IxState) (p : Int) (d : Bool) (x : Int)
    (hst : (s.store p).isSome = true) (hpin : 0 < s.pins p) :
    (unpin_node s p d).2.pins x = if x = p then s.pins p - 1 else s.pins x := by
  obtain ⟨v, hv⟩ := Option.isSome_iff_exists.mp hst
  rw [unpin_node_pos s p d ⟨v, hv⟩ hpin]

/-- `insert_into_parent` is pin-neutral and preserves the pin/freshness
discipline of the allocator (fresh pages are unpinned and absent). -/
theorem insert_into_parent_pins (fuel : Nat) :
    ∀ (s : IxState) (old_np : Int) (key : Key) (new_np : Int) (s' : IxState),
    insert_into_parent fuel s old_np key new_np = .ok s' →
    (∀ p, s.next_page_no ≤ p → s.pins p = 0) →
    (∀ p, s.next_page_no ≤ p → (s.store p).isSome = false) →
    (∀ x, s'.pins x = s.pins x) ∧
    s.next_page_no ≤ s'.next_page_no ∧
    (∀ p, s'.next_page_no ≤ p → s'.pins p = 0) ∧
    (∀ p, s'.next_page_no ≤ p → (s'.store p).isSome = false) ∧
    (∀ x, (s.store x).isSome = true → (s'.store x).isSome = true) := by
  induction fuel with
  | zero =>
    intro s old_np key new_np s' h _ _
    simp [insert_into_parent] at h
  | succ fuel ih =>
    intro s old_np key new_np s' h hpin0 hfresh
    simp only [insert_into_parent] at h
    obtain ⟨old_nd, hget, h⟩ := exbind_ok_inv h
    have hostA := getNode_ok_inv hget
    have host : (s.store old_np).isSome = true := by simp [hostA]
    have holt : old_np < s.next_page_no := by
      by_contra hle
      push_neg at hle
      simp [hfresh old_np hle] at host
    by_cases hroot : old_nd.is_root_page = true
    · rw [if_pos hroot] at h
      rw [create_eta] at h
      dsimp only at h
      obtain ⟨root1, hr1, h⟩ := exbind_ok_inv h
      obtain ⟨root2, hr2, h⟩ := exbind_ok_inv h
      obtain ⟨new_nd, hgn, h⟩ := exbind_ok_inv h
      have hnewst := getNode_ok_inv hgn
      cases h
      have h1 := congrArg Option.isSome hnewst
      simp only [Option.isSome_some] at h1
      have hnn : new_np ≤ s.next_page_no := by
        rcases setNode_isSome_inv _ _ _ _ h1 with e | h2
        · omega
        · rcases setNode_isSome_inv _ _ _ _ h2 with e | h3
          · omega
          · by_cases e2 : new_np = s.next_page_no
            · omega
            · rw [create_store_ne _ _ e2] at h3
              by_contra hgt
              push_neg at hgt
              rw [hfresh new_np (le_of_lt hgt)] at h3
              simp at h3
      refine ⟨?_, ?_, ?_, ?_, ?_⟩
      · intro x
        by_cases hx : x = s.next_page_no
        · subst hx
          simp [unpin_pins_pos', IxState.setNode, hpin0 _ le_rfl]
        · simp [unpin_pins_pos', IxState.setNode, hx]
      · simp
      · intro p hp
        simp only [unpin_next] at hp
        simp at hp
        have h1 : s.next_page_no ≤ p := by omega
        have h2 : ¬p = s.next_page_no := by omega
        simp [unpin_pins_pos', IxState.setNode, h2, hpin0 p h1]
      · intro p hp
        simp only [unpin_next] at hp
        simp at hp
        have hne_new : ¬p = new_np := by omega
        have hne_old : ¬p = old_np := by omega
        have hne_q : ¬p = s.next_page_no := by omega
        have h1 : s.next_page_no ≤ p := by omega
        have hnone : s.store p = none := by
          have h3 := hfresh p h1
          cases hst : s.store p with
          | none => rfl
          | some v =>
            rw [hst] at h3
            simp at h3
        simp [unpin_pins_pos', IxState.setNode, create_node, hne_new, hne_old,
          hne_q, hnone]
      · intro x hx
        simp only [unpin_store]
        have hx4 : ((((create_node s).2.setNode s.next_page_no root2).setNode old_np
            { old_nd with parent := s.next_page_no }).store x).isSome = true :=
          setNode_isSome _ _ _ _ (setNode_isSome _ _ _ _ (create_isSome _ _ hx))
        simp [IxState.setNode] at hx4 ⊢
        rcases hx4 with h | h | h <;> simp [h]
    · rw [if_neg hroot] at h
      obtain ⟨⟨parent_nd, s1⟩, hfetch, h⟩ := exbind_ok_inv h
      obtain ⟨hpst, hs1⟩ := fetch_node_ok_inv hfetch
      dsimp only at h hs1
      subst hs1
      obtain ⟨parent1, hp1, h⟩ := exbind_ok_inv h
      obtain ⟨new_nd, hgn, h⟩ := exbind_ok_inv h
      have hnewst := getNode_ok_inv hgn
      obtain ⟨parent2, hgp2, h⟩ := exbind_ok_inv h
      have hparlt : old_nd.parent < s.next_page_no := by
        by_contra hle
        push_neg at hle
        have := hfresh old_nd.parent hle
        rw [hpst] at this
        simp at this
      have hnn : new_np < s.next_page_no := by
        have h1 := congrArg Option.isSome hnewst
        simp only [Option.isSome_some] at h1
        rcases setNode_isSome_inv _ _ _ _ h1 with e | h2
        · omega
        · by_cases e2 : s.next_page_no ≤ new_np
          · have h2' : (s.store new_np).isSome = true := h2
            rw [hfresh new_np e2] at h2'
            simp at h2'
          · omega
      by_cases hsz : parent2.size ≥ s.max_size
      · rw [if_pos hsz] at h
        obtain ⟨⟨pn, s4⟩, hsplit, h⟩ := exbind_ok_inv h
        dsimp only at h
        obtain ⟨pn_nd, hgpn, h⟩ := exbind_ok_inv h
        obtain ⟨s5, hrec, h⟩ := exbind_ok_inv h
        cases h
        obtain ⟨hpn, hnx4, hp4, hd4, hd4q⟩ := split_pins _ _ _ _ hsplit
        have hpn' : pn = s.next_page_no := by simpa using hpn
        have hnx4' : s4.next_page_no = s.next_page_no + 1 := by simpa using hnx4
        have hp4' : ∀ x, s4.pins x = if x = s.next_page_no then 1
            else if x = old_nd.parent then s.pins old_nd.parent + 1
            else s.pins x := by
          intro x
          have := hp4 x
          simpa [IxState.setNode] using this
        have hd4q' : (s4.store s.next_page_no).isSome = true := by
          simpa using hd4q
        have hpin0_4 : ∀ p, s4.next_page_no ≤ p → s4.pins p = 0 := by
          intro p hp
          rw [hnx4'] at hp
          rw [hp4' p, if_neg (by omega), if_neg (by omega)]
          exact hpin0 p (by omega)
        have hfresh_4 : ∀ p, s4.next_page_no ≤ p → (s4.store p).isSome = false := by
          intro p hp
          rw [hnx4'] at hp
          rw [hd4 p (by simp; omega)]
          rw [setNode_store_ne _ _ _ _ (by omega), setNode_store_ne _ _ _ _ (by omega)]
          exact hfresh p (by omega)
        obtain ⟨hrp, hrn, hrpin0, hrfresh, hrle⟩ := ih s4 _ _ _ s5 hrec hpin0_4 hfresh_4
        have hrn' : s.next_page_no + 1 ≤ s5.next_page_no := by omega
        have hU1p : ∀ y, (unpin_node s5 pn true).2.pins y =
            if y = pn then s5.pins pn - 1 else s5.pins y := by
          intro y
          refine unpin_pins_pos' s5 pn true y ?_ ?_
          · exact hrle _ (by rw [hpn']; exact hd4q')
          · rw [hrp pn, hp4' pn, if_pos hpn']
            simp
        have hU1st : ((unpin_node s5 pn true).2.store old_nd.parent).isSome = true := by
          rw [unpin_store]
          refine hrle _ ?_
          rw [hd4 _ (by simp; omega)]
          by_cases e : old_nd.parent = new_np
          · rw [e]
            simp
          · rw [setNode_store_ne _ _ _ _ e]
            simp
        have hU1pin : 0 < (unpin_node s5 pn true).2.pins old_nd.parent := by
          rw [hU1p _, if_neg (by omega), hrp, hp4', if_neg (by omega), if_pos rfl]
          simp
        refine ⟨?_, ?_, ?_, ?_, ?_⟩
        · intro x
          rw [unpin_pins_pos' _ _ _ x hU1st hU1pin]
          by_cases hxpar : x = old_nd.parent
          · rw [if_pos hxpar, hU1p _, if_neg (by omega), hrp, hp4',
              if_neg (by omega), if_pos rfl, hxpar]
            simp
          · rw [if_neg hxpar, hU1p x]
            by_cases hxpn : x = pn
            · rw [if_pos hxpn, hrp, hp4', if_pos (by omega), hxpn, hpn',
                hpin0 _ le_rfl]
            · rw [if_neg hxpn, hrp, hp4', if_neg (by omega), if_neg hxpar]
        · simp only [unpin_next]
          omega
        · intro p hp
          simp only [unpin_next] at hp
          rw [unpin_pins_pos' _ _ _ p hU1st hU1pin, if_neg (by omega),
            hU1p p, if_neg (by omega)]
          exact hrpin0 p hp
        · intro p hp
          simp only [unpin_next] at hp
          simp only [unpin_store]
          exact hrfresh p hp
        · intro x hx
          simp only [unpin_store]
          refine hrle x ?_
          by_cases hxq : x = s.next_page_no
          · rw [hxq]
            exact hd4q'
          · rw [hd4 x (by simpa using hxq)]
            exact setNode_isSome _ _ _ _ (setNode_isSome _ _ _ _ hx)
      · rw [if_neg hsz] at h
        cases h
        have hT3st : (((({ s with pins := fun q => if q = old_nd.parent then s.pins old_nd.parent + 1 else s.pins q } : IxState).setNode old_nd.parent parent1).setNode new_np { is_leaf := new_nd.is_leaf, keys := new_nd.keys, rids := new_nd.rids, parent := old_nd.parent, prev_leaf := new_nd.prev_leaf, next_leaf := new_nd.next_leaf }).store old_nd.parent).isSome = true := by
          by_cases e : old_nd.parent = new_np
          · rw [e]
            simp
          · rw [setNode_store_ne _ _ _ _ e]
            simp
        refine ⟨?_, ?_, ?_, ?_, ?_⟩
        · intro x
          rw [unpin_pins_pos' _ _ _ x hT3st (by simp)]
          by_cases hxpar : x = old_nd.parent
          · rw [if_pos hxpar, hxpar]
            simp
          · rw [if_neg hxpar]
            simp [hxpar]
        · simp
        · intro p hp
          simp only [unpin_next] at hp
          simp only [setNode_next] at hp
          rw [unpin_pins_pos' _ _ _ p hT3st (by simp), if_neg (by omega)]
          simp only [setNode_pins]
          have hppar : ¬p = old_nd.parent := by omega
          simp [hppar]
          exact hpin0 p (by omega)
        · intro p hp
          simp only [unpin_next, setNode_next] at hp
          simp only [unpin_store]
          rw [setNode_store_ne _ _ _ _ (by omega), setNode_store_ne _ _ _ _ (by omega)]
          exact hfresh p (by omega)
        · intro x hx
          simp only [unpin_store]
          exact setNode_isSome _ _ _ _ (setNode_isSome _ _ _ _ hx)

/-- `insert_entry` is pin-neutral on states whose fresh pages are absent and
unpinned. -/
theorem insert_entry_pins (fuel : Nat) (s : IxState) (key : Key) (value : Rid)
    (r : Int) (s' : IxState)
    (h : insert_entry fuel s key value = .ok (r, s'))
    (hpin0 : ∀ p, s.next_page_no ≤ p → s.pins p = 0)
    (hfresh : ∀ p, s.next_page_no ≤ p → (s.store p).isSome = false) :
    ∀ x, s'.pins x = s.pins x := by
  simp only [insert_entry] at h
  obtain ⟨⟨ro, s1⟩, hflp, h⟩ := exbind_ok_inv h
  have hframe := find_leaf_page_frame fuel s key ro s1 hflp
  cases ro with
  | none =>
    dsimp only at h
    cases h
    rw [hframe.1 rfl]
    exact fun x => rfl
  | some lq =>
    dsimp only at h
    obtain ⟨hfs, hfn, hfp⟩ := hframe.2 lq rfl
    obtain ⟨leaf, hgl, h⟩ := exbind_ok_inv h
    have hlst := getNode_ok_inv hgl
    have hlres : (s.store lq).isSome = true := by
      rw [← hfs lq]
      simp [hlst]
    have hlplt : lq < s.next_page_no := by
      by_contra hle
      push_neg at hle
      rw [hfresh lq hle] at hlres
      simp at hlres
    obtain ⟨leaf1, hins, h⟩ := exbind_ok_inv h
    by_cases hsame : leaf1.size = leaf.size
    · rw [if_pos hsame] at h
      cases h
      intro x
      have hpin2 : 0 < (s1.setNode r leaf1).pins r := by
        simp [hfp r]
      rw [unpin_pins_pos' _ _ _ x (by simp) hpin2]
      by_cases hx : x = r
      · subst hx
        simp [hfp]
      · simp [hfp, hx]
    · rw [if_neg hsame] at h
      by_cases hpos : leaf1.size > 0
      · rw [if_pos hpos] at h
        obtain ⟨s3, hmp, h⟩ := exbind_ok_inv h
        obtain ⟨hmpp, hmpd, hmpn⟩ := maintain_parent_frame fuel _ _ _ hmp
        have hp3 : ∀ x, s3.pins x = s.pins x + (if x = lq then 1 else 0) := by
          intro x
          rw [hmpp x]
          simpa using hfp x
        have hd3r : (s3.store lq).isSome = true := by
          rw [hmpd lq]
          simp
        have hd3o : ∀ x, ¬x = lq → (s3.store x).isSome = (s.store x).isSome := by
          intro x hx
          rw [hmpd x, setNode_store_ne _ _ _ _ hx, hfs x]
        have hn3 : s3.next_page_no = s.next_page_no := by
          rw [hmpn]
          simpa using hfn
        obtain ⟨leaf2, hgl2, h⟩ := exbind_ok_inv h
        by_cases hsz : leaf2.size ≥ s.max_size
        · rw [if_pos hsz] at h
          obtain ⟨⟨q, s4⟩, hsplit, h⟩ := exbind_ok_inv h
          dsimp only at h
          obtain ⟨new_leaf, hgq, h⟩ := exbind_ok_inv h
          obtain ⟨s4b, hiip, h⟩ := exbind_ok_inv h
          obtain ⟨y, hy, h⟩ := exbind_ok_inv h
          cases hy
          dsimp only at h
          obtain ⟨leaf3, hgl3, h⟩ := exbind_ok_inv h
          cases h
          obtain ⟨hqe, hnx4, hp4, hd4, hd4q⟩ := split_pins _ _ _ _ hsplit
          have hq' : q = s.next_page_no := by rw [hqe, hn3]
          subst hq'
          have hnx4' : s4.next_page_no = s.next_page_no + 1 := by rw [hnx4, hn3]
          have hp4' : ∀ x, s4.pins x = if x = s.next_page_no then 1 else s3.pins x := by
            intro x
            rw [hp4 x, hn3]
          have hd4' : ∀ x, ¬x = s.next_page_no →
              (s4.store x).isSome = (s3.store x).isSome := by
            intro x hx
            exact hd4 x (by rw [hn3]; exact hx)
          have hd4q' : (s4.store s.next_page_no).isSome = true := by
            rw [← hn3]
            exact hd4q
          have hpin0_4 : ∀ p, s4.next_page_no ≤ p → s4.pins p = 0 := by
            intro p hp
            rw [hnx4'] at hp
            rw [hp4' p, if_neg (by omega), hp3 p, if_neg (by omega)]
            simp [hpin0 p (by omega)]
          have hfresh_4 : ∀ p, s4.next_page_no ≤ p → (s4.store p).isSome = false := by
            intro p hp
            rw [hnx4'] at hp
            rw [hd4' p (by omega), hd3o p (by omega)]
            exact hfresh p (by omega)
          obtain ⟨hrp, hrn, hrpin0, hrfresh, hrle⟩ :=
            insert_into_parent_pins fuel s4 lq (new_leaf.get_key 0) s.next_page_no
              s4b hiip hpin0_4 hfresh_4
          have hstq : (s4b.store s.next_page_no).isSome = true := by
            exact hrle _ hd4q'
          have hpinq : 0 < s4b.pins s.next_page_no := by
            rw [hrp _, hp4' _, if_pos rfl]
            simp
          have hstr4b : (s4b.store lq).isSome = true := by
            refine hrle lq ?_
            rw [hd4' lq (by omega)]
            exact hd3r
          have hpinr4b : 0 < s4b.pins lq := by
            rw [hrp lq, hp4' lq, if_neg (by omega), hp3 lq, if_pos rfl]
            simp
          have hrq : ¬lq = s.next_page_no := by omega
          have hs4cr_st :
              ((unpin_node s4b s.next_page_no true).2.store lq).isSome = true := by
            rw [unpin_store]
            exact hstr4b
          have hs4cr_pin : 0 < (unpin_node s4b s.next_page_no true).2.pins lq := by
            rw [unpin_pins_pos' s4b s.next_page_no true lq hstq hpinq, if_neg hrq]
            exact hpinr4b
          intro x
          by_cases hxl : x = lq
          · subst hxl
            simp [unpin_pins_pos', hstq, hpinq, hstr4b, hpinr4b, hs4cr_st, hs4cr_pin, hrq, hrp,
              hp4', hp3, (show ¬x = s.next_page_no by omega)]
          · by_cases hxq : x = s.next_page_no
            · subst hxq
              simp [unpin_pins_pos', hstq, hpinq, hstr4b, hpinr4b, hs4cr_st, hs4cr_pin, hrq, hrp,
                hp4', hp3, hxl, hpin0 _ le_rfl]
            · simp [unpin_pins_pos', hstq, hpinq, hstr4b, hpinr4b, hs4cr_st, hs4cr_pin, hrq, hrp,
                hp4', hp3, hxl, hxq]
        · rw [if_neg hsz] at h
          obtain ⟨y, hy, h⟩ := exbind_ok_inv h
          cases hy
          dsimp only at h
          obtain ⟨leaf3, hgl3, h⟩ := exbind_ok_inv h
          cases h
          have hpin3 : 0 < s3.pins r := by
            rw [hp3 r, if_pos rfl]
            simp
          intro x
          by_cases hxl : x = r
          · subst hxl
            simp [unpin_pins_pos', hd3r, hpin3, hp3]
          · simp [unpin_pins_pos', hd3r, hpin3, hp3, hxl]
      · rw [if_neg hpos] at h
        generalize hgen : s1.setNode lq leaf1 = s3 at h
        obtain ⟨s3x, hpure, h⟩ := exbind_ok_inv h
        cases hpure
        have hp3 : ∀ x, s3.pins x = s.pins x + (if x = lq then 1 else 0) := by
          intro x
          rw [← hgen]
          simpa using hfp x
        have hd3r : (s3.store lq).isSome = true := by
          rw [← hgen]
          simp
        have hd3o : ∀ x, ¬x = lq → (s3.store x).isSome = (s.store x).isSome := by
          intro x hx
          rw [← hgen, setNode_store_ne _ _ _ _ hx, hfs x]
        have hn3 : s3.next_page_no = s.next_page_no := by
          rw [← hgen]
          simpa using hfn
        obtain ⟨leaf2, hgl2, h⟩ := exbind_ok_inv h
        by_cases hsz : leaf2.size ≥ s.max_size
        · rw [if_pos hsz] at h
          obtain ⟨⟨q, s4⟩, hsplit, h⟩ := exbind_ok_inv h
          dsimp only at h
          obtain ⟨new_leaf, hgq, h⟩ := exbind_ok_inv h
          obtain ⟨s4b, hiip, h⟩ := exbind_ok_inv h
          obtain ⟨y, hy, h⟩ := exbind_ok_inv h
          cases hy
          dsimp only at h
          obtain ⟨leaf3, hgl3, h⟩ := exbind_ok_inv h
          cases h
          obtain ⟨hqe, hnx4, hp4, hd4, hd4q⟩ := split_pins _ _ _ _ hsplit
          have hq' : q = s.next_page_no := by rw [hqe, hn3]
          subst hq'
          have hnx4' : s4.next_page_no = s.next_page_no + 1 := by rw [hnx4, hn3]
          have hp4' : ∀ x, s4.pins x = if x = s.next_page_no then 1 else s3.pins x := by
            intro x
            rw [hp4 x, hn3]
          have hd4' : ∀ x, ¬x = s.next_page_no →
              (s4.store x).isSome = (s3.store x).isSome := by
            intro x hx
            exact hd4 x (by rw [hn3]; exact hx)
          have hd4q' : (s4.store s.next_page_no).isSome = true := by
            rw [← hn3]
            exact hd4q
          have hpin0_4 : ∀ p, s4.next_page_no ≤ p → s4.pins p = 0 := by
            intro p hp
            rw [hnx4'] at hp
            rw [hp4' p, if_neg (by omega), hp3 p, if_neg (by omega)]
            simp [hpin0 p (by omega)]
          have hfresh_4 : ∀ p, s4.next_page_no ≤ p → (s4.store p).isSome = false := by
            intro p hp
            rw [hnx4'] at hp
            rw [hd4' p (by omega), hd3o p (by omega)]
            exact hfresh p (by omega)
          obtain ⟨hrp, hrn, hrpin0, hrfresh, hrle⟩ :=
            insert_into_parent_pins fuel s4 lq (new_leaf.get_key 0) s.next_page_no
              s4b hiip hpin0_4 hfresh_4
          have hstq : (s4b.store s.next_page_no).isSome = true := by
            exact hrle _ hd4q'
          have hpinq : 0 < s4b.pins s.next_page_no := by
            rw [hrp _, hp4' _, if_pos rfl]
            simp
          have hstr4b : (s4b.store lq).isSome = true := by
            refine hrle lq ?_
            rw [hd4' lq (by omega)]
            exact hd3r
          have hpinr4b : 0 < s4b.pins lq := by
            rw [hrp lq, hp4' lq, if_neg (by omega), hp3 lq, if_pos rfl]
            simp
          have hrq : ¬lq = s.next_page_no := by omega
          have hs4cr_st :
              ((unpin_node s4b s.next_page_no true).2.store lq).isSome = true := by
            rw [unpin_store]
            exact hstr4b
          have hs4cr_pin : 0 < (unpin_node s4b s.next_page_no true).2.pins lq := by
            rw [unpin_pins_pos' s4b s.next_page_no true lq hstq hpinq, if_neg hrq]
            exact hpinr4b
          intro x
          by_cases hxl : x = lq
          · subst hxl
            simp [unpin_pins_pos', hstq, hpinq, hstr4b, hpinr4b, hs4cr_st, hs4cr_pin, hrq, hrp,
              hp4', hp3, (show ¬x = s.next_page_no by omega)]
          · by_cases hxq : x = s.next_page_no
            · subst hxq
              simp [unpin_pins_pos', hstq, hpinq, hstr4b, hpinr4b, hs4cr_st, hs4cr_pin, hrq, hrp,
                hp4', hp3, hxl, hpin0 _ le_rfl]
            · simp [unpin_pins_pos', hstq, hpinq, hstr4b, hpinr4b, hs4cr_st, hs4cr_pin, hrq, hrp,
                hp4', hp3, hxl, hxq]
        · rw [if_neg hsz] at h
          obtain ⟨y, hy, h⟩ := exbind_ok_inv h
          cases hy
          dsimp only at h
          obtain ⟨leaf3, hgl3, h⟩ := exbind_ok_inv h
          cases h
          have hpin3 : 0 < s3.pins r := by
            rw [hp3 r, if_pos rfl]
            simp
          intro x
          by_cases hxl : x = r
          · subst hxl
            simp [unpin_pins_pos', hd3r, hpin3, hp3]
          · simp [unpin_pins_pos', hd3r, hpin3, hp3, hxl]

/-- `redistribute` is pin-neutral and preserves the store domain and the
allocator. -/
theorem redistribute_frame (s : IxState) (nbp np pp : Int) (idx : Nat)
    (s' : IxState) (h : redistribute s nbp np pp idx = .ok s') :
    (∀ x, s'.pins x = s.pins x) ∧
    (∀ x, (s'.store x).isSome = (s.store x).isSome) ∧
    s'.next_page_no = s.next_page_no := by
  simp only [redistribute] at h
  obtain ⟨neighbor, hgn, h⟩ := exbind_ok_inv h
  have hnst := getNode_ok_inv hgn
  by_cases hidx : idx = 0
  · rw [if_pos hidx] at h
    obtain ⟨neighbor1, hep, h⟩ := exbind_ok_inv h
    obtain ⟨node0, hg0, h⟩ := exbind_ok_inv h
    have h0st := getNode_ok_inv hg0
    obtain ⟨node1, hip, h⟩ := exbind_ok_inv h
    have hnp_res : (s.store np).isSome = true := by
      have h0some : ((s.setNode nbp neighbor1).store np).isSome = true := by
        simp [h0st]
      rcases setNode_isSome_inv _ _ _ _ h0some with e | hres
      · rw [e]
        simp [hnst]
      · exact hres
    have hchain : ∀ x, (((s.setNode nbp neighbor1).setNode np node1).store x).isSome
        = (s.store x).isSome := by
      intro x
      by_cases hx1 : x = np
      · subst hx1
        simp [hnp_res]
      · rw [setNode_store_ne _ _ _ _ hx1]
        by_cases hx2 : x = nbp
        · subst hx2
          simp [hnst]
        · rw [setNode_store_ne _ _ _ _ hx2]
    by_cases hlf : ¬node1.is_leaf = true
    · rw [if_pos hlf] at h
      obtain ⟨s2m, hstep, h⟩ := exbind_ok_inv h
      obtain ⟨hmp, hmd, hmn⟩ := maintain_child_frame _ _ _ _ hstep
      obtain ⟨neighbor2, hg2, h⟩ := exbind_ok_inv h
      obtain ⟨parent, hgp, h⟩ := exbind_ok_inv h
      cases h
      have hppres : (s.store pp).isSome = true := by
        have h1 : (s2m.store pp).isSome = true := by simp [getNode_ok_inv hgp]
        rw [hmd pp, hchain pp] at h1
        exact h1
      refine ⟨?_, ?_, by simp [hmn]⟩
      · intro x
        simp [hmp x]
      · intro x
        by_cases hx : x = pp
        · subst hx
          simp [hppres]
        · rw [setNode_store_ne _ _ _ _ hx, hmd x, hchain x]
    · rw [if_neg hlf] at h
      obtain ⟨s2m, hstep, h⟩ := exbind_ok_inv h
      cases hstep
      obtain ⟨neighbor2, hg2, h⟩ := exbind_ok_inv h
      obtain ⟨parent, hgp, h⟩ := exbind_ok_inv h
      cases h
      have hppres : (s.store pp).isSome = true := by
        have h1 : ((((s.setNode nbp neighbor1).setNode np node1)).store pp).isSome = true := by
          simp [getNode_ok_inv hgp]
        rw [hchain pp] at h1
        exact h1
      refine ⟨fun x => rfl, ?_, rfl⟩
      intro x
      by_cases hx : x = pp
      · subst hx
        simp [hppres]
      · rw [setNode_store_ne _ _ _ _ hx, hchain x]
  · rw [if_neg hidx] at h
    obtain ⟨neighbor1, hep, h⟩ := exbind_ok_inv h
    obtain ⟨node0, hg0, h⟩ := exbind_ok_inv h
    have h0st := getNode_ok_inv hg0
    obtain ⟨node1, hip, h⟩ := exbind_ok_inv h
    have hnp_res : (s.store np).isSome = true := by
      have h0some : ((s.setNode nbp neighbor1).store np).isSome = true := by
        simp [h0st]
      rcases setNode_isSome_inv _ _ _ _ h0some with e | hres
      · rw [e]
        simp [hnst]
      · exact hres
    have hchain : ∀ x, (((s.setNode nbp neighbor1).setNode np node1).store x).isSome
        = (s.store x).isSome := by
      intro x
      by_cases hx1 : x = np
      · subst hx1
        simp [hnp_res]
      · rw [setNode_store_ne _ _ _ _ hx1]
        by_cases hx2 : x = nbp
        · subst hx2
          simp [hnst]
        · rw [setNode_store_ne _ _ _ _ hx2]
    by_cases hlf : ¬node1.is_leaf = true
    · rw [if_pos hlf] at h
      obtain ⟨s2m, hstep, h⟩ := exbind_ok_inv h
      obtain ⟨hmp, hmd, hmn⟩ := maintain_child_frame _ _ _ _ hstep
      obtain ⟨neighbor2, hg2, h⟩ := exbind_ok_inv h
      obtain ⟨parent, hgp, h⟩ := exbind_ok_inv h
      cases h
      have hppres : (s.store pp).isSome = true := by
        have h1 : (s2m.store pp).isSome = true := by simp [getNode_ok_inv hgp]
        rw [hmd pp, hchain pp] at h1
        exact h1
      refine ⟨?_, ?_, by simp [hmn]⟩
      · intro x
        simp [hmp x]
      · intro x
        by_cases hx : x = pp
        · subst hx
          simp [hppres]
        · rw [setNode_store_ne _ _ _ _ hx, hmd x, hchain x]
    · rw [if_neg hlf] at h
      obtain ⟨s2m, hstep, h⟩ := exbind_ok_inv h
      cases hstep
      obtain ⟨neighbor2, hg2, h⟩ := exbind_ok_inv h
      obtain ⟨parent, hgp, h⟩ := exbind_ok_inv h
      cases h
      have hppres : (s.store pp).isSome = true := by
        have h1 : ((((s.setNode nbp neighbor1).setNode np node1)).store pp).isSome = true := by
          simp [getNode_ok_inv hgp]
        rw [hchain pp] at h1
        exact h1
      refine ⟨fun x => rfl, ?_, rfl⟩
      intro x
      by_cases hx : x = pp
      · subst hx
        simp [hppres]
      · rw [setNode_store_ne _ _ _ _ hx, hchain x]

/-- `coalesce` is pin-neutral, preserves the store domain and the allocator,
and returns the (possibly swapped) pair of pages. -/
theorem coalesce_frame (s : IxState) (nb0 np0 pp : Int) (idx0 : Nat)
    (nb' np' : Int) (dp : Bool) (s' : IxState)
    (h : coalesce s nb0 np0 pp idx0 = .ok (nb', np', dp, s')) :
    ((nb' = np0 ∧ np' = nb0) ∨ (nb' = nb0 ∧ np' = np0)) ∧
    (∀ x, s'.pins x = s.pins x) ∧
    (∀ x, (s'.store x).isSome = (s.store x).isSome) ∧
    s'.next_page_no = s.next_page_no := by
  simp only [coalesce] at h
  by_cases hidx : idx0 = 0
  · rw [if_pos hidx] at h
    dsimp only at h
    obtain ⟨left, hgl, h⟩ := exbind_ok_inv h
    obtain ⟨right, hgr, h⟩ := exbind_ok_inv h
    obtain ⟨left1, hip, h⟩ := exbind_ok_inv h
    have hLres : (s.store np0).isSome = true := by simp [getNode_ok_inv hgl]
    have hRres : (s.store nb0).isSome = true := by simp [getNode_ok_inv hgr]
    by_cases hlf : ¬left1.is_leaf = true
    · rw [if_pos hlf] at h
      obtain ⟨s2, hstep, h⟩ := exbind_ok_inv h
      obtain ⟨hmp, hmd, hmn⟩ := maintain_children_frame _ _ _ _ hstep
      obtain ⟨parent, hgp, h⟩ := exbind_ok_inv h
      obtain ⟨parent1, hepp, h⟩ := exbind_ok_inv h
      obtain ⟨right2, hgr2, h⟩ := exbind_ok_inv h
      cases h
      have hppres : (s.store pp).isSome = true := by
        have h1 : (s2.store pp).isSome = true := by simp [getNode_ok_inv hgp]
        rw [hmd pp] at h1
        rcases setNode_isSome_inv _ _ _ _ h1 with e | h2
        · rw [e]
          exact hLres
        · exact h2
      refine ⟨Or.inl ⟨rfl, rfl⟩, ?_, ?_, by simp [hmn]⟩
      · intro x
        simp [hmp x]
      · intro x
        by_cases hx1 : x = nb0
        · subst hx1
          simp [hRres]
        · rw [setNode_store_ne _ _ _ _ hx1]
          by_cases hx2 : x = pp
          · subst hx2
            simp [hppres]
          · rw [setNode_store_ne _ _ _ _ hx2, hmd x]
            by_cases hx3 : x = np0
            · subst hx3
              simp [hLres]
            · rw [setNode_store_ne _ _ _ _ hx3]
    · rw [if_neg hlf] at h
      obtain ⟨right1, hgr1, h⟩ := exbind_ok_inv h
      obtain ⟨left2, hgl2, h⟩ := exbind_ok_inv h
      by_cases hnl : right1.next_leaf = IX_NO_PAGE
      · rw [if_neg (by simp [hnl])] at h
        simp only [expure_eq, exbind_ok] at h
        obtain ⟨parent, hgp, h⟩ := exbind_ok_inv h
        obtain ⟨parent1, hepp, h⟩ := exbind_ok_inv h
        obtain ⟨right2, hgr2, h⟩ := exbind_ok_inv h
        cases h
        have hppres : (s.store pp).isSome = true := by
          have h1 := congrArg Option.isSome (getNode_ok_inv hgp)
          simp only [Option.isSome_some, ite_state_store, isSome_ite] at h1
          simp only [ite_self] at h1
          rcases setNode_isSome_inv _ _ _ _ h1 with e | h2
          · rw [e]
            exact hLres
          · rcases setNode_isSome_inv _ _ _ _ h2 with e | h3
            · rw [e]
              exact hLres
            · exact h3
        refine ⟨Or.inl ⟨rfl, rfl⟩, ?_, ?_, by simp⟩
        · intro x
          simp
        · intro x
          by_cases hx1 : x = nb0
          · subst hx1
            simp [hRres]
          · rw [setNode_store_ne _ _ _ _ hx1]
            by_cases hx2 : x = pp
            · subst hx2
              simp [hppres]
            · rw [setNode_store_ne _ _ _ _ hx2]
              simp only [ite_state_store, ite_self]
              by_cases hx3 : x = np0
              · subst hx3
                simp [hLres]
              · rw [setNode_store_ne _ _ _ _ hx3, setNode_store_ne _ _ _ _ hx3]
      · rw [if_pos hnl] at h
        obtain ⟨⟨nnd, sx⟩, hfetch, h⟩ := exbind_ok_inv h
        obtain ⟨hnst2, hsx⟩ := fetch_node_ok_inv hfetch
        dsimp only at h hsx
        subst hsx
        simp only [expure_eq, exbind_ok] at h
        obtain ⟨parent, hgp, h⟩ := exbind_ok_inv h
        obtain ⟨parent1, hepp, h⟩ := exbind_ok_inv h
        obtain ⟨right2, hgr2, h⟩ := exbind_ok_inv h
        cases h
        have hnlres : (s.store right1.next_leaf).isSome = true := by
          have h1 := congrArg Option.isSome hnst2
          simp only [Option.isSome_some] at h1
          rcases setNode_isSome_inv _ _ _ _ h1 with e | h2
          · rw [e]
            exact hLres
          · rcases setNode_isSome_inv _ _ _ _ h2 with e | h3
            · rw [e]
              exact hLres
            · exact h3
        have hppres : (s.store pp).isSome = true := by
          have h1 := congrArg Option.isSome (getNode_ok_inv hgp)
          simp only [Option.isSome_some, ite_state_store, isSome_ite, ite_self,
            unpin_store] at h1
          rcases setNode_isSome_inv _ _ _ _ h1 with e | h2
          · rw [e]
            exact hnlres
          · rcases setNode_isSome_inv _ _ _ _ h2 with e | h3
            · rw [e]
              exact hLres
            · rcases setNode_isSome_inv _ _ _ _ h3 with e | h4
              · rw [e]
                exact hLres
              · exact h4
        refine ⟨Or.inl ⟨rfl, rfl⟩, ?_, ?_, by simp⟩
        · intro x
          by_cases hx : x = right1.next_leaf
          · subst hx
            simp [unpin_pins_pos']
          · simp [unpin_pins_pos', hx]
        · intro x
          by_cases hx1 : x = nb0
          · subst hx1
            simp [hRres]
          · rw [setNode_store_ne _ _ _ _ hx1]
            by_cases hx2 : x = pp
            · subst hx2
              simp [hppres]
            · rw [setNode_store_ne _ _ _ _ hx2]
              simp only [ite_state_store, ite_self, unpin_store]
              by_cases hx4 : x = right1.next_leaf
              · subst hx4
                simp [hnlres]
              · rw [setNode_store_ne _ _ _ _ hx4]
                by_cases hx3 : x = np0
                · subst hx3
                  simp [hLres]
                · rw [setNode_store_ne _ _ _ _ hx3, setNode_store_ne _ _ _ _ hx3]
  · rw [if_neg hidx] at h
    dsimp only at h
    obtain ⟨left, hgl, h⟩ := exbind_ok_inv h
    obtain ⟨right, hgr, h⟩ := exbind_ok_inv h
    obtain ⟨left1, hip, h⟩ := exbind_ok_inv h
    have hLres : (s.store nb0).isSome = true := by simp [getNode_ok_inv hgl]
    have hRres : (s.store np0).isSome = true := by simp [getNode_ok_inv hgr]
    by_cases hlf : ¬left1.is_leaf = true
    · rw [if_pos hlf] at h
      obtain ⟨s2, hstep, h⟩ := exbind_ok_inv h
      obtain ⟨hmp, hmd, hmn⟩ := maintain_children_frame _ _ _ _ hstep
      obtain ⟨parent, hgp, h⟩ := exbind_ok_inv h
      obtain ⟨parent1, hepp, h⟩ := exbind_ok_inv h
      obtain ⟨right2, hgr2, h⟩ := exbind_ok_inv h
      cases h
      have hppres : (s.store pp).isSome = true := by
        have h1 : (s2.store pp).isSome = true := by simp [getNode_ok_inv hgp]
        rw [hmd pp] at h1
        rcases setNode_isSome_inv _ _ _ _ h1 with e | h2
        · rw [e]
          exact hLres
        · exact h2
      refine ⟨Or.inr ⟨rfl, rfl⟩, ?_, ?_, by simp [hmn]⟩
      · intro x
        simp [hmp x]
      · intro x
        by_cases hx1 : x = np0
        · subst hx1
          simp [hRres]
        · rw [setNode_store_ne _ _ _ _ hx1]
          by_cases hx2 : x = pp
          · subst hx2
            simp [hppres]
          · rw [setNode_store_ne _ _ _ _ hx2, hmd x]
            by_cases hx3 : x = nb0
            · subst hx3
              simp [hLres]
            · rw [setNode_store_ne _ _ _ _ hx3]
    · rw [if_neg hlf] at h
      obtain ⟨right1, hgr1, h⟩ := exbind_ok_inv h
      obtain ⟨left2, hgl2, h⟩ := exbind_ok_inv h
      by_cases hnl : right1.next_leaf = IX_NO_PAGE
      · rw [if_neg (by simp [hnl])] at h
        simp only [expure_eq, exbind_ok] at h
        obtain ⟨parent, hgp, h⟩ := exbind_ok_inv h
        obtain ⟨parent1, hepp, h⟩ := exbind_ok_inv h
        obtain ⟨right2, hgr2, h⟩ := exbind_ok_inv h
        cases h
        have hppres : (s.store pp).isSome = true := by
          have h1 := congrArg Option.isSome (getNode_ok_inv hgp)
          simp only [Option.isSome_some, ite_state_store, isSome_ite] at h1
          simp only [ite_self] at h1
          rcases setNode_isSome_inv _ _ _ _ h1 with e | h2
          · rw [e]
            exact hLres
          · rcases setNode_isSome_inv _ _ _ _ h2 with e | h3
            · rw [e]
              exact hLres
            · exact h3
        refine ⟨Or.inr ⟨rfl, rfl⟩, ?_, ?_, by simp⟩
        · intro x
          simp
        · intro x
          by_cases hx1 : x = np0
          · subst hx1
            simp [hRres]
          · rw [setNode_store_ne _ _ _ _ hx1]
            by_cases hx2 : x = pp
            · subst hx2
              simp [hppres]
            · rw [setNode_store_ne _ _ _ _ hx2]
              simp only [ite_state_store, ite_self]
              by_cases hx3 : x = nb0
              · subst hx3
                simp [hLres]
              · rw [setNode_store_ne _ _ _ _ hx3, setNode_store_ne _ _ _ _ hx3]
      · rw [if_pos hnl] at h
        obtain ⟨⟨nnd, sx⟩, hfetch, h⟩ := exbind_ok_inv h
        obtain ⟨hnst2, hsx⟩ := fetch_node_ok_inv hfetch
        dsimp only at h hsx
        subst hsx
        simp only [expure_eq, exbind_ok] at h
        obtain ⟨parent, hgp, h⟩ := exbind_ok_inv h
        obtain ⟨parent1, hepp, h⟩ := exbind_ok_inv h
        obtain ⟨right2, hgr2, h⟩ := exbind_ok_inv h
        cases h
        have hnlres : (s.store right1.next_leaf).isSome = true := by
          have h1 := congrArg Option.isSome hnst2
          simp only [Option.isSome_some] at h1
          rcases setNode_isSome_inv _ _ _ _ h1 with e | h2
          · rw [e]
            exact hLres
          · rcases setNode_isSome_inv _ _ _ _ h2 with e | h3
            · rw [e]
              exact hLres
            · exact h3
        have hppres : (s.store pp).isSome = true := by
          have h1 := congrArg Option.isSome (getNode_ok_inv hgp)
          simp only [Option.isSome_some, ite_state_store, isSome_ite, ite_self,
            unpin_store] at h1
          rcases setNode_isSome_inv _ _ _ _ h1 with e | h2
          · rw [e]
            exact hnlres
          · rcases setNode_isSome_inv _ _ _ _ h2 with e | h3
            · rw [e]
              exact hLres
            · rcases setNode_isSome_inv _ _ _ _ h3 with e | h4
              · rw [e]
                exact hLres
              · exact h4
        refine ⟨Or.inr ⟨rfl, rfl⟩, ?_, ?_, by simp⟩
        · intro x
          by_cases hx : x = right1.next_leaf
          · subst hx
            simp [unpin_pins_pos']
          · simp [unpin_pins_pos', hx]
        · intro x
          by_cases hx1 : x = np0
          · subst hx1
            simp [hRres]
          · rw [setNode_store_ne _ _ _ _ hx1]
            by_cases hx2 : x = pp
            · subst hx2
              simp [hppres]
            · rw [setNode_store_ne _ _ _ _ hx2]
              simp only [ite_state_store, ite_self, unpin_store]
              by_cases hx4 : x = right1.next_leaf
              · subst hx4
                simp [hnlres]
              · rw [setNode_store_ne _ _ _ _ hx4]
                by_cases hx3 : x = nb0
                · subst hx3
                  simp [hLres]
                · rw [setNode_store_ne _ _ _ _ hx3, setNode_store_ne _ _ _ _ hx3]

set_option maxHeartbeats 1600000 in
/-- `coalesce_or_redistribute` consumes exactly the caller's pin on the
node (all internal fetches are matched by unpins), and preserves the store
domain and the allocator. -/
theorem coalesce_or_redistribute_pins (fuel : Nat) :
    ∀ (s : IxState) (np : Int) (b : Bool) (s' : IxState),
    coalesce_or_redistribute fuel s np = .ok (b, s') →
    0 < s.pins np → (s.store np).isSome = true →
    (∀ x, s'.pins x = if x = np then s.pins np - 1 else s.pins x) ∧
    (∀ x, (s'.store x).isSome = (s.store x).isSome) ∧
    s'.next_page_no = s.next_page_no := by
  induction fuel with
  | zero =>
    intro s np b s' h hpin hres
    simp [coalesce_or_redistribute] at h
  | succ fuel ih =>
    intro s np b s' h hpin hres
    simp only [coalesce_or_redistribute] at h
    obtain ⟨node, hgn, h⟩ := exbind_ok_inv h
    by_cases hroot : node.is_root_page = true
    · rw [if_pos hroot] at h
      obtain ⟨⟨del_root, s1⟩, har, h⟩ := exbind_ok_inv h
      dsimp only at h
      cases h
      obtain ⟨hap, had, han⟩ := adjust_root_frame _ _ _ _ har
      refine ⟨?_, ?_, by simp [han]⟩
      · intro x
        rw [unpin_pins_pos' _ _ _ x (by rw [had np]; exact hres)
          (by rw [hap np]; exact hpin)]
        by_cases hx : x = np
        · subst hx
          simp [hap]
        · simp [hx, hap]
      · intro x
        rw [unpin_store, had x]
    · rw [if_neg hroot] at h
      by_cases hsz : node.size ≥ s.min_size
      · rw [if_pos hsz] at h
        cases h
        refine ⟨?_, fun x => by rw [unpin_store], by rw [unpin_next]⟩
        intro x
        rw [unpin_pins_pos' _ _ _ x hres hpin]
      · rw [if_neg hsz] at h
        obtain ⟨⟨parent_nd, s1⟩, hfpar, h⟩ := exbind_ok_inv h
        obtain ⟨hpst, hs1⟩ := fetch_node_ok_inv hfpar
        dsimp only at h hs1
        subst hs1
        generalize hpardef : node.parent = par at h hpst
        generalize hnbrdef : parent_nd.value_at (if parent_nd.find_child np > 0
          then parent_nd.find_child np - 1 else parent_nd.find_child np + 1) = nbr
          at h
        clear hpardef hnbrdef
        obtain ⟨⟨neighbor_nd, s2⟩, hfnb, h⟩ := exbind_ok_inv h
        obtain ⟨hnbst, hs2⟩ := fetch_node_ok_inv hfnb
        dsimp only at h hs2
        subst hs2
        have hpar_res : (s.store par).isSome = true := by
          have h2 : s.store par = some parent_nd := hpst
          simp [h2]
        have hnbr_res : (s.store nbr).isSome = true := by
          have h2 : s.store nbr = some neighbor_nd := hnbst
          simp [h2]
        by_cases hrdc : node.size + neighbor_nd.size ≥ s.min_size * 2
        · rw [if_pos hrdc] at h
          obtain ⟨s3, hrd, h⟩ := exbind_ok_inv h
          cases h
          obtain ⟨hrp, hrdm, hrn⟩ := redistribute_frame _ _ _ _ _ _ hrd
          have hs3p : ∀ y, s3.pins y =
              if y = nbr then (if par = nbr then s.pins par + 1 else s.pins nbr) + 1
              else if y = par then s.pins par + 1 else s.pins y := by
            intro y
            rw [hrp y]
            by_cases e : nbr = par
            · simp [e]
            · simp [e, show ¬par = nbr from fun hh => e hh.symm]
          have hs3d : ∀ y, (s3.store y).isSome = (s.store y).isSome := by
            intro y
            rw [hrdm y]
          have hs3n : s3.next_page_no = s.next_page_no := hrn
          have hc1st : (s3.store nbr).isSome = true := by rw [hs3d nbr]; exact hnbr_res
          have hc1pin : 0 < s3.pins nbr := by
            rw [hs3p nbr]
            simp
          have hu1 : ∀ y, (unpin_node s3 nbr true).2.pins y =
              if y = nbr then s3.pins nbr - 1 else s3.pins y :=
            fun y => unpin_pins_pos' s3 nbr true y hc1st hc1pin
          have hc2st : ((unpin_node s3 nbr true).2.store par).isSome = true := by
            rw [unpin_store, hs3d par]
            exact hpar_res
          have hc2pin : 0 < (unpin_node s3 nbr true).2.pins par := by
            rw [hu1 par]
            simp only [hs3p]
            split_ifs <;> (try subst_vars) <;> omega
          have hu2 : ∀ y, (unpin_node (unpin_node s3 nbr true).2 par true).2.pins y =
              if y = par then (unpin_node s3 nbr true).2.pins par - 1
              else (unpin_node s3 nbr true).2.pins y :=
            fun y => unpin_pins_pos' _ par true y hc2st hc2pin
          have hc3st :
              ((unpin_node (unpin_node s3 nbr true).2 par true).2.store np).isSome
                = true := by
            rw [unpin_store, unpin_store, hs3d np]
            exact hres
          have hc3pin :
              0 < (unpin_node (unpin_node s3 nbr true).2 par true).2.pins np := by
            rw [hu2 np]
            simp only [hu2, hu1, hs3p]
            split_ifs <;> (try subst_vars) <;> omega
          refine ⟨?_, ?_, ?_⟩
          · intro x
            rw [unpin_pins_pos' _ np true x hc3st hc3pin]
            simp only [hu2, hu1, hs3p]
            split_ifs <;> (try subst_vars) <;> omega
          · intro x
            simp only [unpin_store]
            exact hs3d x
          · simp only [unpin_next]
            exact hs3n
        · rw [if_neg hrdc] at h
          obtain ⟨⟨nb2, np2, dp2, s3⟩, hco, h⟩ := exbind_ok_inv h
          dsimp only at h
          obtain ⟨hswap, hcp, hcd, hcn⟩ := coalesce_frame _ _ _ _ _ _ _ _ _ hco
          have hs3p : ∀ y, s3.pins y =
              if y = nbr then (if par = nbr then s.pins par + 1 else s.pins nbr) + 1
              else if y = par then s.pins par + 1 else s.pins y := by
            intro y
            rw [hcp y]
            by_cases e : nbr = par
            · simp [e]
            · simp [e, show ¬par = nbr from fun hh => e hh.symm]
          have hs3d : ∀ y, (s3.store y).isSome = (s.store y).isSome := by
            intro y
            rw [hcd y]
          have hs3n : s3.next_page_no = s.next_page_no := hcn
          rcases hswap with ⟨e1, e2⟩ | ⟨e1, e2⟩
          · subst nb2
            subst np2
            by_cases hdp : dp2 = true
            · rw [if_pos hdp] at h
              have hcA : 0 < s3.pins np := by
                simp only [hs3p]
                split_ifs <;> subst_vars <;> omega
              have hcAst : (s3.store np).isSome = true := by
                rw [hs3d]
                exact hres
              have hu1 : ∀ y, (unpin_node s3 np true).2.pins y =
                  if y = np then s3.pins np - 1 else s3.pins y :=
                fun y => unpin_pins_pos' s3 np true y hcAst hcA
              have hcB : 0 < (unpin_node s3 np true).2.pins nbr := by
                simp only [hu1, hs3p]
                split_ifs <;> subst_vars <;> omega
              have hcBst : ((unpin_node s3 np true).2.store nbr).isSome = true := by
                rw [unpin_store, hs3d]
                exact hnbr_res
              have hu2 : ∀ y,
                  (unpin_node (unpin_node s3 np true).2 nbr true).2.pins y =
                  if y = nbr then (unpin_node s3 np true).2.pins nbr - 1
                  else (unpin_node s3 np true).2.pins y :=
                fun y => unpin_pins_pos' _ nbr true y hcBst hcB
              have hU2st :
                  ((unpin_node (unpin_node s3 np true).2 nbr true).2.store par).isSome
                    = true := by
                rw [unpin_store, unpin_store, hs3d]
                exact hpar_res
              have hU2pin :
                  0 < (unpin_node (unpin_node s3 np true).2 nbr true).2.pins par := by
                simp only [hu2, hu1, hs3p]
                split_ifs <;> subst_vars <;> omega
              obtain ⟨hip, hid, hin⟩ := ih _ par b s' h hU2pin hU2st
              refine ⟨?_, ?_, ?_⟩
              · intro x
                rw [hip x]
                simp only [hu2, hu1, hs3p]
                split_ifs <;> subst_vars <;> omega
              · intro x
                rw [hid x]
                simp only [unpin_store]
                exact hs3d x
              · rw [hin]
                simp only [unpin_next]
                exact hs3n
            · rw [if_neg hdp] at h
              cases h
              have hcA : 0 < s3.pins np := by
                simp only [hs3p]
                split_ifs <;> subst_vars <;> omega
              have hcAst : (s3.store np).isSome = true := by
                rw [hs3d]
                exact hres
              have hu1 : ∀ y, (unpin_node s3 np true).2.pins y =
                  if y = np then s3.pins np - 1 else s3.pins y :=
                fun y => unpin_pins_pos' s3 np true y hcAst hcA
              have hcP : 0 < (unpin_node s3 np true).2.pins par := by
                simp only [hu1, hs3p]
                split_ifs <;> subst_vars <;> omega
              have hcPst : ((unpin_node s3 np true).2.store par).isSome = true := by
                rw [unpin_store, hs3d]
                exact hpar_res
              have hu2 : ∀ y,
                  (unpin_node (unpin_node s3 np true).2 par true).2.pins y =
                  if y = par then (unpin_node s3 np true).2.pins par - 1
                  else (unpin_node s3 np true).2.pins y :=
                fun y => unpin_pins_pos' _ par true y hcPst hcP
              have hcB2 :
                  0 < (unpin_node (unpin_node s3 np true).2 par true).2.pins nbr := by
                simp only [hu2, hu1, hs3p]
                split_ifs <;> subst_vars <;> omega
              have hcB2st :
                  ((unpin_node (unpin_node s3 np true).2 par true).2.store nbr).isSome
                    = true := by
                rw [unpin_store, unpin_store, hs3d]
                exact hnbr_res
              refine ⟨?_, ?_, ?_⟩
              · intro x
                rw [unpin_pins_pos' _ nbr true x hcB2st hcB2]
                simp only [hu2, hu1, hs3p]
                split_ifs <;> subst_vars <;> omega
              · intro x
                simp only [unpin_store]
                exact hs3d x
              · simp only [unpin_next]
                exact hs3n
          · subst nb2
            subst np2
            by_cases hdp : dp2 = true
            · rw [if_pos hdp] at h
              have hcA : 0 < s3.pins nbr := by
                simp only [hs3p]
                split_ifs <;> subst_vars <;> omega
              have hcAst : (s3.store nbr).isSome = true := by
                rw [hs3d]
                exact hnbr_res
              have hu1 : ∀ y, (unpin_node s3 nbr true).2.pins y =
                  if y = nbr then s3.pins nbr - 1 else s3.pins y :=
                fun y => unpin_pins_pos' s3 nbr true y hcAst hcA
              have hcB : 0 < (unpin_node s3 nbr true).2.pins np := by
                simp only [hu1, hs3p]
                split_ifs <;> subst_vars <;> omega
              have hcBst : ((unpin_node s3 nbr true).2.store np).isSome = true := by
                rw [unpin_store, hs3d]
                exact hres
              have hu2 : ∀ y,
                  (unpin_node (unpin_node s3 nbr true).2 np true).2.pins y =
                  if y = np then (unpin_node s3 nbr true).2.pins np - 1
                  else (unpin_node s3 nbr true).2.pins y :=
                fun y => unpin_pins_pos' _ np true y hcBst hcB
              have hU2st :
                  ((unpin_node (unpin_node s3 nbr true).2 np true).2.store par).isSome
                    = true := by
                rw [unpin_store, unpin_store, hs3d]
                exact hpar_res
              have hU2pin :
                  0 < (unpin_node (unpin_node s3 nbr true).2 np true).2.pins par := by
                simp only [hu2, hu1, hs3p]
                split_ifs <;> subst_vars <;> omega
              obtain ⟨hip, hid, hin⟩ := ih _ par b s' h hU2pin hU2st
              refine ⟨?_, ?_, ?_⟩
              · intro x
                rw [hip x]
                simp only [hu2, hu1, hs3p]
                split_ifs <;> subst_vars <;> omega
              · intro x
                rw [hid x]
                simp only [unpin_store]
                exact hs3d x
              · rw [hin]
                simp only [unpin_next]
                exact hs3n
            · rw [if_neg hdp] at h
              cases h
              have hcA : 0 < s3.pins nbr := by
                simp only [hs3p]
                split_ifs <;> subst_vars <;> omega
              have hcAst : (s3.store nbr).isSome = true := by
                rw [hs3d]
                exact hnbr_res
              have hu1 : ∀ y, (unpin_node s3 nbr true).2.pins y =
                  if y = nbr then s3.pins nbr - 1 else s3.pins y :=
                fun y => unpin_pins_pos' s3 nbr true y hcAst hcA
              have hcP : 0 < (unpin_node s3 nbr true).2.pins par := by
                simp only [hu1, hs3p]
                split_ifs <;> subst_vars <;> omega
              have hcPst : ((unpin_node s3 nbr true).2.store par).isSome = true := by
                rw [unpin_store, hs3d]
                exact hpar_res
              have hu2 : ∀ y,
                  (unpin_node (unpin_node s3 nbr true).2 par true).2.pins y =
                  if y = par then (unpin_node s3 nbr true).2.pins par - 1
                  else (unpin_node s3 nbr true).2.pins y :=
                fun y => unpin_pins_pos' _ par true y hcPst hcP
              have hcB2 :
                  0 < (unpin_node (unpin_node s3 nbr true).2 par true).2.pins np := by
                simp only [hu2, hu1, hs3p]
                split_ifs <;> subst_vars <;> omega
              have hcB2st :
                  ((unpin_node (unpin_node s3 nbr true).2 par true).2.store np).isSome
                    = true := by
                rw [unpin_store, unpin_store, hs3d]
                exact hres
              refine ⟨?_, ?_, ?_⟩
              · intro x
                rw [unpin_pins_pos' _ np true x hcB2st hcB2]
                simp only [hu2, hu1, hs3p]
                split_ifs <;> subst_vars <;> omega
              · intro x
                simp only [unpin_store]
                exact hs3d x
              · simp only [unpin_next]
                exact hs3n

/-- `delete_entry` is pin-neutral. -/
theorem delete_entry_pins (fuel : Nat) (s : IxState) (key : Key) (txn : Bool)
    (b : Bool) (s' : IxState)
    (h : delete_entry fuel s key txn = .ok (b, s')) :
    ∀ x, s'.pins x = s.pins x := by
  simp only [delete_entry] at h
  obtain ⟨⟨ro, s1⟩, hflp, h⟩ := exbind_ok_inv h
  have hframe := find_leaf_page_frame fuel s key ro s1 hflp
  cases ro with
  | none =>
    dsimp only at h
    cases h
    rw [hframe.1 rfl]
    exact fun x => rfl
  | some lq =>
    dsimp only at h
    obtain ⟨hfs, hfn, hfp⟩ := hframe.2 lq rfl
    obtain ⟨leaf, hgl, h⟩ := exbind_ok_inv h
    have hlst := getNode_ok_inv hgl
    obtain ⟨leaf1, hrm, h⟩ := exbind_ok_inv h
    by_cases hsame : leaf1.size = leaf.size
    · rw [if_pos hsame] at h
      cases h
      intro x
      have hpin2 : 0 < (s1.setNode lq leaf1).pins lq := by
        simp [hfp lq]
      rw [unpin_pins_pos' _ _ _ x (by simp) hpin2]
      by_cases hx : x = lq
      · subst hx
        simp [hfp]
      · simp [hfp, hx]
    · rw [if_neg hsame] at h
      by_cases hpos : leaf1.size > 0
      · rw [if_pos hpos] at h
        obtain ⟨s3, hmp, h⟩ := exbind_ok_inv h
        obtain ⟨hmpp, hmpd, hmpn⟩ := maintain_parent_frame fuel _ _ _ hmp
        have hp3 : ∀ x, s3.pins x = s.pins x + (if x = lq then 1 else 0) := by
          intro x
          rw [hmpp x]
          simpa using hfp x
        have hd3r : (s3.store lq).isSome = true := by
          rw [hmpd lq]
          simp
        obtain ⟨⟨need_del, s4⟩, hcor, h⟩ := exbind_ok_inv h
        dsimp only at h
        obtain ⟨hip, hid, hin⟩ := coalesce_or_redistribute_pins fuel s3 lq need_del s4
          hcor (by rw [hp3 lq]; simp) hd3r
        have hp4 : ∀ y, s4.pins y = s.pins y := by
          intro y
          rw [hip y]
          by_cases hy : y = lq
          · subst hy
            rw [if_pos rfl, hp3 y, if_pos rfl]
            simp
          · rw [if_neg hy, hp3 y, if_neg hy]
            simp
        by_cases htx : need_del = true ∧ txn = true
        · rw [if_pos htx] at h
          obtain ⟨⟨nd4, sa⟩, hf4, h⟩ := exbind_ok_inv h
          obtain ⟨hst4, hsa⟩ := fetch_node_ok_inv hf4
          dsimp only at h hsa
          subst hsa
          simp only [expure_eq, exbind_ok] at h
          cases h
          intro x
          have hq : 0 < ({ s4 with pins := fun q => if q = lq then s4.pins lq + 1 else s4.pins q } : IxState).pins lq := by
            simp
          rw [unpin_pins_pos' _ _ _ x (by simpa using congrArg Option.isSome hst4) hq]
          by_cases hx : x = lq
          · subst hx
            simp [hp4]
          · simp [hx, hp4]
        · rw [if_neg htx] at h
          simp only [expure_eq, exbind_ok] at h
          cases h
          exact hp4
      · rw [if_neg hpos] at h
        generalize hgen : s1.setNode lq leaf1 = s3 at h
        obtain ⟨s3x, hpure, h⟩ := exbind_ok_inv h
        cases hpure
        have hp3 : ∀ x, s3.pins x = s.pins x + (if x = lq then 1 else 0) := by
          intro x
          rw [← hgen]
          simpa using hfp x
        have hd3r : (s3.store lq).isSome = true := by
          rw [← hgen]
          simp
        obtain ⟨⟨need_del, s4⟩, hcor, h⟩ := exbind_ok_inv h
        dsimp only at h
        obtain ⟨hip, hid, hin⟩ := coalesce_or_redistribute_pins fuel s3 lq need_del s4
          hcor (by rw [hp3 lq]; simp) hd3r
        have hp4 : ∀ y, s4.pins y = s.pins y := by
          intro y
          rw [hip y]
          by_cases hy : y = lq
          · subst hy
            rw [if_pos rfl, hp3 y, if_pos rfl]
            simp
          · rw [if_neg hy, hp3 y, if_neg hy]
            simp
        by_cases htx : need_del = true ∧ txn = true
        · rw [if_pos htx] at h
          obtain ⟨⟨nd4, sa⟩, hf4, h⟩ := exbind_ok_inv h
          obtain ⟨hst4, hsa⟩ := fetch_node_ok_inv hf4
          dsimp only at h hsa
          subst hsa
          simp only [expure_eq, exbind_ok] at h
          cases h
          intro x
          have hq : 0 < ({ s4 with pins := fun q => if q = lq then s4.pins lq + 1 else s4.pins q } : IxState).pins lq := by
            simp
          rw [unpin_pins_pos' _ _ _ x (by simpa using congrArg Option.isSome hst4) hq]
          by_cases hx : x = lq
          · subst hx
            simp [hp4]
          · simp [hx, hp4]
        · rw [if_neg htx] at h
          simp only [expure_eq, exbind_ok] at h
          cases h
          exact hp4

/-- The pin count at `p` of a successful `get_value` result. -/
def pinsGV (r : Except IxErr (Bool × List Rid × IxState)) (p : Int) : Option Nat :=
  match r with
  | .ok (_, _, s1) => some (s1.pins p)
  | .error _ => none

/-- The pin count at `p` of a successful `insert_entry` result. -/
def pinsIE (r : Except IxErr (Int × IxState)) (p : Int) : Option Nat :=
  match r with
  | .ok (_, s1) => some (s1.pins p)
  | .error _ => none

/-- The pin count at `p` of a successful `delete_entry` result. -/
def pinsDE (r : Except IxErr (Bool × IxState)) (p : Int) : Option Nat :=
  match r with
  | .ok (_, s1) => some (s1.pins p)
  | .error _ => none

/-- C9: on any state whose unallocated pages are absent and unpinned (as the
buffer pool guarantees), each of `get_value`, `insert_entry` and
`delete_entry` unpins every page it pins: when the operation returns
normally, every page's pin count equals its value at the operation's
entry. -/
theorem pin_balance (fuel : Nat) (s : IxState)
    (hpin0 : ∀ p, s.next_page_no ≤ p → s.pins p = 0)
    (hfresh : ∀ p, s.next_page_no ≤ p → (s.store p).isSome = false) :
    (∀ key found rids s1, get_value fuel s key = .ok (found, rids, s1) →
      ∀ p, s1.pins p = s.pins p) ∧
    (∀ key value r s1, insert_entry fuel s key value = .ok (r, s1) →
      ∀ p, s1.pins p = s.pins p) ∧
    (∀ key txn b s1, delete_entry fuel s key txn = .ok (b, s1) →
      ∀ p, s1.pins p = s.pins p) :=
  ⟨fun key found rids s1 h => get_value_pins fuel s key found rids s1 h,
   fun key value r s1 h => insert_entry_pins fuel s key value r s1 h hpin0 hfresh,
   fun key txn b s1 h => delete_entry_pins fuel s key txn b s1 h⟩

/-- Witness for `pin_balance`: a search, an insert and a delete on the
one-entry index all leave the root leaf's pin count at its entry value. -/
theorem pin_balance_witness :
    pinsGV (get_value 9 sW8 [10]) 2 = some (sW8.pins 2) ∧
    pinsIE (insert_entry 9 sW8 [20] ⟨20, 0⟩) 2 = some (sW8.pins 2) ∧
    pinsDE (delete_entry 9 sW8 [10] false) 2 = some (sW8.pins 2) := by
  obtain ⟨hgv, hie, hde⟩ := pin_balance 9 sW8 (fun p hp => rfl)
    (by
      intro p hp
      simp only [sW8] at hp
      have h2 : p ≠ 2 := by omega
      have h1 : p ≠ 1 := by omega
      simp [sW8, h1, h2])
  refine ⟨?_, ?_, ?_⟩
  · cases hh : get_value 9 sW8 [10] with
    | error e =>
      have hok : exOk (get_value 9 sW8 [10]) = true := by decide
      rw [hh] at hok
      simp [exOk] at hok
    | ok t =>
      obtain ⟨found, rids, s1⟩ := t
      have h2 := hgv [10] found rids s1 hh 2
      show some (s1.pins 2) = some (sW8.pins 2)
      rw [h2]
  · cases hh : insert_entry 9 sW8 [20] ⟨20, 0⟩ with
    | error e =>
      have hok : exOk (insert_entry 9 sW8 [20] ⟨20, 0⟩) = true := by decide
      rw [hh] at hok
      simp [exOk] at hok
    | ok t =>
      obtain ⟨r, s1⟩ := t
      have h2 := hie [20] ⟨20, 0⟩ r s1 hh 2
      show some (s1.pins 2) = some (sW8.pins 2)
      rw [h2]
  · cases hh : delete_entry 9 sW8 [10] false with
    | error e =>
      have hok : exOk (delete_entry 9 sW8 [10] false) = true := by decide
      rw [hh] at hok
      simp [exOk] at hok
    | ok t =>
      obtain ⟨b, s1⟩ := t
      have h2 := hde [10] false b s1 hh 2
      show some (s1.pins 2) = some (sW8.pins 2)
      rw [h2]
end CQUDB
